import Mathlib

/-!
Shallow embedding of `src/1/corobus.cpp`, a cooperative coroutine message
bus: a sparse table of bounded FIFO channels, each with a send wait queue
and a recv wait queue, a bus-level broadcast wait queue, and a process-wide
error indicator.

Modelling conventions:
* `unsigned` payloads and `size_t` sizes are modelled as `Nat` (idealized,
  width-unbounded); channel descriptors are `Int` (the C `int` parameter,
  so that the `channel < 0` check in `coro_bus_get_channel` is visible).
* A wait queue is the list of ids of the suspended coroutines, head first;
  an entry models the intrusive `wakeup_entry` of the waiter.
* The `std::deque<unsigned> data` buffer is a `List Nat`, head = front.
* The channel table `coro_bus_channel **channels` with `channel_count` is a
  `List (Option coro_bus_channel)`; a `none` entry is a `NULL` slot.
* A possibly-`NULL` `struct coro_bus *` argument is `Option coro_bus`.
* Blocking operations (`coro_bus_send`, `coro_bus_recv`,
  `coro_bus_broadcast`, `coro_bus_send_v`, `coro_bus_recv_v`) are `while`
  loops whose only suspension point is `wakeup_queue_suspend_this`; they
  are embedded as their loop body, one atomic step from (re)entry of the
  loop to either `return` or suspension.  `step_result.suspended` means the
  coroutine parked itself (its id was appended to a wait queue) and will
  re-run the same step when resumed.
* `coro_bus_channel_close` and `coro_bus_delete` never touch the global
  error indicator in the source; they take the prior indicator value `e`
  and return it unchanged, while the operations that write the indicator
  on every return path simply return the written value.
-/

/-- The `coro_bus_error_code` enumeration. -/
inductive coro_bus_error_code where
  | NONE
  | NO_CHANNEL
  | WOULD_BLOCK
deriving DecidableEq, Repr

/-- A channel: capacity, the two wait queues (lists of waiting coroutine
ids, head first) and the FIFO data buffer (head = front of the deque). -/
structure coro_bus_channel where
  size_limit : Nat
  send_queue : List Nat
  recv_queue : List Nat
  data : List Nat
deriving DecidableEq, Repr

/-- The bus: sparse channel table plus the broadcast wait queue. -/
structure coro_bus where
  channels : List (Option coro_bus_channel)
  broadcast_queue : List Nat
deriving DecidableEq, Repr

/-- `wakeup_queue_wakeup_first`: detach the head entry (if any) and wake
that coroutine.  Returns (remaining queue, woken ids). -/
def wakeup_queue_wakeup_first (q : List Nat) : List Nat × List Nat :=
  (q.drop 1, q.take 1)

/-- `wakeup_queue_wakeup_all`: detach and wake every entry. -/
def wakeup_queue_wakeup_all (q : List Nat) : List Nat × List Nat :=
  ([], q)

/-- The loop `for i in [0, k): wakeup_queue_wakeup_first(q)` used by the
batch operations: detaches and wakes the first `k` entries (fewer when the
queue is shorter). -/
def wakeup_queue_wakeup_n (q : List Nat) (k : Nat) : List Nat × List Nat :=
  (q.drop k, q.take k)

/-- The channel stored at descriptor `channel` of a (non-NULL) bus:
`none` on a negative or out-of-range descriptor or an empty slot. -/
def chanAt (bus : coro_bus) (channel : Int) : Option coro_bus_channel :=
  if channel < 0 then none
  else bus.channels.getD channel.toNat none

/-- `coro_bus_get_channel` (without its errno side effect, which the
callers below reproduce on the `none` path). -/
def coro_bus_get_channel (bus : Option coro_bus) (channel : Int) :
    Option coro_bus_channel :=
  match bus with
  | none => none
  | some b => chanAt b channel

/-- Replace slot `d` of the channel table. -/
def set_channel (bus : coro_bus) (d : Nat) (c : Option coro_bus_channel) :
    coro_bus :=
  { bus with channels := bus.channels.set d c }

/-- Result of one atomic step of an operation: the operation either
returned `ret`, or suspended the calling coroutine on a wait queue. -/
inductive step_result where
  | done (ret : Int)
  | suspended
deriving DecidableEq, Repr

/-- Observable effect of one atomic step of a bus operation: the step
result, the bus afterwards, the error-indicator value afterwards, the ids
of the coroutines woken (in wake order) and the payloads written through
the caller's output pointer (in write order). -/
structure op_effect where
  res : step_result
  bus : Option coro_bus
  err : coro_bus_error_code
  woken : List Nat
  out : List Nat
deriving DecidableEq, Repr

/-- `coro_bus_new`: a fresh bus with an empty channel table; writes
`NONE`. -/
def coro_bus_new : Option coro_bus × coro_bus_error_code :=
  (some { channels := [], broadcast_queue := [] }, coro_bus_error_code.NONE)

/-- `coro_bus_delete`: frees the bus (so the handle is gone afterwards)
and never writes the error indicator, returning the prior value `e`
unchanged on both of its return paths (`bus == NULL` and normal). -/
def coro_bus_delete (bus : Option coro_bus) (e : coro_bus_error_code) :
    Option coro_bus × coro_bus_error_code :=
  match bus with
  | none => (none, e)
  | some _ => (none, e)

/-- `coro_bus_channel_open`: scan for the lowest `NULL` slot; grow the
table by one slot only when there is none; install a fresh empty channel
with the requested `size_limit`; write `NONE` and return the descriptor.
On a `NULL` bus write `NO_CHANNEL` and return `-1`. -/
def coro_bus_channel_open (bus : Option coro_bus) (size_limit : Nat) :
    op_effect :=
  match bus with
  | none => ⟨.done (-1), none, .NO_CHANNEL, [], []⟩
  | some b =>
    let fresh : coro_bus_channel :=
      { size_limit := size_limit, send_queue := [], recv_queue := [],
        data := [] }
    match b.channels.findIdx? Option.isNone with
    | some i =>
      ⟨.done (Int.ofNat i), some (set_channel b i (some fresh)), .NONE,
        [], []⟩
    | none =>
      ⟨.done (Int.ofNat b.channels.length),
        some { b with channels := b.channels ++ [some fresh] }, .NONE,
        [], []⟩

/-- `coro_bus_channel_close`: on an invalid descriptor, silently return.
Otherwise detach the channel from its slot first, wake all of its send
and recv waiters, wake all broadcast waiters, and destroy the channel.
The error indicator is never written: `e` is the prior value, returned
unchanged on every path. -/
def coro_bus_channel_close (bus : Option coro_bus) (channel : Int)
    (e : coro_bus_error_code) : op_effect :=
  match bus with
  | none => ⟨.done 0, none, e, [], []⟩
  | some b =>
    match chanAt b channel with
    | none => ⟨.done 0, some b, e, [], []⟩
    | some ch =>
      let b' := set_channel b channel.toNat none
      let wsend := wakeup_queue_wakeup_all ch.send_queue
      let wrecv := wakeup_queue_wakeup_all ch.recv_queue
      let wb := wakeup_queue_wakeup_all b'.broadcast_queue
      ⟨.done 0, some { b' with broadcast_queue := wb.1 }, e,
        wsend.2 ++ wrecv.2 ++ wb.2, []⟩

/-- One iteration of the `coro_bus_send` retry loop, run by coroutine
`self`: re-resolve the channel (`NO_CHANNEL` / `-1` when gone); if there
is room, append the payload, write `NONE`, wake the first recv waiter and
return `0`; otherwise write `WOULD_BLOCK` and suspend on the send
queue. -/
def coro_bus_send_step (bus : Option coro_bus) (channel : Int) (data : Nat)
    (self : Nat) : op_effect :=
  match bus with
  | none => ⟨.done (-1), none, .NO_CHANNEL, [], []⟩
  | some b =>
    match chanAt b channel with
    | none => ⟨.done (-1), some b, .NO_CHANNEL, [], []⟩
    | some ch =>
      if ch.data.length < ch.size_limit then
        let w := wakeup_queue_wakeup_first ch.recv_queue
        ⟨.done 0,
          some (set_channel b channel.toNat
            (some { ch with data := ch.data ++ [data], recv_queue := w.1 })),
          .NONE, w.2, []⟩
      else
        ⟨.suspended,
          some (set_channel b channel.toNat
            (some { ch with send_queue := ch.send_queue ++ [self] })),
          .WOULD_BLOCK, [], []⟩

/-- `coro_bus_try_send`: as the send fast path, but a full channel gives
`WOULD_BLOCK` / `-1` instead of suspending. -/
def coro_bus_try_send (bus : Option coro_bus) (channel : Int) (data : Nat) :
    op_effect :=
  match bus with
  | none => ⟨.done (-1), none, .NO_CHANNEL, [], []⟩
  | some b =>
    match chanAt b channel with
    | none => ⟨.done (-1), some b, .NO_CHANNEL, [], []⟩
    | some ch =>
      if ch.size_limit ≤ ch.data.length then
        ⟨.done (-1), some b, .WOULD_BLOCK, [], []⟩
      else
        let w := wakeup_queue_wakeup_first ch.recv_queue
        ⟨.done 0,
          some (set_channel b channel.toNat
            (some { ch with data := ch.data ++ [data], recv_queue := w.1 })),
          .NONE, w.2, []⟩

/-- One iteration of the `coro_bus_recv` retry loop, run by coroutine
`self`: re-resolve the channel; if the buffer is non-empty, pop the front
into the output, write `NONE`, wake the first send waiter and the first
broadcast waiter, and return `0`; otherwise write `WOULD_BLOCK` and
suspend on the recv queue. -/
def coro_bus_recv_step (bus : Option coro_bus) (channel : Int)
    (self : Nat) : op_effect :=
  match bus with
  | none => ⟨.done (-1), none, .NO_CHANNEL, [], []⟩
  | some b =>
    match chanAt b channel with
    | none => ⟨.done (-1), some b, .NO_CHANNEL, [], []⟩
    | some ch =>
      match ch.data with
      | [] =>
        ⟨.suspended,
          some (set_channel b channel.toNat
            (some { ch with recv_queue := ch.recv_queue ++ [self] })),
          .WOULD_BLOCK, [], []⟩
      | v :: rest =>
        let w := wakeup_queue_wakeup_first ch.send_queue
        let wb := wakeup_queue_wakeup_first b.broadcast_queue
        ⟨.done 0,
          some { (set_channel b channel.toNat
              (some { ch with data := rest, send_queue := w.1 })) with
            broadcast_queue := wb.1 },
          .NONE, w.2 ++ wb.2, [v]⟩

/-- `coro_bus_try_recv`: as the recv fast path, but an empty channel gives
`WOULD_BLOCK` / `-1` instead of suspending. -/
def coro_bus_try_recv (bus : Option coro_bus) (channel : Int) : op_effect :=
  match bus with
  | none => ⟨.done (-1), none, .NO_CHANNEL, [], []⟩
  | some b =>
    match chanAt b channel with
    | none => ⟨.done (-1), some b, .NO_CHANNEL, [], []⟩
    | some ch =>
      match ch.data with
      | [] => ⟨.done (-1), some b, .WOULD_BLOCK, [], []⟩
      | v :: rest =>
        let w := wakeup_queue_wakeup_first ch.send_queue
        let wb := wakeup_queue_wakeup_first b.broadcast_queue
        ⟨.done 0,
          some { (set_channel b channel.toNat
              (some { ch with data := rest, send_queue := w.1 })) with
            broadcast_queue := wb.1 },
          .NONE, w.2 ++ wb.2, [v]⟩

/-- Whether the bus has at least one open channel (the `has_any` flag of
the broadcast scan). -/
def has_open_channel (bus : coro_bus) : Bool :=
  bus.channels.any Option.isSome

/-- Whether every open channel has room (the `all_have_space` flag of the
broadcast scan; the scan's early break on a full channel does not change
the value). -/
def all_open_have_space (bus : coro_bus) : Bool :=
  bus.channels.all fun o =>
    match o with
    | none => true
    | some ch => ch.data.length < ch.size_limit

/-- The committing pass of a broadcast: append the payload to every open
channel and wake the first recv waiter of each. -/
def broadcast_push (bus : coro_bus) (v : Nat) : coro_bus :=
  { bus with
    channels := bus.channels.map fun o =>
      o.map fun ch =>
        { ch with
          data := ch.data ++ [v],
          recv_queue := (wakeup_queue_wakeup_first ch.recv_queue).1 } }

/-- The recv waiters woken by the committing pass of a broadcast, in slot
order. -/
def broadcast_woken (bus : coro_bus) : List Nat :=
  (bus.channels.map fun o =>
    match o with
    | none => []
    | some ch => (wakeup_queue_wakeup_first ch.recv_queue).2).flatten

/-- One iteration of the `coro_bus_broadcast` retry loop, run by coroutine
`self`: `NO_CHANNEL` / `-1` on a NULL bus, an empty table or a table with
no open channel; if every open channel has room, append to all of them,
wake one recv waiter per channel, write `NONE` and return `0`; otherwise
write `WOULD_BLOCK` and suspend on the bus broadcast queue. -/
def coro_bus_broadcast_step (bus : Option coro_bus) (data : Nat)
    (self : Nat) : op_effect :=
  match bus with
  | none => ⟨.done (-1), none, .NO_CHANNEL, [], []⟩
  | some b =>
    if b.channels.isEmpty then ⟨.done (-1), some b, .NO_CHANNEL, [], []⟩
    else if ¬ has_open_channel b then
      ⟨.done (-1), some b, .NO_CHANNEL, [], []⟩
    else if all_open_have_space b then
      ⟨.done 0, some (broadcast_push b data), .NONE, broadcast_woken b, []⟩
    else
      ⟨.suspended,
        some { b with broadcast_queue := b.broadcast_queue ++ [self] },
        .WOULD_BLOCK, [], []⟩

/-- `coro_bus_try_broadcast`: as one broadcast iteration, but when some
open channel is full it returns `WOULD_BLOCK` / `-1` instead of
suspending. -/
def coro_bus_try_broadcast (bus : Option coro_bus) (data : Nat) :
    op_effect :=
  match bus with
  | none => ⟨.done (-1), none, .NO_CHANNEL, [], []⟩
  | some b =>
    if b.channels.isEmpty then ⟨.done (-1), some b, .NO_CHANNEL, [], []⟩
    else if ¬ has_open_channel b then
      ⟨.done (-1), some b, .NO_CHANNEL, [], []⟩
    else if all_open_have_space b then
      ⟨.done 0, some (broadcast_push b data), .NONE, broadcast_woken b, []⟩
    else
      ⟨.done (-1), some b, .WOULD_BLOCK, [], []⟩

/-- One step of `coro_bus_send_v`, run by coroutine `self`.  The payloads
are `data` (so `count = data.length`); a zero count returns `0` with
`NONE` before the loop.  In the loop: re-resolve the channel; when full,
write `WOULD_BLOCK` and suspend on the send queue; otherwise transfer
`min(space, count)` payloads in order, write `NONE`, wake that many recv
waiters and return the number transferred.  This definition idealizes
the `(unsigned)space` narrowing of the source's `std::min<unsigned>` to
unbounded arithmetic; it agrees with the source exactly when
`size_limit < 2^32`.  `coro_bus_send_v_step_u32` models the casts
bit-exactly. -/
def coro_bus_send_v_step (bus : Option coro_bus) (channel : Int)
    (data : List Nat) (self : Nat) : op_effect :=
  if data.length = 0 then
    ⟨.done 0, bus, .NONE, [], []⟩
  else
    match bus with
    | none => ⟨.done (-1), none, .NO_CHANNEL, [], []⟩
    | some b =>
      match chanAt b channel with
      | none => ⟨.done (-1), some b, .NO_CHANNEL, [], []⟩
      | some ch =>
        if ch.size_limit ≤ ch.data.length then
          ⟨.suspended,
            some (set_channel b channel.toNat
              (some { ch with send_queue := ch.send_queue ++ [self] })),
            .WOULD_BLOCK, [], []⟩
        else
          let space := ch.size_limit - ch.data.length
          let to_send := min space data.length
          let w := wakeup_queue_wakeup_n ch.recv_queue to_send
          ⟨.done (Int.ofNat to_send),
            some (set_channel b channel.toNat
              (some { ch with
                data := ch.data ++ data.take to_send,
                recv_queue := w.1 })),
            .NONE, w.2, []⟩

/-- `coro_bus_try_send_v`: as one send_v step, but a full channel gives
`WOULD_BLOCK` / `-1` instead of suspending.  Same idealization of the
`(unsigned)space` narrowing as `coro_bus_send_v_step`; the bit-exact
version is `coro_bus_try_send_v_u32`. -/
def coro_bus_try_send_v (bus : Option coro_bus) (channel : Int)
    (data : List Nat) : op_effect :=
  if data.length = 0 then
    ⟨.done 0, bus, .NONE, [], []⟩
  else
    match bus with
    | none => ⟨.done (-1), none, .NO_CHANNEL, [], []⟩
    | some b =>
      match chanAt b channel with
      | none => ⟨.done (-1), some b, .NO_CHANNEL, [], []⟩
      | some ch =>
        if ch.size_limit ≤ ch.data.length then
          ⟨.done (-1), some b, .WOULD_BLOCK, [], []⟩
        else
          let space := ch.size_limit - ch.data.length
          let to_send := min space data.length
          let w := wakeup_queue_wakeup_n ch.recv_queue to_send
          ⟨.done (Int.ofNat to_send),
            some (set_channel b channel.toNat
              (some { ch with
                data := ch.data ++ data.take to_send,
                recv_queue := w.1 })),
            .NONE, w.2, []⟩

/-- One step of `coro_bus_recv_v`, run by coroutine `self`, with output
buffer capacity `capacity`; a zero capacity returns `0` with `NONE` before
the loop.  In the loop: re-resolve the channel; when empty, write
`WOULD_BLOCK` and suspend on the recv queue; otherwise drain
`min(buffer.len, capacity)` payloads from the front, write `NONE`, wake
that many send waiters plus the first broadcast waiter, and return the
number drained.  This definition idealizes the source's
`(unsigned)ch->data.size()` narrowing and `(int)to_recv` result cast to
unbounded arithmetic; they agree whenever fewer than `2^32` items are
buffered and `capacity ≤ 2^31 - 1`.  `coro_bus_recv_v_step_u32` models
the casts bit-exactly. -/
def coro_bus_recv_v_step (bus : Option coro_bus) (channel : Int)
    (capacity : Nat) (self : Nat) : op_effect :=
  if capacity = 0 then
    ⟨.done 0, bus, .NONE, [], []⟩
  else
    match bus with
    | none => ⟨.done (-1), none, .NO_CHANNEL, [], []⟩
    | some b =>
      match chanAt b channel with
      | none => ⟨.done (-1), some b, .NO_CHANNEL, [], []⟩
      | some ch =>
        if ch.data.isEmpty then
          ⟨.suspended,
            some (set_channel b channel.toNat
              (some { ch with recv_queue := ch.recv_queue ++ [self] })),
            .WOULD_BLOCK, [], []⟩
        else
          let to_recv := min ch.data.length capacity
          let w := wakeup_queue_wakeup_n ch.send_queue to_recv
          let wb := wakeup_queue_wakeup_first b.broadcast_queue
          ⟨.done (Int.ofNat to_recv),
            some { (set_channel b channel.toNat
                (some { ch with
                  data := ch.data.drop to_recv,
                  send_queue := w.1 })) with broadcast_queue := wb.1 },
            .NONE, w.2 ++ wb.2, ch.data.take to_recv⟩

/-- `coro_bus_try_recv_v`: as one recv_v step, but an empty channel gives
`WOULD_BLOCK` / `-1` instead of suspending.  Same idealization of the
casts as `coro_bus_recv_v_step`; the bit-exact version is
`coro_bus_try_recv_v_u32`. -/
def coro_bus_try_recv_v (bus : Option coro_bus) (channel : Int)
    (capacity : Nat) : op_effect :=
  if capacity = 0 then
    ⟨.done 0, bus, .NONE, [], []⟩
  else
    match bus with
    | none => ⟨.done (-1), none, .NO_CHANNEL, [], []⟩
    | some b =>
      match chanAt b channel with
      | none => ⟨.done (-1), some b, .NO_CHANNEL, [], []⟩
      | some ch =>
        if ch.data.isEmpty then
          ⟨.done (-1), some b, .WOULD_BLOCK, [], []⟩
        else
          let to_recv := min ch.data.length capacity
          let w := wakeup_queue_wakeup_n ch.send_queue to_recv
          let wb := wakeup_queue_wakeup_first b.broadcast_queue
          ⟨.done (Int.ofNat to_recv),
            some { (set_channel b channel.toNat
                (some { ch with
                  data := ch.data.drop to_recv,
                  send_queue := w.1 })) with broadcast_queue := wb.1 },
            .NONE, w.2 ++ wb.2, ch.data.take to_recv⟩

/-! ### Bit-exact batch operations

The source computes `to_send = std::min<unsigned>((unsigned)space, count)`
and `to_recv = std::min<unsigned>((unsigned)ch->data.size(), capacity)`
and returns `(int)to_send` / `(int)to_recv`: `space` (a `size_t`) and the
deque size are narrowed to 32 bits before the comparison, and the result
is converted to `int`.  The following variants of the four batch
operations model those casts bit-exactly (`count` and `capacity` are
`unsigned` parameters, so they are not narrowed further). -/

/-- Value of a C `(int)` cast of a 32-bit `unsigned` value on the target
implementation: values below `2^31` are preserved, larger ones wrap by
`2^32`. -/
def int_of_unsigned (n : Nat) : Int :=
  if n < 2147483648 then Int.ofNat n else Int.ofNat n - 4294967296

/-- One step of `coro_bus_send_v` with the source's casts modelled
bit-exactly: the free space is narrowed to 32 bits (`% 2^32`) before
`min`, and the number transferred is returned through an `(int)` cast. -/
def coro_bus_send_v_step_u32 (bus : Option coro_bus) (channel : Int)
    (data : List Nat) (self : Nat) : op_effect :=
  if data.length = 0 then
    ⟨.done 0, bus, .NONE, [], []⟩
  else
    match bus with
    | none => ⟨.done (-1), none, .NO_CHANNEL, [], []⟩
    | some b =>
      match chanAt b channel with
      | none => ⟨.done (-1), some b, .NO_CHANNEL, [], []⟩
      | some ch =>
        if ch.size_limit ≤ ch.data.length then
          ⟨.suspended,
            some (set_channel b channel.toNat
              (some { ch with send_queue := ch.send_queue ++ [self] })),
            .WOULD_BLOCK, [], []⟩
        else
          let space := (ch.size_limit - ch.data.length) % 4294967296
          let to_send := min space data.length
          let w := wakeup_queue_wakeup_n ch.recv_queue to_send
          ⟨.done (int_of_unsigned to_send),
            some (set_channel b channel.toNat
              (some { ch with
                data := ch.data ++ data.take to_send,
                recv_queue := w.1 })),
            .NONE, w.2, []⟩

/-- `coro_bus_try_send_v` with the source's casts modelled bit-exactly,
as in `coro_bus_send_v_step_u32`. -/
def coro_bus_try_send_v_u32 (bus : Option coro_bus) (channel : Int)
    (data : List Nat) : op_effect :=
  if data.length = 0 then
    ⟨.done 0, bus, .NONE, [], []⟩
  else
    match bus with
    | none => ⟨.done (-1), none, .NO_CHANNEL, [], []⟩
    | some b =>
      match chanAt b channel with
      | none => ⟨.done (-1), some b, .NO_CHANNEL, [], []⟩
      | some ch =>
        if ch.size_limit ≤ ch.data.length then
          ⟨.done (-1), some b, .WOULD_BLOCK, [], []⟩
        else
          let space := (ch.size_limit - ch.data.length) % 4294967296
          let to_send := min space data.length
          let w := wakeup_queue_wakeup_n ch.recv_queue to_send
          ⟨.done (int_of_unsigned to_send),
            some (set_channel b channel.toNat
              (some { ch with
                data := ch.data ++ data.take to_send,
                recv_queue := w.1 })),
            .NONE, w.2, []⟩

/-- One step of `coro_bus_recv_v` with the source's casts modelled
bit-exactly: the buffered length is narrowed to 32 bits before `min`,
and the number drained is returned through an `(int)` cast. -/
def coro_bus_recv_v_step_u32 (bus : Option coro_bus) (channel : Int)
    (capacity : Nat) (self : Nat) : op_effect :=
  if capacity = 0 then
    ⟨.done 0, bus, .NONE, [], []⟩
  else
    match bus with
    | none => ⟨.done (-1), none, .NO_CHANNEL, [], []⟩
    | some b =>
      match chanAt b channel with
      | none => ⟨.done (-1), some b, .NO_CHANNEL, [], []⟩
      | some ch =>
        if ch.data.isEmpty then
          ⟨.suspended,
            some (set_channel b channel.toNat
              (some { ch with recv_queue := ch.recv_queue ++ [self] })),
            .WOULD_BLOCK, [], []⟩
        else
          let to_recv := min (ch.data.length % 4294967296) capacity
          let w := wakeup_queue_wakeup_n ch.send_queue to_recv
          let wb := wakeup_queue_wakeup_first b.broadcast_queue
          ⟨.done (int_of_unsigned to_recv),
            some { (set_channel b channel.toNat
                (some { ch with
                  data := ch.data.drop to_recv,
                  send_queue := w.1 })) with broadcast_queue := wb.1 },
            .NONE, w.2 ++ wb.2, ch.data.take to_recv⟩

/-- `coro_bus_try_recv_v` with the source's casts modelled bit-exactly,
as in `coro_bus_recv_v_step_u32`. -/
def coro_bus_try_recv_v_u32 (bus : Option coro_bus) (channel : Int)
    (capacity : Nat) : op_effect :=
  if capacity = 0 then
    ⟨.done 0, bus, .NONE, [], []⟩
  else
    match bus with
    | none => ⟨.done (-1), none, .NO_CHANNEL, [], []⟩
    | some b =>
      match chanAt b channel with
      | none => ⟨.done (-1), some b, .NO_CHANNEL, [], []⟩
      | some ch =>
        if ch.data.isEmpty then
          ⟨.done (-1), some b, .WOULD_BLOCK, [], []⟩
        else
          let to_recv := min (ch.data.length % 4294967296) capacity
          let w := wakeup_queue_wakeup_n ch.send_queue to_recv
          let wb := wakeup_queue_wakeup_first b.broadcast_queue
          ⟨.done (int_of_unsigned to_recv),
            some { (set_channel b channel.toNat
                (some { ch with
                  data := ch.data.drop to_recv,
                  send_queue := w.1 })) with broadcast_queue := wb.1 },
            .NONE, w.2 ++ wb.2, ch.data.take to_recv⟩

/-! ### Basic facts about the channel table -/

theorem chanAt_elim {b : coro_bus} {d : Int} {ch : coro_bus_channel}
    (h : chanAt b d = some ch) :
    0 ≤ d ∧ d.toNat < b.channels.length ∧
      b.channels[d.toNat]? = some (some ch) := by
  unfold chanAt at h
  split at h
  · exact absurd h (by simp)
  · rename_i hd
    have h2 : b.channels[d.toNat]? = some (some ch) := by
      rcases e : b.channels[d.toNat]? with _ | o
      · rw [List.getD_eq_getElem?_getD, e] at h
        simp at h
      · rw [List.getD_eq_getElem?_getD, e] at h
        simp at h
        rw [h]
    refine ⟨Int.not_lt.mp hd, ?_, h2⟩
    exact (List.getElem?_eq_some.mp h2).1

theorem mem_of_chanAt {b : coro_bus} {d : Int} {ch : coro_bus_channel}
    (h : chanAt b d = some ch) : some ch ∈ b.channels := by
  exact List.getElem?_mem (chanAt_elim h).2.2

theorem chanAt_set_self {b : coro_bus} {d : Int} {ch : coro_bus_channel}
    (h : chanAt b d = some ch) (c : Option coro_bus_channel) :
    chanAt (set_channel b d.toNat c) d = c := by
  obtain ⟨hd0, hlt, _⟩ := chanAt_elim h
  unfold chanAt set_channel
  simp only [Int.not_lt.mpr hd0, if_neg (Int.not_lt.mpr hd0 : ¬ d < 0)]
  rw [List.getD_eq_getElem?_getD]
  rw [List.getElem?_set_eq_of_lt _ (by simpa using hlt)]
  rfl

theorem chanAt_set_ne {b : coro_bus} {d : Int} (hd : 0 ≤ d)
    (c : Option coro_bus_channel) {d' : Int} (hne : d' ≠ d) :
    chanAt (set_channel b d.toNat c) d' = chanAt b d' := by
  unfold chanAt set_channel
  by_cases h0 : d' < 0
  · simp [h0]
  · have hne' : d.toNat ≠ d'.toNat := by omega
    simp only [h0, if_false]
    rw [List.getD_eq_getElem?_getD, List.getD_eq_getElem?_getD,
      List.getElem?_set_ne hne']

theorem chanAt_broadcast_irrelevant (b : coro_bus) (q : List Nat) (d : Int) :
    chanAt { b with broadcast_queue := q } d = chanAt b d := rfl

/-! ### C9: zero-count batch operations are errno-writing no-ops -/

/-- Claim C9 (confirmed): for every bus handle (valid or `NULL`) and every
descriptor, `send_v`, `try_send_v`, `recv_v` and `try_recv_v` called with
count/capacity `0` return `0`, write `NONE`, leave the bus untouched and
wake nobody. -/
theorem C9_zero_count_noop (bus : Option coro_bus) (channel : Int)
    (self : Nat) :
    coro_bus_send_v_step bus channel [] self = ⟨.done 0, bus, .NONE, [], []⟩ ∧
    coro_bus_try_send_v bus channel [] = ⟨.done 0, bus, .NONE, [], []⟩ ∧
    coro_bus_recv_v_step bus channel 0 self = ⟨.done 0, bus, .NONE, [], []⟩ ∧
    coro_bus_try_recv_v bus channel 0 = ⟨.done 0, bus, .NONE, [], []⟩ :=
  ⟨rfl, rfl, rfl, rfl⟩

/-! ### C1: the errno propagation policy -/

/-- The errno discipline of an operation that writes the indicator on
every return path: a suspension writes `WOULD_BLOCK`, and a completed call
has written `NONE` exactly when it did not fail (returned a value `≥ 0`). -/
def errWrites (eff : op_effect) : Prop :=
  match eff.res with
  | .suspended => eff.err = .WOULD_BLOCK
  | .done r => eff.err = .NONE ↔ 0 ≤ r

theorem errWrites_send_step (bus : Option coro_bus) (channel : Int)
    (v self : Nat) : errWrites (coro_bus_send_step bus channel v self) := by
  unfold coro_bus_send_step
  rcases bus with _ | b
  · simp [errWrites]
  · cases hch : chanAt b channel with
    | none => simp [errWrites, hch]
    | some ch =>
      simp only [hch]
      by_cases hc : ch.data.length < ch.size_limit
      · simp [errWrites, hc]
      · simp [errWrites, hc]

theorem errWrites_try_send (bus : Option coro_bus) (channel : Int)
    (v : Nat) : errWrites (coro_bus_try_send bus channel v) := by
  unfold coro_bus_try_send
  rcases bus with _ | b
  · simp [errWrites]
  · cases hch : chanAt b channel with
    | none => simp [errWrites, hch]
    | some ch =>
      simp only [hch]
      by_cases hc : ch.size_limit ≤ ch.data.length
      · simp [errWrites, hc]
      · simp [errWrites, hc]

theorem errWrites_recv_step (bus : Option coro_bus) (channel : Int)
    (self : Nat) : errWrites (coro_bus_recv_step bus channel self) := by
  unfold coro_bus_recv_step
  rcases bus with _ | b
  · simp [errWrites]
  · cases hch : chanAt b channel with
    | none => simp [errWrites, hch]
    | some ch =>
      simp only [hch]
      cases hd : ch.data with
      | nil => simp [errWrites]
      | cons x xs => simp [errWrites]

theorem errWrites_try_recv (bus : Option coro_bus) (channel : Int) :
    errWrites (coro_bus_try_recv bus channel) := by
  unfold coro_bus_try_recv
  rcases bus with _ | b
  · simp [errWrites]
  · cases hch : chanAt b channel with
    | none => simp [errWrites, hch]
    | some ch =>
      simp only [hch]
      cases hd : ch.data with
      | nil => simp [errWrites]
      | cons x xs => simp [errWrites]

theorem errWrites_broadcast_step (bus : Option coro_bus) (v self : Nat) :
    errWrites (coro_bus_broadcast_step bus v self) := by
  unfold coro_bus_broadcast_step
  rcases bus with _ | b
  · simp [errWrites]
  · by_cases h1 : b.channels.isEmpty
    · simp [errWrites, h1]
    · by_cases h2 : has_open_channel b
      · by_cases h3 : all_open_have_space b
        · simp [errWrites, h1, h2, h3]
        · simp [errWrites, h1, h2, h3]
      · simp [errWrites, h1, h2]

theorem errWrites_try_broadcast (bus : Option coro_bus) (v : Nat) :
    errWrites (coro_bus_try_broadcast bus v) := by
  unfold coro_bus_try_broadcast
  rcases bus with _ | b
  · simp [errWrites]
  · by_cases h1 : b.channels.isEmpty
    · simp [errWrites, h1]
    · by_cases h2 : has_open_channel b
      · by_cases h3 : all_open_have_space b
        · simp [errWrites, h1, h2, h3]
        · simp [errWrites, h1, h2, h3]
      · simp [errWrites, h1, h2]

theorem errWrites_send_v_step (bus : Option coro_bus) (channel : Int)
    (vs : List Nat) (self : Nat) :
    errWrites (coro_bus_send_v_step bus channel vs self) := by
  unfold coro_bus_send_v_step
  by_cases h0 : vs.length = 0
  · simp [errWrites, h0]
  · rcases bus with _ | b
    · simp [errWrites, h0]
    · cases hch : chanAt b channel with
      | none => simp [errWrites, h0, hch]
      | some ch =>
        simp only [h0, hch, if_false]
        by_cases hc : ch.size_limit ≤ ch.data.length
        · simp [errWrites, hc]
        · simp only [hc, if_false, errWrites]
          simp [Int.ofNat_nonneg]

theorem errWrites_try_send_v (bus : Option coro_bus) (channel : Int)
    (vs : List Nat) : errWrites (coro_bus_try_send_v bus channel vs) := by
  unfold coro_bus_try_send_v
  by_cases h0 : vs.length = 0
  · simp [errWrites, h0]
  · rcases bus with _ | b
    · simp [errWrites, h0]
    · cases hch : chanAt b channel with
      | none => simp [errWrites, h0, hch]
      | some ch =>
        simp only [h0, hch, if_false]
        by_cases hc : ch.size_limit ≤ ch.data.length
        · simp [errWrites, hc]
        · simp only [hc, if_false, errWrites]
          simp [Int.ofNat_nonneg]

theorem errWrites_recv_v_step (bus : Option coro_bus) (channel : Int)
    (cap self : Nat) : errWrites (coro_bus_recv_v_step bus channel cap self) := by
  unfold coro_bus_recv_v_step
  by_cases h0 : cap = 0
  · simp [errWrites, h0]
  · rcases bus with _ | b
    · simp [errWrites, h0]
    · cases hch : chanAt b channel with
      | none => simp [errWrites, h0, hch]
      | some ch =>
        simp only [h0, hch, if_false]
        by_cases hc : ch.data.isEmpty
        · simp [errWrites, hc]
        · simp only [hc, if_false, errWrites]
          simp [Int.ofNat_nonneg]

theorem errWrites_try_recv_v (bus : Option coro_bus) (channel : Int)
    (cap : Nat) : errWrites (coro_bus_try_recv_v bus channel cap) := by
  unfold coro_bus_try_recv_v
  by_cases h0 : cap = 0
  · simp [errWrites, h0]
  · rcases bus with _ | b
    · simp [errWrites, h0]
    · cases hch : chanAt b channel with
      | none => simp [errWrites, h0, hch]
      | some ch =>
        simp only [h0, hch, if_false]
        by_cases hc : ch.data.isEmpty
        · simp [errWrites, hc]
        · simp only [hc, if_false, errWrites]
          simp [Int.ofNat_nonneg]

/-- Claim C1 (corrected). As amended: every public operation except
`coro_bus_channel_close` and `coro_bus_delete` writes the global error
indicator on every return path — `NONE` exactly on success, `WOULD_BLOCK`
on suspension — while `coro_bus_channel_close` and `coro_bus_delete` never
write it, returning the prior indicator value unchanged on each of their
return paths. -/
theorem C1_errno_policy (bus : Option coro_bus) (channel : Int)
    (v self cap limit : Nat) (vs : List Nat) (e : coro_bus_error_code) :
    coro_bus_new.2 = .NONE ∧
    ((coro_bus_channel_open bus limit).err = .NONE ↔ bus ≠ none) ∧
    errWrites (coro_bus_send_step bus channel v self) ∧
    errWrites (coro_bus_try_send bus channel v) ∧
    errWrites (coro_bus_recv_step bus channel self) ∧
    errWrites (coro_bus_try_recv bus channel) ∧
    errWrites (coro_bus_broadcast_step bus v self) ∧
    errWrites (coro_bus_try_broadcast bus v) ∧
    errWrites (coro_bus_send_v_step bus channel vs self) ∧
    errWrites (coro_bus_try_send_v bus channel vs) ∧
    errWrites (coro_bus_recv_v_step bus channel cap self) ∧
    errWrites (coro_bus_try_recv_v bus channel cap) ∧
    (coro_bus_channel_close bus channel e).err = e ∧
    (coro_bus_delete bus e).2 = e := by
  refine ⟨rfl, ?_, errWrites_send_step bus channel v self,
    errWrites_try_send bus channel v, errWrites_recv_step bus channel self,
    errWrites_try_recv bus channel, errWrites_broadcast_step bus v self,
    errWrites_try_broadcast bus v, errWrites_send_v_step bus channel vs self,
    errWrites_try_send_v bus channel vs,
    errWrites_recv_v_step bus channel cap self,
    errWrites_try_recv_v bus channel cap, ?_, ?_⟩
  · rcases bus with _ | b
    · simp [coro_bus_channel_open]
    · unfold coro_bus_channel_open
      cases hf : b.channels.findIdx? Option.isNone <;> simp [hf]
  · rcases bus with _ | b
    · rfl
    · unfold coro_bus_channel_close
      cases hch : chanAt b channel <;> simp [hch]
  · rcases bus with _ | b <;> rfl

/-- Claim C1 (counterexample to the claim as stated): closing an open
channel — a successful return path of a public operation — leaves a stale
`WOULD_BLOCK` in the error indicator instead of writing it (the close did
happen: the slot is empty afterwards); `coro_bus_delete` likewise returns
with the indicator untouched. -/
theorem C1_close_leaves_stale_errno :
    (coro_bus_channel_close
        (some ⟨[some ⟨1, [], [], []⟩], []⟩)
        0 .WOULD_BLOCK).err = .WOULD_BLOCK ∧
    (coro_bus_channel_close
        (some ⟨[some ⟨1, [], [], []⟩], []⟩)
        0 .WOULD_BLOCK).err ≠ .NONE ∧
    coro_bus_get_channel
      (coro_bus_channel_close
        (some ⟨[some ⟨1, [], [], []⟩], []⟩)
        0 .WOULD_BLOCK).bus 0 = none ∧
    (coro_bus_delete (some ⟨[], []⟩) .WOULD_BLOCK).2 ≠ .NONE := by
  refine ⟨rfl, by decide, rfl, by decide⟩

/-! ### C2: close wakes all waiters, which then see NO_CHANNEL -/

/-- Claim C2 (confirmed): closing a channel with suspended senders and
receivers (1) empties its slot, (2) wakes every coroutine on its send and
recv wait queues (and the broadcast waiters), and (3) any woken waiter
re-running its blocking call against a bus whose slot for that descriptor
is (still) empty completes with `-1`, error `NO_CHANNEL`, touching
nothing: the bus is returned unchanged, nobody is woken, nothing is
written to the output buffer — so no waiter ever reaches into the closed
channel, whose object is gone from the bus. -/
theorem C2_close_wakes_all_no_channel (b : coro_bus) (d : Int)
    (ch : coro_bus_channel) (e : coro_bus_error_code)
    (hch : chanAt b d = some ch) (v self cap : Nat) (vs : List Nat)
    (b2 : coro_bus) (hgone : chanAt b2 d = none) :
    (coro_bus_channel_close (some b) d e).woken =
      ch.send_queue ++ ch.recv_queue ++ b.broadcast_queue ∧
    (∀ c, c ∈ ch.send_queue ∨ c ∈ ch.recv_queue →
      c ∈ (coro_bus_channel_close (some b) d e).woken) ∧
    (∃ b', (coro_bus_channel_close (some b) d e).bus = some b' ∧
      chanAt b' d = none) ∧
    coro_bus_send_step (some b2) d v self =
      ⟨.done (-1), some b2, .NO_CHANNEL, [], []⟩ ∧
    coro_bus_recv_step (some b2) d self =
      ⟨.done (-1), some b2, .NO_CHANNEL, [], []⟩ ∧
    (vs ≠ [] → coro_bus_send_v_step (some b2) d vs self =
      ⟨.done (-1), some b2, .NO_CHANNEL, [], []⟩) ∧
    (cap ≠ 0 → coro_bus_recv_v_step (some b2) d cap self =
      ⟨.done (-1), some b2, .NO_CHANNEL, [], []⟩) := by
  refine ⟨?_, ?_, ?_, ?_, ?_, ?_, ?_⟩
  · unfold coro_bus_channel_close
    simp [hch, wakeup_queue_wakeup_all, set_channel]
  · intro c hc
    unfold coro_bus_channel_close
    simp only [hch, wakeup_queue_wakeup_all, set_channel]
    rcases hc with h | h <;> simp [h]
  · refine ⟨{ set_channel b d.toNat none with broadcast_queue := [] }, ?_, ?_⟩
    · unfold coro_bus_channel_close
      simp only [hch]
      rfl
    · rw [chanAt_broadcast_irrelevant]
      exact chanAt_set_self hch none
  · unfold coro_bus_send_step
    simp [hgone]
  · unfold coro_bus_recv_step
    simp [hgone]
  · intro hvs
    unfold coro_bus_send_v_step
    simp [hgone, List.length_eq_zero, hvs]
  · intro hcap
    unfold coro_bus_recv_v_step
    simp [hgone, hcap]

/-- Witness for C2 at a concrete bus: channel 0 of capacity 1 with
senders 1,2 and receiver 3 suspended and broadcast waiter 9; closing
wakes 1,2,3,9 and a woken sender re-checking descriptor 0 on the
post-close bus gets `-1` / `NO_CHANNEL`. -/
theorem C2_close_wakes_all_no_channel_witness :
    (coro_bus_channel_close (some ⟨[some ⟨1, [1, 2], [3], []⟩], [9]⟩)
      0 .NONE).woken = [1, 2] ++ [3] ++ [9] ∧
    coro_bus_send_step (some ⟨[none], []⟩) 0 5 1 =
      ⟨.done (-1), some ⟨[none], []⟩, .NO_CHANNEL, [], []⟩ := by
  have h := C2_close_wakes_all_no_channel ⟨[some ⟨1, [1, 2], [3], []⟩], [9]⟩
    0 ⟨1, [1, 2], [3], []⟩ .NONE rfl 5 1 1 [5] ⟨[none], []⟩ rfl
  exact ⟨h.1, h.2.2.2.1⟩

/-! ### C6: broadcast with zero open channels -/

/-- Claim C6 (confirmed): `broadcast` and `try_broadcast` on a bus with
zero open channels — in particular a bus whose table is non-empty but
all-`NULL` — return `-1` with `NO_CHANNEL`; and closing a channel empties
the slot without shrinking the table, so the situation arises from
closes. -/
theorem C6_broadcast_no_open_channel (b : coro_bus) (v self : Nat)
    (hempty : ∀ o ∈ b.channels, o = none) (b1 : coro_bus) (d : Int)
    (ch : coro_bus_channel) (e : coro_bus_error_code)
    (hch : chanAt b1 d = some ch) :
    coro_bus_broadcast_step (some b) v self =
      ⟨.done (-1), some b, .NO_CHANNEL, [], []⟩ ∧
    coro_bus_try_broadcast (some b) v =
      ⟨.done (-1), some b, .NO_CHANNEL, [], []⟩ ∧
    (∃ b', (coro_bus_channel_close (some b1) d e).bus = some b' ∧
      b'.channels = b1.channels.set d.toNat none ∧
      b'.channels.length = b1.channels.length ∧
      chanAt b' d = none) := by
  have hopen : has_open_channel b = false := by
    unfold has_open_channel
    rw [List.any_eq_false]
    intro o ho
    rw [hempty o ho]
    simp
  refine ⟨?_, ?_, ?_⟩
  · unfold coro_bus_broadcast_step
    by_cases h1 : b.channels.isEmpty <;> simp [h1, hopen]
  · unfold coro_bus_try_broadcast
    by_cases h1 : b.channels.isEmpty <;> simp [h1, hopen]
  · refine ⟨{ set_channel b1 d.toNat none with broadcast_queue := [] },
      ?_, rfl, by simp [set_channel], ?_⟩
    · unfold coro_bus_channel_close
      simp only [hch]
      rfl
    · rw [chanAt_broadcast_irrelevant]
      exact chanAt_set_self hch none

/-- Witness for C6: a bus with a two-slot all-`NULL` table (both channels
were closed) refuses a broadcast with `NO_CHANNEL`, and closing channel 0
of a one-channel bus leaves a one-slot table with an empty slot. -/
theorem C6_broadcast_no_open_channel_witness :
    coro_bus_broadcast_step (some ⟨[none, none], []⟩) 7 1 =
      ⟨.done (-1), some ⟨[none, none], []⟩, .NO_CHANNEL, [], []⟩ ∧
    coro_bus_try_broadcast (some ⟨[none, none], []⟩) 7 =
      ⟨.done (-1), some ⟨[none, none], []⟩, .NO_CHANNEL, [], []⟩ := by
  have h := C6_broadcast_no_open_channel ⟨[none, none], []⟩ 7 1
    (by
      intro o ho
      rcases List.mem_cons.mp ho with rfl | ho2
      · rfl
      · rcases List.mem_cons.mp ho2 with rfl | ho3
        · rfl
        · cases ho3)
    ⟨[some ⟨1, [], [], []⟩], []⟩ 0 ⟨1, [], [], []⟩ .NONE rfl
  exact ⟨h.1, h.2.1⟩

/-! ### C10: capacity zero is accepted and poisons try_send/try_broadcast -/

/-- Claim C10 (confirmed): `open_channel` does not validate the capacity:
opening with capacity 0 succeeds (descriptor `≥ 0`, errno `NONE`); any
channel with `size_limit = 0` is permanently full, so `try_send` on it
always fails with `WOULD_BLOCK`, and while it is open `try_broadcast` on
its bus always fails with `WOULD_BLOCK` (never succeeds), leaving the bus
unchanged. -/
theorem C10_zero_capacity_open (b bus2 : coro_bus) (d : Int)
    (ch : coro_bus_channel) (v w : Nat) (hch : chanAt bus2 d = some ch)
    (hcap : ch.size_limit = 0) :
    (coro_bus_channel_open (some b) 0).err = .NONE ∧
    (∃ r : Int, (coro_bus_channel_open (some b) 0).res = .done r ∧
      0 ≤ r) ∧
    coro_bus_try_send (some bus2) d v =
      ⟨.done (-1), some bus2, .WOULD_BLOCK, [], []⟩ ∧
    (coro_bus_try_broadcast (some bus2) w).res = .done (-1) ∧
    (coro_bus_try_broadcast (some bus2) w).err = .WOULD_BLOCK ∧
    (coro_bus_try_broadcast (some bus2) w).bus = some bus2 := by
  have hmem := mem_of_chanAt hch
  have hne : bus2.channels ≠ [] := List.ne_nil_of_mem hmem
  have h1 : bus2.channels.isEmpty = false := by
    simpa [List.isEmpty_iff] using hne
  have h2 : has_open_channel bus2 = true := by
    unfold has_open_channel
    rw [List.any_eq_true]
    exact ⟨some ch, hmem, rfl⟩
  have h3 : all_open_have_space bus2 = false := by
    by_contra hc
    rw [Bool.not_eq_false] at hc
    unfold all_open_have_space at hc
    have := List.all_eq_true.mp hc (some ch) hmem
    simp [hcap] at this
  refine ⟨?_, ?_, ?_, ?_, ?_, ?_⟩
  · unfold coro_bus_channel_open
    cases hf : b.channels.findIdx? Option.isNone <;> simp [hf]
  · unfold coro_bus_channel_open
    cases hf : b.channels.findIdx? Option.isNone <;>
      simp [hf, Int.ofNat_nonneg]
  · unfold coro_bus_try_send
    have : ch.size_limit ≤ ch.data.length := by omega
    simp [hch, this]
  · unfold coro_bus_try_broadcast
    simp [h1, h2, h3]
  · unfold coro_bus_try_broadcast
    simp [h1, h2, h3]
  · unfold coro_bus_try_broadcast
    simp [h1, h2, h3]

/-- Witness for C10 at a concrete one-channel bus holding a capacity-0
channel at descriptor 0. -/
theorem C10_zero_capacity_open_witness :
    coro_bus_try_send (some ⟨[some ⟨0, [], [], []⟩], []⟩) 0 5 =
      ⟨.done (-1), some ⟨[some ⟨0, [], [], []⟩], []⟩, .WOULD_BLOCK,
        [], []⟩ ∧
    (coro_bus_try_broadcast (some ⟨[some ⟨0, [], [], []⟩], []⟩) 7).err =
      .WOULD_BLOCK := by
  have h := C10_zero_capacity_open ⟨[], []⟩ ⟨[some ⟨0, [], [], []⟩], []⟩
    0 ⟨0, [], [], []⟩ 5 7 rfl rfl
  exact ⟨h.2.2.1, h.2.2.2.2.1⟩

/-! ### C7: lowest-empty-slot descriptor allocation -/

/-- Claim C7 (confirmed): `open_channel` returns the smallest non-negative
descriptor whose slot is empty; every smaller slot is occupied; the table
keeps its length when an empty slot is reused and grows by exactly one
only when no empty slot exists — so after closing descriptor d (the
lowest empty slot), a new open returns d again rather than a fresh
index. -/
theorem C7_lowest_empty_slot (b : coro_bus) (limit : Nat) :
    ∃ r : Nat, (coro_bus_channel_open (some b) limit).res =
        .done (Int.ofNat r) ∧
      r ≤ b.channels.length ∧
      (∀ j, j < r → b.channels.getD j none ≠ none) ∧
      (r < b.channels.length → b.channels.getD r none = none) ∧
      (∃ b', (coro_bus_channel_open (some b) limit).bus = some b' ∧
        chanAt b' (Int.ofNat r) = some ⟨limit, [], [], []⟩ ∧
        (r < b.channels.length →
          b'.channels.length = b.channels.length) ∧
        (r = b.channels.length →
          b'.channels.length = b.channels.length + 1)) := by
  unfold coro_bus_channel_open
  cases hf : b.channels.findIdx? Option.isNone with
  | some i =>
    obtain ⟨hlt, hnone, hbefore⟩ := List.findIdx?_eq_some_iff_getElem.mp hf
    refine ⟨i, by simp [hf], Nat.le_of_lt hlt, ?_, ?_, ?_⟩
    · intro j hj
      have hj2 : j < b.channels.length := Nat.lt_trans hj hlt
      have := hbefore j hj
      rw [List.getD_eq_getElem?_getD, List.getElem?_eq_getElem hj2]
      simp only [Option.getD_some]
      simp only [Option.isNone] at this
      intro hcon
      rw [hcon] at this
      simp at this
    · intro _
      rw [List.getD_eq_getElem?_getD, List.getElem?_eq_getElem hlt]
      simpa using hnone
    · refine ⟨set_channel b i (some ⟨limit, [], [], []⟩), by simp [hf], ?_, ?_, ?_⟩
      · unfold chanAt set_channel
        have h0 : ¬ (Int.ofNat i < 0) := Int.not_lt.mpr (Int.ofNat_nonneg i)
        have ht : (Int.ofNat i).toNat = i := by simp
        simp only [h0, if_false, ht]
        rw [List.getD_eq_getElem?_getD,
          List.getElem?_set_eq_of_lt _ (by simpa using hlt)]
        rfl
      · intro _
        simp [set_channel]
      · intro hcon
        simp only [set_channel, List.length_set]
        omega
  | none =>
    have hall := List.findIdx?_eq_none_iff.mp hf
    refine ⟨b.channels.length, by simp [hf], Nat.le_refl _, ?_, ?_, ?_⟩
    · intro j hj
      rw [List.getD_eq_getElem?_getD, List.getElem?_eq_getElem hj]
      have := hall _ (b.channels.getElem_mem hj)
      simp only [Option.getD_some]
      intro hcon
      rw [hcon] at this
      simp at this
    · intro hcon
      exact absurd hcon (Nat.lt_irrefl _)
    · refine ⟨{ b with channels := b.channels ++ [some ⟨limit, [], [], []⟩] },
        by simp [hf], ?_, ?_, ?_⟩
      · unfold chanAt
        have h0 : ¬ (Int.ofNat b.channels.length < 0) :=
          Int.not_lt.mpr (Int.ofNat_nonneg _)
        have ht : (Int.ofNat b.channels.length).toNat = b.channels.length := by
          simp
        simp only [h0, if_false, ht]
        rw [List.getD_eq_getElem?_getD, List.getElem?_concat_length]
        rfl
      · intro hcon
        exact absurd hcon (Nat.lt_irrefl _)
      · intro _
        simp

/-- Witness for C7 on the concrete slot table `[open, NULL, open]`
(descriptor 1 was closed): a new open reuses descriptor 1 and the table
keeps length 3. -/
theorem C7_lowest_empty_slot_witness :
    (coro_bus_channel_open
      (some ⟨[some ⟨1, [], [], []⟩, none, some ⟨2, [], [], []⟩], []⟩)
      4).res = .done (Int.ofNat 1) ∧
    (∃ b', (coro_bus_channel_open
        (some ⟨[some ⟨1, [], [], []⟩, none, some ⟨2, [], [], []⟩], []⟩)
        4).bus = some b' ∧ b'.channels.length = 3) := by
  obtain ⟨r, hres, hle, hocc, hempty, b', hbus, hat, hkeep, hgrow⟩ :=
    C7_lowest_empty_slot
      ⟨[some ⟨1, [], [], []⟩, none, some ⟨2, [], [], []⟩], []⟩ 4
  have hcomp : (coro_bus_channel_open
      (some ⟨[some ⟨1, [], [], []⟩, none, some ⟨2, [], [], []⟩], []⟩)
      4).res = .done (Int.ofNat 1) := rfl
  have hr : r = 1 := by
    rw [hcomp] at hres
    simp at hres
    omega
  subst hr
  exact ⟨hres, b', hbus, hkeep (by decide)⟩

/-! ### C5: broadcast is all-or-nothing -/

theorem chanAt_broadcast_push (b : coro_bus) (v : Nat) (d : Int) :
    chanAt (broadcast_push b v) d = (chanAt b d).map fun ch =>
      { ch with
        data := ch.data ++ [v],
        recv_queue := (wakeup_queue_wakeup_first ch.recv_queue).1 } := by
  unfold chanAt broadcast_push
  by_cases h0 : d < 0
  · simp [h0]
  · simp only [h0, if_false]
    rw [List.getD_eq_getElem?_getD, List.getD_eq_getElem?_getD,
      List.getElem?_map]
    cases e : b.channels[d.toNat]? with
    | none => simp
    | some o => cases o <;> simp

/-- Claim C5 (confirmed): `broadcast` and `try_broadcast` are
all-or-nothing.  On a bus with at least one open channel: when every open
channel has room, both append the payload to every open channel (waking
the first recv waiter of each) and return `0` with `NONE`; when some open
channel is full, no buffer is modified — `try_broadcast` returns `-1`
with `WOULD_BLOCK` leaving the bus exactly as it was, and `broadcast`
writes `WOULD_BLOCK` and suspends the caller on the broadcast queue,
changing nothing but that queue. -/
theorem C5_broadcast_all_or_nothing (b : coro_bus) (v self : Nat)
    (d0 : Int) (ch0 : coro_bus_channel) (h0 : chanAt b d0 = some ch0) :
    (all_open_have_space b = true →
      coro_bus_try_broadcast (some b) v =
        ⟨.done 0, some (broadcast_push b v), .NONE, broadcast_woken b, []⟩ ∧
      coro_bus_broadcast_step (some b) v self =
        ⟨.done 0, some (broadcast_push b v), .NONE, broadcast_woken b, []⟩ ∧
      (∀ d ch, chanAt b d = some ch →
        chanAt (broadcast_push b v) d = some
          { ch with
            data := ch.data ++ [v],
            recv_queue := ch.recv_queue.drop 1 }) ∧
      (∀ d, chanAt b d = none → chanAt (broadcast_push b v) d = none)) ∧
    (all_open_have_space b = false →
      coro_bus_try_broadcast (some b) v =
        ⟨.done (-1), some b, .WOULD_BLOCK, [], []⟩ ∧
      coro_bus_broadcast_step (some b) v self =
        ⟨.suspended,
          some { b with broadcast_queue := b.broadcast_queue ++ [self] },
          .WOULD_BLOCK, [], []⟩) := by
  have hmem := mem_of_chanAt h0
  have hne : b.channels ≠ [] := List.ne_nil_of_mem hmem
  have h1 : b.channels.isEmpty = false := by
    simpa [List.isEmpty_iff] using hne
  have h2 : has_open_channel b = true := by
    unfold has_open_channel
    rw [List.any_eq_true]
    exact ⟨some ch0, hmem, rfl⟩
  constructor
  · intro hs
    refine ⟨?_, ?_, ?_, ?_⟩
    · unfold coro_bus_try_broadcast
      simp [h1, h2, hs]
    · unfold coro_bus_broadcast_step
      simp [h1, h2, hs]
    · intro d ch hch
      rw [chanAt_broadcast_push, hch]
      rfl
    · intro d hch
      rw [chanAt_broadcast_push, hch]
      rfl
  · intro hs
    constructor
    · unfold coro_bus_try_broadcast
      simp [h1, h2, hs]
    · unfold coro_bus_broadcast_step
      simp [h1, h2, hs]

/-- Witness for C5: on the two-channel bus `{0 ↦ [7] (cap 2), 1 ↦ [] (cap
1)}` (both have room, receiver 4 waits on channel 1) a `try_broadcast` of
9 appends 9 to both channels and wakes 4; on the same bus with channel 1
full, `try_broadcast` fails with `WOULD_BLOCK` and changes nothing. -/
theorem C5_broadcast_all_or_nothing_witness :
    coro_bus_try_broadcast
      (some ⟨[some ⟨2, [], [], [7]⟩, some ⟨1, [], [4], []⟩], []⟩) 9 =
      ⟨.done 0,
        some ⟨[some ⟨2, [], [], [7, 9]⟩, some ⟨1, [], [], [9]⟩], []⟩,
        .NONE, [4], []⟩ ∧
    coro_bus_try_broadcast
      (some ⟨[some ⟨2, [], [], [7]⟩, some ⟨1, [], [], [5]⟩], []⟩) 9 =
      ⟨.done (-1),
        some ⟨[some ⟨2, [], [], [7]⟩, some ⟨1, [], [], [5]⟩], []⟩,
        .WOULD_BLOCK, [], []⟩ := by
  have ha := (C5_broadcast_all_or_nothing
    ⟨[some ⟨2, [], [], [7]⟩, some ⟨1, [], [4], []⟩], []⟩ 9 0 0
    ⟨2, [], [], [7]⟩ rfl).1 (by decide)
  have hb := (C5_broadcast_all_or_nothing
    ⟨[some ⟨2, [], [], [7]⟩, some ⟨1, [], [], [5]⟩], []⟩ 9 0 0
    ⟨2, [], [], [7]⟩ rfl).2 (by decide)
  refine ⟨?_, hb.1⟩
  rw [ha.1]
  decide

/-! ### C4: the capacity bound is preserved by every operation -/

/-- The per-slot capacity bound: an open channel holds at most
`size_limit` payloads. -/
def chan_len_ok (o : Option coro_bus_channel) : Prop :=
  match o with
  | none => True
  | some ch => ch.data.length ≤ ch.size_limit

/-- Every slot of the bus satisfies the capacity bound. -/
def bus_len_inv (b : coro_bus) : Prop := ∀ o ∈ b.channels, chan_len_ok o

/-- The capacity bound, lifted to a possibly-`NULL` bus handle. -/
def bus_len_inv_opt : Option coro_bus → Prop
  | none => True
  | some b => bus_len_inv b

theorem bus_len_inv_set {b : coro_bus} (hinv : bus_len_inv b) (n : Nat)
    {c : Option coro_bus_channel} (hok : chan_len_ok c) :
    bus_len_inv (set_channel b n c) := by
  intro o ho
  rcases List.mem_or_eq_of_mem_set ho with h | h
  · exact hinv o h
  · rw [h]
    exact hok

theorem chan_len_ok_of_chanAt {b : coro_bus} {ch : coro_bus_channel}
    {d : Int} (hinv : bus_len_inv b) (hch : chanAt b d = some ch) :
    ch.data.length ≤ ch.size_limit := by
  have := hinv (some ch) (mem_of_chanAt hch)
  simpa [chan_len_ok] using this

theorem bus_len_inv_broadcast_push {b : coro_bus} (_hinv : bus_len_inv b)
    (v : Nat) (hs : all_open_have_space b = true) :
    bus_len_inv (broadcast_push b v) := by
  intro o ho
  unfold broadcast_push at ho
  simp only at ho
  rw [List.mem_map] at ho
  obtain ⟨o0, ho0, rfl⟩ := ho
  cases o0 with
  | none => trivial
  | some ch =>
    have h := List.all_eq_true.mp hs _ ho0
    simp only [decide_eq_true_eq] at h
    simp only [chan_len_ok, Option.map_some', List.length_append,
      List.length_singleton]
    omega

theorem len_inv_send_step (bus : Option coro_bus) (channel : Int)
    (v self : Nat) (hinv : bus_len_inv_opt bus) :
    bus_len_inv_opt (coro_bus_send_step bus channel v self).bus := by
  unfold coro_bus_send_step
  rcases bus with _ | b
  · exact trivial
  · cases hch : chanAt b channel with
    | none =>
        simp only [hch]
        exact hinv
    | some ch =>
      simp only [hch]
      by_cases hc : ch.data.length < ch.size_limit
      · simp only [hc, if_true]
        refine bus_len_inv_set hinv _ ?_
        simp only [chan_len_ok, List.length_append, List.length_singleton]
        omega
      · simp only [hc, if_false]
        refine bus_len_inv_set hinv _ ?_
        have := chan_len_ok_of_chanAt hinv hch
        simpa [chan_len_ok] using this

theorem len_inv_try_send (bus : Option coro_bus) (channel : Int) (v : Nat)
    (hinv : bus_len_inv_opt bus) :
    bus_len_inv_opt (coro_bus_try_send bus channel v).bus := by
  unfold coro_bus_try_send
  rcases bus with _ | b
  · exact trivial
  · cases hch : chanAt b channel with
    | none =>
        simp only [hch]
        exact hinv
    | some ch =>
      simp only [hch]
      by_cases hc : ch.size_limit ≤ ch.data.length
      · simp only [hc, if_true]
        exact hinv
      · simp only [hc, if_false]
        refine bus_len_inv_set hinv _ ?_
        simp only [chan_len_ok, List.length_append, List.length_singleton]
        omega

theorem len_inv_recv_step (bus : Option coro_bus) (channel : Int)
    (self : Nat) (hinv : bus_len_inv_opt bus) :
    bus_len_inv_opt (coro_bus_recv_step bus channel self).bus := by
  unfold coro_bus_recv_step
  rcases bus with _ | b
  · exact trivial
  · cases hch : chanAt b channel with
    | none =>
        simp only [hch]
        exact hinv
    | some ch =>
      simp only [hch]
      cases hd : ch.data with
      | nil =>
        refine bus_len_inv_set hinv _ ?_
        have := chan_len_ok_of_chanAt hinv hch
        simp [chan_len_ok]
      | cons x xs =>
        refine bus_len_inv_set hinv _ ?_
        have := chan_len_ok_of_chanAt hinv hch
        rw [hd] at this
        simp only [chan_len_ok]
        simp only [List.length_cons] at this
        omega

theorem len_inv_try_recv (bus : Option coro_bus) (channel : Int)
    (hinv : bus_len_inv_opt bus) :
    bus_len_inv_opt (coro_bus_try_recv bus channel).bus := by
  unfold coro_bus_try_recv
  rcases bus with _ | b
  · exact trivial
  · cases hch : chanAt b channel with
    | none =>
        simp only [hch]
        exact hinv
    | some ch =>
      simp only [hch]
      cases hd : ch.data with
      | nil => exact hinv
      | cons x xs =>
        refine bus_len_inv_set hinv _ ?_
        have := chan_len_ok_of_chanAt hinv hch
        rw [hd] at this
        simp only [chan_len_ok]
        simp only [List.length_cons] at this
        omega

theorem len_inv_broadcast_step (bus : Option coro_bus) (v self : Nat)
    (hinv : bus_len_inv_opt bus) :
    bus_len_inv_opt (coro_bus_broadcast_step bus v self).bus := by
  unfold coro_bus_broadcast_step
  rcases bus with _ | b
  · exact trivial
  · by_cases h1 : b.channels.isEmpty
    · simp only [h1, if_true]
      exact hinv
    · by_cases h2 : has_open_channel b
      · by_cases h3 : all_open_have_space b
        · simp only [h1, h2, h3, if_true, if_false, not_true, if_neg]
          exact bus_len_inv_broadcast_push hinv v h3
        · simp only [h1, h2, h3, if_false, not_true, if_neg]
          exact hinv
      · simp only [h1, h2, if_false, not_false_iff, if_pos]
        exact hinv

theorem len_inv_try_broadcast (bus : Option coro_bus) (v : Nat)
    (hinv : bus_len_inv_opt bus) :
    bus_len_inv_opt (coro_bus_try_broadcast bus v).bus := by
  unfold coro_bus_try_broadcast
  rcases bus with _ | b
  · exact trivial
  · by_cases h1 : b.channels.isEmpty
    · simp only [h1, if_true]
      exact hinv
    · by_cases h2 : has_open_channel b
      · by_cases h3 : all_open_have_space b
        · simp only [h1, h2, h3, if_true, if_false, not_true, if_neg]
          exact bus_len_inv_broadcast_push hinv v h3
        · simp only [h1, h2, h3, if_false, not_true, if_neg]
          exact hinv
      · simp only [h1, h2, if_false, not_false_iff, if_pos]
        exact hinv

theorem len_inv_send_v_step (bus : Option coro_bus) (channel : Int)
    (vs : List Nat) (self : Nat) (hinv : bus_len_inv_opt bus) :
    bus_len_inv_opt (coro_bus_send_v_step bus channel vs self).bus := by
  unfold coro_bus_send_v_step
  by_cases h0 : vs.length = 0
  · simp only [h0, if_true]
    exact hinv
  · simp only [h0, if_false]
    rcases bus with _ | b
    · exact trivial
    · cases hch : chanAt b channel with
      | none =>
        simp only [hch]
        exact hinv
      | some ch =>
        simp only [hch]
        by_cases hc : ch.size_limit ≤ ch.data.length
        · simp only [hc, if_true]
          refine bus_len_inv_set hinv _ ?_
          have := chan_len_ok_of_chanAt hinv hch
          simpa [chan_len_ok] using this
        · simp only [hc, if_false]
          refine bus_len_inv_set hinv _ ?_
          simp only [chan_len_ok, List.length_append, List.length_take]
          omega

theorem len_inv_try_send_v (bus : Option coro_bus) (channel : Int)
    (vs : List Nat) (hinv : bus_len_inv_opt bus) :
    bus_len_inv_opt (coro_bus_try_send_v bus channel vs).bus := by
  unfold coro_bus_try_send_v
  by_cases h0 : vs.length = 0
  · simp only [h0, if_true]
    exact hinv
  · simp only [h0, if_false]
    rcases bus with _ | b
    · exact trivial
    · cases hch : chanAt b channel with
      | none =>
        simp only [hch]
        exact hinv
      | some ch =>
        simp only [hch]
        by_cases hc : ch.size_limit ≤ ch.data.length
        · simp only [hc, if_true]
          exact hinv
        · simp only [hc, if_false]
          refine bus_len_inv_set hinv _ ?_
          simp only [chan_len_ok, List.length_append, List.length_take]
          omega

theorem len_inv_recv_v_step (bus : Option coro_bus) (channel : Int)
    (cap self : Nat) (hinv : bus_len_inv_opt bus) :
    bus_len_inv_opt (coro_bus_recv_v_step bus channel cap self).bus := by
  unfold coro_bus_recv_v_step
  by_cases h0 : cap = 0
  · simp only [h0, if_true]
    exact hinv
  · simp only [h0, if_false]
    rcases bus with _ | b
    · exact trivial
    · cases hch : chanAt b channel with
      | none =>
        simp only [hch]
        exact hinv
      | some ch =>
        simp only [hch]
        by_cases hc : ch.data.isEmpty
        · simp only [hc, if_true]
          refine bus_len_inv_set hinv _ ?_
          have := chan_len_ok_of_chanAt hinv hch
          simpa [chan_len_ok] using this
        · simp only [hc, if_false]
          refine bus_len_inv_set hinv _ ?_
          have := chan_len_ok_of_chanAt hinv hch
          simp only [chan_len_ok, List.length_drop]
          omega

theorem len_inv_try_recv_v (bus : Option coro_bus) (channel : Int)
    (cap : Nat) (hinv : bus_len_inv_opt bus) :
    bus_len_inv_opt (coro_bus_try_recv_v bus channel cap).bus := by
  unfold coro_bus_try_recv_v
  by_cases h0 : cap = 0
  · simp only [h0, if_true]
    exact hinv
  · simp only [h0, if_false]
    rcases bus with _ | b
    · exact trivial
    · cases hch : chanAt b channel with
      | none =>
        simp only [hch]
        exact hinv
      | some ch =>
        simp only [hch]
        by_cases hc : ch.data.isEmpty
        · simp only [hc, if_true]
          exact hinv
        · simp only [hc, if_false]
          refine bus_len_inv_set hinv _ ?_
          have := chan_len_ok_of_chanAt hinv hch
          simp only [chan_len_ok, List.length_drop]
          omega

/-- Claim C4 (confirmed): `0 ≤ buffer.len ≤ capacity` holds for every
open channel (the lower bound is inherent to the model) and is preserved
by each of the ten operations: send, try_send, recv, try_recv, broadcast,
try_broadcast, send_v, try_send_v, recv_v, try_recv_v — each appends only
when there is room and at most the remaining capacity. -/
theorem C4_capacity_bound (bus : Option coro_bus) (channel : Int)
    (v self cap : Nat) (vs : List Nat) (hinv : bus_len_inv_opt bus) :
    bus_len_inv_opt (coro_bus_send_step bus channel v self).bus ∧
    bus_len_inv_opt (coro_bus_try_send bus channel v).bus ∧
    bus_len_inv_opt (coro_bus_recv_step bus channel self).bus ∧
    bus_len_inv_opt (coro_bus_try_recv bus channel).bus ∧
    bus_len_inv_opt (coro_bus_broadcast_step bus v self).bus ∧
    bus_len_inv_opt (coro_bus_try_broadcast bus v).bus ∧
    bus_len_inv_opt (coro_bus_send_v_step bus channel vs self).bus ∧
    bus_len_inv_opt (coro_bus_try_send_v bus channel vs).bus ∧
    bus_len_inv_opt (coro_bus_recv_v_step bus channel cap self).bus ∧
    bus_len_inv_opt (coro_bus_try_recv_v bus channel cap).bus :=
  ⟨len_inv_send_step bus channel v self hinv,
    len_inv_try_send bus channel v hinv,
    len_inv_recv_step bus channel self hinv,
    len_inv_try_recv bus channel hinv,
    len_inv_broadcast_step bus v self hinv,
    len_inv_try_broadcast bus v hinv,
    len_inv_send_v_step bus channel vs self hinv,
    len_inv_try_send_v bus channel vs hinv,
    len_inv_recv_v_step bus channel cap self hinv,
    len_inv_try_recv_v bus channel cap hinv⟩

/-- Witness for C4 on a concrete full channel of capacity 1: a further
try_send keeps the bound. -/
theorem C4_capacity_bound_witness :
    bus_len_inv_opt
      (coro_bus_try_send (some ⟨[some ⟨1, [], [], [3]⟩], []⟩) 0 5).bus :=
  (C4_capacity_bound (some ⟨[some ⟨1, [], [], [3]⟩], []⟩) 0 5 1 1 [5]
    (by
      intro o ho
      rcases List.mem_cons.mp ho with rfl | ho2
      · simp [chan_len_ok]
      · cases ho2)).2.1

/-! ### C8: batch transfer and the 32-bit narrowing of the space -/

/-- Counterexample to C8 as stated: `size_limit` is a `size_t`, so one
call opens a channel of capacity `2^32`.  On that empty channel the
source computes `space = 2^32`, narrows it to `(unsigned)space = 0`, and
`send_v` of four payloads transfers nothing and returns `0` with `NONE`
while the buffer stays empty — the claim demands that it transfer and
return `min(count, capacity - buffer.len) = 4`. -/
theorem C8_narrowing_counterexample :
    (coro_bus_send_v_step_u32
        (some ⟨[some ⟨4294967296, [], [], []⟩], []⟩) 0
        [20, 30, 40, 50] 1).res = .done 0 ∧
    (∃ b', (coro_bus_send_v_step_u32
        (some ⟨[some ⟨4294967296, [], [], []⟩], []⟩) 0
        [20, 30, 40, 50] 1).bus = some b' ∧
      chanAt b' 0 = some ⟨4294967296, [], [], []⟩) ∧
    (0 : Int) ≠ Int.ofNat (min ([20, 30, 40, 50] : List Nat).length
      (4294967296 - ([] : List Nat).length)) := by
  refine ⟨rfl, ⟨_, rfl, rfl⟩, by decide⟩

/-- Claim C8 (amended): with a positive count and a valid descriptor,
one step of `send_v` suspends on the send queue exactly while the buffer
is completely full; otherwise it transfers exactly
`min(count, (capacity - buffer.len) mod 2^32)` payloads in order onto
the buffer tail — the free space is narrowed to 32 bits by the
`(unsigned)` cast inside `std::min<unsigned>` — returns that number with
`NONE` and wakes that many recv waiters; whenever the capacity is below
`2^32` the narrowing is invisible and the count is exactly
`min(count, capacity - buffer.len)`.  Symmetrically `recv_v` suspends
exactly while the buffer is empty and otherwise drains
`min(buffer.len mod 2^32, capacity)` payloads from the head, returns
them in order and wakes that many send waiters (plus the head broadcast
waiter), the narrowing being invisible below `2^32` buffered items.  The
count and capacity arguments are kept below `2^31` so that the `(int)`
result cast is value-preserving. -/
theorem C8_batch_transfer_narrowed (b : coro_bus) (channel : Int)
    (ch : coro_bus_channel) (vs : List Nat) (cap self : Nat)
    (hch : chanAt b channel = some ch) (hvs : vs ≠ []) (hcap : 0 < cap)
    (hvsint : vs.length < 2147483648) (hcapint : cap < 2147483648) :
    (ch.size_limit ≤ ch.data.length →
      (coro_bus_send_v_step_u32 (some b) channel vs self).res =
        .suspended ∧
      (coro_bus_send_v_step_u32 (some b) channel vs self).err =
        .WOULD_BLOCK) ∧
    (ch.data.length < ch.size_limit →
      ∃ r : Nat, r = min vs.length
          ((ch.size_limit - ch.data.length) % 4294967296) ∧
        (coro_bus_send_v_step_u32 (some b) channel vs self).res =
          .done (Int.ofNat r) ∧
        (coro_bus_send_v_step_u32 (some b) channel vs self).err =
          .NONE ∧
        (coro_bus_send_v_step_u32 (some b) channel vs self).woken =
          ch.recv_queue.take r ∧
        (∃ b', (coro_bus_send_v_step_u32 (some b) channel vs self).bus =
            some b' ∧
          chanAt b' channel = some
            { ch with
              data := ch.data ++ vs.take r,
              recv_queue := ch.recv_queue.drop r })) ∧
    (ch.size_limit < 4294967296 →
      min vs.length ((ch.size_limit - ch.data.length) % 4294967296) =
        min vs.length (ch.size_limit - ch.data.length)) ∧
    (ch.data = [] →
      (coro_bus_recv_v_step_u32 (some b) channel cap self).res =
        .suspended ∧
      (coro_bus_recv_v_step_u32 (some b) channel cap self).err =
        .WOULD_BLOCK) ∧
    (ch.data ≠ [] →
      ∃ r : Nat, r = min (ch.data.length % 4294967296) cap ∧
        (coro_bus_recv_v_step_u32 (some b) channel cap self).res =
          .done (Int.ofNat r) ∧
        (coro_bus_recv_v_step_u32 (some b) channel cap self).err =
          .NONE ∧
        (coro_bus_recv_v_step_u32 (some b) channel cap self).out =
          ch.data.take r ∧
        (coro_bus_recv_v_step_u32 (some b) channel cap self).woken =
          ch.send_queue.take r ++ b.broadcast_queue.take 1 ∧
        (∃ b', (coro_bus_recv_v_step_u32 (some b) channel cap self).bus =
            some b' ∧
          chanAt b' channel = some
            { ch with
              data := ch.data.drop r,
              send_queue := ch.send_queue.drop r })) ∧
    (ch.data.length < 4294967296 →
      min (ch.data.length % 4294967296) cap =
        min ch.data.length cap) := by
  have hvs0 : ¬ vs.length = 0 := by
    simpa [List.length_eq_zero] using hvs
  have hcap0 : ¬ cap = 0 := by omega
  refine ⟨?_, ?_, ?_, ?_, ?_, ?_⟩
  · intro hfull
    have heff : coro_bus_send_v_step_u32 (some b) channel vs self =
        ⟨.suspended,
          some (set_channel b channel.toNat
            (some { ch with send_queue := ch.send_queue ++ [self] })),
          .WOULD_BLOCK, [], []⟩ := by
      unfold coro_bus_send_v_step_u32
      rw [if_neg hvs0]
      simp only [hch]
      rw [if_pos hfull]
    rw [heff]
    exact ⟨rfl, rfl⟩
  · intro hroom
    have hfull : ¬ ch.size_limit ≤ ch.data.length := by omega
    have heff : coro_bus_send_v_step_u32 (some b) channel vs self =
        ⟨.done (int_of_unsigned
            (min ((ch.size_limit - ch.data.length) % 4294967296)
              vs.length)),
          some (set_channel b channel.toNat (some
            { ch with
              data := ch.data ++ vs.take
                (min ((ch.size_limit - ch.data.length) % 4294967296)
                  vs.length),
              recv_queue := ch.recv_queue.drop
                (min ((ch.size_limit - ch.data.length) % 4294967296)
                  vs.length) })),
          .NONE,
          ch.recv_queue.take
            (min ((ch.size_limit - ch.data.length) % 4294967296)
              vs.length), []⟩ := by
      unfold coro_bus_send_v_step_u32
      rw [if_neg hvs0]
      simp only [hch]
      rw [if_neg hfull]
      rfl
    have hcast : int_of_unsigned
        (min ((ch.size_limit - ch.data.length) % 4294967296)
          vs.length) =
        Int.ofNat (min ((ch.size_limit - ch.data.length) % 4294967296)
          vs.length) := by
      unfold int_of_unsigned
      rw [if_pos]
      exact Nat.lt_of_le_of_lt (Nat.min_le_right _ _) hvsint
    refine ⟨min ((ch.size_limit - ch.data.length) % 4294967296)
      vs.length, Nat.min_comm _ _, ?_, ?_, ?_, ?_⟩
    · rw [heff]
      show step_result.done _ = _
      rw [hcast]
    · rw [heff]
    · rw [heff]
    · refine ⟨_, by rw [heff], ?_⟩
      exact chanAt_set_self hch _
  · intro hlim
    have hmod : (ch.size_limit - ch.data.length) % 4294967296 =
        ch.size_limit - ch.data.length :=
      Nat.mod_eq_of_lt (by omega)
    rw [hmod]
  · intro hempty
    have hemp : ch.data.isEmpty := by simp [hempty]
    have heff : coro_bus_recv_v_step_u32 (some b) channel cap self =
        ⟨.suspended,
          some (set_channel b channel.toNat
            (some { ch with recv_queue := ch.recv_queue ++ [self] })),
          .WOULD_BLOCK, [], []⟩ := by
      unfold coro_bus_recv_v_step_u32
      rw [if_neg hcap0]
      simp only [hch]
      rw [if_pos hemp]
    rw [heff]
    exact ⟨rfl, rfl⟩
  · intro hne
    have hemp : ¬ ch.data.isEmpty = true := by
      simpa [List.isEmpty_iff] using hne
    have heff : coro_bus_recv_v_step_u32 (some b) channel cap self =
        ⟨.done (int_of_unsigned
            (min (ch.data.length % 4294967296) cap)),
          some { set_channel b channel.toNat (some
            { ch with
              data := ch.data.drop
                (min (ch.data.length % 4294967296) cap),
              send_queue := ch.send_queue.drop
                (min (ch.data.length % 4294967296) cap) })
            with broadcast_queue := b.broadcast_queue.drop 1 },
          .NONE,
          ch.send_queue.take (min (ch.data.length % 4294967296) cap) ++
            b.broadcast_queue.take 1,
          ch.data.take (min (ch.data.length % 4294967296) cap)⟩ := by
      unfold coro_bus_recv_v_step_u32
      rw [if_neg hcap0]
      simp only [hch]
      rw [if_neg hemp]
      rfl
    have hcast : int_of_unsigned
        (min (ch.data.length % 4294967296) cap) =
        Int.ofNat (min (ch.data.length % 4294967296) cap) := by
      unfold int_of_unsigned
      rw [if_pos]
      exact Nat.lt_of_le_of_lt (Nat.min_le_right _ _) hcapint
    refine ⟨min (ch.data.length % 4294967296) cap, rfl,
      ?_, ?_, ?_, ?_, ?_⟩
    · rw [heff]
      show step_result.done _ = _
      rw [hcast]
    · rw [heff]
    · rw [heff]
    · rw [heff]
    · refine ⟨_, by rw [heff], ?_⟩
      rw [chanAt_broadcast_irrelevant]
      exact chanAt_set_self hch _
  · intro hlen
    have hmod : ch.data.length % 4294967296 = ch.data.length :=
      Nat.mod_eq_of_lt hlen
    rw [hmod]

/-- Witness for the amended C8 on the spec scenario, where the narrowing
is invisible: a capacity-3 channel holding `[10]`; `send_v` of
`[20,30,40,50]` returns 2 and leaves the buffer `[10,20,30]`; `recv_v`
with capacity 10 on the resulting channel returns 3 and drains
`[10,20,30]`. -/
theorem C8_batch_transfer_narrowed_witness :
    (coro_bus_send_v_step_u32 (some ⟨[some ⟨3, [], [], [10]⟩], []⟩) 0
      [20, 30, 40, 50] 1).res = .done (Int.ofNat 2) ∧
    (∃ b', (coro_bus_send_v_step_u32
        (some ⟨[some ⟨3, [], [], [10]⟩], []⟩) 0
        [20, 30, 40, 50] 1).bus = some b' ∧
      chanAt b' 0 = some ⟨3, [], [], [10, 20, 30]⟩) ∧
    (coro_bus_recv_v_step_u32
      (some ⟨[some ⟨3, [], [], [10, 20, 30]⟩], []⟩) 0
      10 2).res = .done (Int.ofNat 3) ∧
    (coro_bus_recv_v_step_u32
      (some ⟨[some ⟨3, [], [], [10, 20, 30]⟩], []⟩) 0
      10 2).out = [10, 20, 30] := by
  have hs := (C8_batch_transfer_narrowed ⟨[some ⟨3, [], [], [10]⟩], []⟩ 0
    ⟨3, [], [], [10]⟩ [20, 30, 40, 50] 10 1 rfl (by decide) (by decide)
    (by decide) (by decide)).2.1 (by decide)
  have hr := (C8_batch_transfer_narrowed
    ⟨[some ⟨3, [], [], [10, 20, 30]⟩], []⟩ 0
    ⟨3, [], [], [10, 20, 30]⟩ [20, 30, 40, 50] 10 2 rfl (by decide)
    (by decide) (by decide) (by decide)).2.2.2.2.1 (by decide)
  obtain ⟨r, hrv, hres, herr, hwoken, b', hbus, hat⟩ := hs
  obtain ⟨r2, hrv2, hres2, herr2, hout2, hwoken2, b2', hbus2, hat2⟩ := hr
  have h2 : r = 2 := by
    simp at hrv
    omega
  have h3 : r2 = 3 := by
    simp at hrv2
    omega
  subst h2
  subst h3
  refine ⟨hres, ⟨b', hbus, ?_⟩, hres2, ?_⟩
  · rw [hat]
    rfl
  · rw [hout2]
    rfl

/-! ### The cooperative system: suspended coroutines and scheduling

A system state is the live bus, the error indicator, and the set of
coroutines currently inside a blocking call (`pend`): each holds the
operation it retries on resumption.  A pending coroutine whose id sits in
some wait queue is suspended; once a wakeup removes it from the queue it
is runnable and will re-run one loop iteration (`runPend`).  Steps are:
writing the indicator (`coro_bus_errno_set`, also the observable effect
of the zero-count batch calls), the non-suspending operations, a fresh
coroutine entering a blocking call, and a runnable pending coroutine
resuming.  `coro_bus_new` is the fixed initial state; `coro_bus_delete`
ends the world and is omitted. -/

/-- A blocking operation in progress, as retried on each resumption. -/
inductive pending_op where
  | send (channel : Int) (data : Nat)
  | recv (channel : Int)
  | send_v (channel : Int) (data : List Nat)
  | recv_v (channel : Int) (capacity : Nat)
  | broadcast (data : Nat)
deriving DecidableEq, Repr

/-- A whole-system state under cooperative scheduling. -/
structure sys where
  bus : coro_bus
  err : coro_bus_error_code
  pend : List (Nat × pending_op)
deriving DecidableEq, Repr

/-- The wait-queue entries owned by one slot. -/
def chan_queues : Option coro_bus_channel → List Nat
  | none => []
  | some ch => ch.send_queue ++ ch.recv_queue

/-- Every wait-queue entry of the bus (all channels, then the broadcast
queue). -/
def queuesList (b : coro_bus) : List Nat :=
  (b.channels.map chan_queues).flatten ++ b.broadcast_queue

/-- The ids of the coroutines inside a blocking call. -/
def pendKeys (s : sys) : List Nat := s.pend.map Prod.fst

/-- One loop iteration of a blocking operation, by coroutine `c`. -/
def iter (b : coro_bus) (c : Nat) (op : pending_op) : op_effect :=
  match op with
  | .send d v => coro_bus_send_step (some b) d v c
  | .recv d => coro_bus_recv_step (some b) d c
  | .send_v d vs => coro_bus_send_v_step (some b) d vs c
  | .recv_v d cap => coro_bus_recv_v_step (some b) d cap c
  | .broadcast v => coro_bus_broadcast_step (some b) v c

/-- Run one iteration of `op` for coroutine `c`: on completion the
coroutine leaves `pend`; on suspension it stays (or enters) with the same
operation, its id having been appended to the corresponding wait
queue by the iteration itself. -/
def runPend (s : sys) (c : Nat) (op : pending_op) : sys :=
  let eff := iter s.bus c op
  match eff.res with
  | .done _ =>
    ⟨eff.bus.getD s.bus, eff.err, s.pend.filter fun p => p.1 != c⟩
  | .suspended =>
    ⟨eff.bus.getD s.bus, eff.err,
      (s.pend.filter fun p => p.1 != c) ++ [(c, op)]⟩

/-- Absorb the effect of a non-suspending operation into the state. -/
def sysOfEff (s : sys) (eff : op_effect) : sys :=
  ⟨eff.bus.getD s.bus, eff.err, s.pend⟩

/-- A pending blocking call always has a positive count: the public
zero-count batch calls return before the retry loop and never suspend. -/
def op_wf : pending_op → Prop
  | .send_v _ vs => vs ≠ []
  | .recv_v _ cap => cap ≠ 0
  | _ => True

/-- One scheduler step of the cooperative system. -/
inductive step : sys → sys → Prop where
  | errno_write (s : sys) (e : coro_bus_error_code) :
      step s ⟨s.bus, e, s.pend⟩
  | chan_open (s : sys) (cap : Nat) :
      step s (sysOfEff s (coro_bus_channel_open (some s.bus) cap))
  | chan_close (s : sys) (d : Int) :
      step s (sysOfEff s (coro_bus_channel_close (some s.bus) d s.err))
  | do_try_send (s : sys) (d : Int) (v : Nat) :
      step s (sysOfEff s (coro_bus_try_send (some s.bus) d v))
  | do_try_recv (s : sys) (d : Int) :
      step s (sysOfEff s (coro_bus_try_recv (some s.bus) d))
  | do_try_send_v (s : sys) (d : Int) (vs : List Nat) :
      step s (sysOfEff s (coro_bus_try_send_v (some s.bus) d vs))
  | do_try_recv_v (s : sys) (d : Int) (cap : Nat) :
      step s (sysOfEff s (coro_bus_try_recv_v (some s.bus) d cap))
  | do_try_broadcast (s : sys) (v : Nat) :
      step s (sysOfEff s (coro_bus_try_broadcast (some s.bus) v))
  | call (s : sys) (c : Nat) (op : pending_op) :
      c ∉ pendKeys s → c ∉ queuesList s.bus → op_wf op →
      step s (runPend s c op)
  | resume (s : sys) (c : Nat) (op : pending_op) :
      (c, op) ∈ s.pend → c ∉ queuesList s.bus →
      step s (runPend s c op)

/-- The state right after `coro_bus_new`. -/
def init_sys : sys := ⟨⟨[], []⟩, .NONE, []⟩

/-- States reachable from a fresh bus under cooperative scheduling. -/
def reachable (s : sys) : Prop := Relation.ReflTransGen step init_sys s

/-- Claim C3 (counterexample to the claim as stated): the state reached
by open(capacity 1); coroutine 1 sends 5 (fills the channel); coroutines
2 and 3 block in send; coroutine 4 recvs.  The recv pops the only payload
and wakes only the first suspended sender, so at that observable point
the channel has `buffer.len = 0 < 1 = capacity` while coroutine 3 still
sits on the send wait queue — the claimed invariant is false. -/
theorem C3_counterexample :
    ¬ (∀ s : sys, reachable s → ∀ (d : Int) (ch : coro_bus_channel),
        chanAt s.bus d = some ch →
        (ch.data.length < ch.size_limit → ch.send_queue = []) ∧
        (0 < ch.data.length → ch.recv_queue = [])) := by
  intro hclaim
  have hreach : reachable
      ⟨⟨[some ⟨1, [3], [], []⟩], []⟩, .NONE,
        [(2, .send 0 6), (3, .send 0 7)]⟩ := by
    refine .head (step.chan_open init_sys 1) ?_
    refine .head (step.call _ 1 (.send 0 5) (by decide) (by decide)
      trivial) ?_
    refine .head (step.call _ 2 (.send 0 6) (by decide) (by decide)
      trivial) ?_
    refine .head (step.call _ 3 (.send 0 7) (by decide) (by decide)
      trivial) ?_
    refine .head (step.call _ 4 (.recv 0) (by decide) (by decide)
      trivial) ?_
    exact .refl
  have h := (hclaim _ hreach 0 ⟨1, [3], [], []⟩ rfl).1 (by decide)
  exact absurd h (by decide)

/-! ### Wake accounting

The amended form of the wakeup invariant counts, per channel, the pending
coroutines of the right kind that have been woken (removed from every
wait queue) but have not yet re-run.  `wokenCount pend Q T` counts the
pending entries whose operation satisfies `T` and whose coroutine id is
in no wait queue (`Q` is the list of all wait-queue entries). -/

/-- Whether a pending operation is a send-type operation (send or send_v)
on descriptor `d`. -/
def is_send_to (d : Int) : pending_op → Bool
  | .send d' _ => d' == d
  | .send_v d' _ => d' == d
  | _ => false

/-- Whether a pending operation is a recv-type operation (recv or recv_v)
on descriptor `d`. -/
def is_recv_to (d : Int) : pending_op → Bool
  | .recv d' => d' == d
  | .recv_v d' _ => d' == d
  | _ => false

/-- Pending entries satisfying `T` whose coroutine sits in no wait
queue. -/
def wokenCount (pend : List (Nat × pending_op)) (Q : List Nat)
    (T : pending_op → Bool) : Nat :=
  pend.countP fun p => T p.2 && !(decide (p.1 ∈ Q))

/-- Woken pending senders targeting channel `d`. -/
def sendersWoken (s : sys) (d : Int) : Nat :=
  wokenCount s.pend (queuesList s.bus) (is_send_to d)

/-- Woken pending receivers targeting channel `d`. -/
def recvWoken (s : sys) (d : Int) : Nat :=
  wokenCount s.pend (queuesList s.bus) (is_recv_to d)

/-- Structural well-formedness of a system state: pending coroutine ids
are unique; wait-queue entries are globally unique (a coroutine waits in
at most one place); every wait-queue entry belongs to a pending coroutine
of the matching kind; pending batch calls have positive counts. -/
structure sys_wf (s : sys) : Prop where
  keys_nodup : (pendKeys s).Nodup
  queues_nodup : (queuesList s.bus).Nodup
  send_q_pend : ∀ d ch c, chanAt s.bus d = some ch → c ∈ ch.send_queue →
    ∃ op, (c, op) ∈ s.pend ∧ is_send_to d op
  recv_q_pend : ∀ d ch c, chanAt s.bus d = some ch → c ∈ ch.recv_queue →
    ∃ op, (c, op) ∈ s.pend ∧ is_recv_to d op
  bq_pend : ∀ c ∈ s.bus.broadcast_queue,
    ∃ v, (c, pending_op.broadcast v) ∈ s.pend
  pend_ok : ∀ p ∈ s.pend, op_wf p.2

/-- The counting invariant: a non-empty send queue implies enough woken
senders to refill the channel to capacity; a non-empty recv queue implies
enough woken receivers to drain it. -/
def inv_counts (s : sys) : Prop :=
  ∀ d ch, chanAt s.bus d = some ch →
    (ch.send_queue ≠ [] →
      ch.size_limit ≤ ch.data.length + sendersWoken s d) ∧
    (ch.recv_queue ≠ [] → ch.data.length ≤ recvWoken s d)

/-! ### Counting toolkit -/

theorem countP_and_split {α : Type} (l : List α) (P Q : α → Bool) :
    l.countP Q =
      l.countP (fun a => Q a && P a) + l.countP (fun a => Q a && !P a) := by
  induction l with
  | nil => rfl
  | cons x xs ih =>
    by_cases hq : Q x <;> by_cases hp : P x <;>
      simp [List.countP_cons, hq, hp, ih] <;> omega

theorem flip_count_le (l : List (Nat × pending_op))
    (P Q : Nat × pending_op → Bool) (S : List Nat) (hS : S.Nodup)
    (hmono : ∀ p ∈ l, P p = true → Q p = true)
    (hflip : ∀ c ∈ S, ∃ op, (c, op) ∈ l ∧ Q (c, op) ∧ ¬ P (c, op)) :
    l.countP P + S.length ≤ l.countP Q := by
  have hsplit := countP_and_split l P Q
  have hQP : l.countP (fun a => Q a && P a) = l.countP P := by
    apply List.countP_congr
    intro p hp
    constructor
    · intro h
      exact (Bool.and_eq_true _ _ |>.mp h).2
    · intro h
      exact Bool.and_eq_true _ _ |>.mpr ⟨hmono p hp h, h⟩
  suffices h : S.length ≤ l.countP (fun a => Q a && !P a) by omega
  clear hsplit hQP hmono
  induction S generalizing l with
  | nil => simp
  | cons c S' ih =>
    obtain ⟨op, hmem, hQ, hP⟩ := hflip c (List.mem_cons_self c S')
    obtain ⟨l1, l2, rfl⟩ := List.append_of_mem hmem
    have hS' : S'.Nodup := (List.nodup_cons.mp hS).2
    have hcS' : c ∉ S' := (List.nodup_cons.mp hS).1
    have hflip' : ∀ c' ∈ S', ∃ op', (c', op') ∈ l1 ++ l2 ∧
        Q (c', op') ∧ ¬ P (c', op') := by
      intro c' hc'
      obtain ⟨op', hmem', hQ', hP'⟩ := hflip c' (List.mem_cons_of_mem _ hc')
      refine ⟨op', ?_, hQ', hP'⟩
      rcases List.mem_append.mp hmem' with h | h
      · exact List.mem_append.mpr (Or.inl h)
      · rcases List.mem_cons.mp h with h2 | h2
        · exfalso
          apply hcS'
          have hcc : c' = c := congrArg Prod.fst h2
          exact hcc ▸ hc'
        · exact List.mem_append.mpr (Or.inr h2)
    have hrec := ih (l1 ++ l2) hS' hflip'
    have hp' : P (c, op) = false := by
      cases h : P (c, op)
      · rfl
      · exact absurd h hP
    have hcount : List.countP (fun a => Q a && !P a) (l1 ++ (c, op) :: l2)
        = List.countP (fun a => Q a && !P a) (l1 ++ l2) + 1 := by
      rw [List.countP_append, List.countP_cons, List.countP_append]
      simp [hQ, hp']
      omega
    rw [hcount, List.length_cons]
    exact Nat.add_le_add_right hrec 1

theorem countP_key_eq_le_one (l : List (Nat × pending_op)) (c : Nat)
    (hkeys : (l.map Prod.fst).Nodup) :
    l.countP (fun p => p.1 == c) ≤ 1 := by
  induction l with
  | nil => simp
  | cons x xs ih =>
    simp only [List.map_cons, List.nodup_cons] at hkeys
    by_cases hx : x.1 == c
    · have hz : xs.countP (fun p => p.1 == c) = 0 := by
        rw [List.countP_eq_zero]
        intro p hp hpc
        apply hkeys.1
        have h1 : x.1 = c := by simpa using hx
        have h2 : p.1 = c := by simpa using hpc
        rw [h1, ← h2]
        exact List.mem_map_of_mem Prod.fst hp
      have hstep : List.countP (fun p => p.1 == c) (x :: xs) =
          List.countP (fun p => p.1 == c) xs + 1 := by
        rw [List.countP_cons]
        simp [hx]
      rw [hstep, hz]
    · have hstep : List.countP (fun p => p.1 == c) (x :: xs) =
          List.countP (fun p => p.1 == c) xs := by
        rw [List.countP_cons]
        simp [hx]
      rw [hstep]
      exact ih hkeys.2

theorem countP_filter_key_le (l : List (Nat × pending_op))
    (P : Nat × pending_op → Bool) (c : Nat)
    (hkeys : (l.map Prod.fst).Nodup) :
    l.countP P ≤ (l.filter fun p => p.1 != c).countP P + 1 := by
  rw [List.countP_filter]
  have hsplit := countP_and_split l (fun p => p.1 != c) P
  have hle : l.countP (fun p => P p && !(p.1 != c)) ≤
      l.countP (fun p => p.1 == c) := by
    apply List.countP_mono_left
    intro p _ hp
    have := (Bool.and_eq_true _ _ |>.mp hp).2
    simpa using this
  have h1 := countP_key_eq_le_one l c hkeys
  omega

theorem countP_filter_key_eq (l : List (Nat × pending_op))
    (P : Nat × pending_op → Bool) (c : Nat)
    (hc : ∀ p ∈ l, p.1 = c → P p = false) :
    (l.filter fun p => p.1 != c).countP P = l.countP P := by
  rw [List.countP_filter]
  apply List.countP_congr
  intro p hp
  constructor
  · intro h
    exact (Bool.and_eq_true _ _ |>.mp h).1
  · intro h
    refine Bool.and_eq_true _ _ |>.mpr ⟨h, ?_⟩
    by_cases hpc : p.1 = c
    · rw [hc p hp hpc] at h
      cases h
    · simpa using hpc

/-! ### wokenCount manipulation -/

theorem wokenCount_mono (pend : List (Nat × pending_op)) (Q Q' : List Nat)
    (T : pending_op → Bool) (hsub : ∀ a, a ∈ Q' → a ∈ Q) :
    wokenCount pend Q T ≤ wokenCount pend Q' T := by
  apply List.countP_mono_left
  intro p _ hp
  have h1 := (Bool.and_eq_true _ _).mp hp
  refine (Bool.and_eq_true _ _).mpr ⟨h1.1, ?_⟩
  have h2 : ¬ p.1 ∈ Q := by simpa using h1.2
  simp only [Bool.not_eq_true', decide_eq_false_iff_not]
  exact fun hm => h2 (hsub _ hm)

theorem wokenCount_flip (pend : List (Nat × pending_op))
    (Q Q' W S : List Nat) (T : pending_op → Bool)
    (hperm : Q.Perm (Q' ++ W)) (hQ : Q.Nodup) (hS : S.Nodup)
    (hSW : ∀ c ∈ S, c ∈ W)
    (hSpend : ∀ c ∈ S, ∃ op, (c, op) ∈ pend ∧ T op) :
    wokenCount pend Q T + S.length ≤ wokenCount pend Q' T := by
  apply flip_count_le _ _ _ _ hS
  · intro p _ hp
    have h1 := (Bool.and_eq_true _ _).mp hp
    refine (Bool.and_eq_true _ _).mpr ⟨h1.1, ?_⟩
    have h2 : ¬ p.1 ∈ Q := by simpa using h1.2
    simp only [Bool.not_eq_true', decide_eq_false_iff_not]
    intro hm
    exact h2 (hperm.symm.subset (List.mem_append.mpr (Or.inl hm)))
  · intro c hc
    obtain ⟨op, hmem, hT⟩ := hSpend c hc
    have hcW := hSW c hc
    have hnodup' : (Q' ++ W).Nodup := hperm.nodup_iff.mp hQ
    have hdisj := List.disjoint_of_nodup_append hnodup'
    have hcQ : c ∈ Q := hperm.symm.subset (List.mem_append.mpr (Or.inr hcW))
    have hcQ' : c ∉ Q' := fun hm => (hdisj hm hcW)
    refine ⟨op, hmem, ?_, ?_⟩
    · simp [hT, hcQ']
    · simp [hcQ]

theorem wokenCount_filter_le (pend : List (Nat × pending_op)) (Q : List Nat)
    (T : pending_op → Bool) (c : Nat)
    (hkeys : (pend.map Prod.fst).Nodup) :
    wokenCount pend Q T ≤
      wokenCount (pend.filter fun p => p.1 != c) Q T + 1 :=
  countP_filter_key_le pend _ c hkeys

theorem wokenCount_filter_eq (pend : List (Nat × pending_op)) (Q : List Nat)
    (T : pending_op → Bool) (c : Nat)
    (hc : ∀ p ∈ pend, p.1 = c → T p.2 = false) :
    wokenCount (pend.filter fun p => p.1 != c) Q T = wokenCount pend Q T := by
  apply countP_filter_key_eq
  intro p hp hpc
  rw [hc p hp hpc]
  rfl

theorem wokenCount_filter_mono (pend : List (Nat × pending_op)) (Q : List Nat)
    (T : pending_op → Bool) (c : Nat) :
    wokenCount (pend.filter fun p => p.1 != c) Q T ≤ wokenCount pend Q T := by
  unfold wokenCount
  rw [List.countP_filter]
  apply List.countP_mono_left
  intro p _ hp
  exact (Bool.and_eq_true _ _ |>.mp hp).1

theorem wokenCount_append_one (pend : List (Nat × pending_op)) (Q : List Nat)
    (T : pending_op → Bool) (c : Nat) (op : pending_op) (hcQ : c ∈ Q) :
    wokenCount (pend ++ [(c, op)]) Q T = wokenCount pend Q T := by
  unfold wokenCount
  rw [List.countP_append]
  simp [hcQ]

theorem wokenCount_queue_congr (pend : List (Nat × pending_op))
    (Q Q' : List Nat) (T : pending_op → Bool)
    (hmem : ∀ p ∈ pend, (p.1 ∈ Q ↔ p.1 ∈ Q')) :
    wokenCount pend Q T = wokenCount pend Q' T := by
  apply List.countP_congr
  intro p hp
  constructor
  · intro h
    have h1 := (Bool.and_eq_true _ _).mp h
    refine (Bool.and_eq_true _ _).mpr ⟨h1.1, ?_⟩
    have h2 : ¬ p.1 ∈ Q := by simpa using h1.2
    simp only [Bool.not_eq_true', decide_eq_false_iff_not]
    exact fun hm => h2 ((hmem p hp).mpr hm)
  · intro h
    have h1 := (Bool.and_eq_true _ _).mp h
    refine (Bool.and_eq_true _ _).mpr ⟨h1.1, ?_⟩
    have h2 : ¬ p.1 ∈ Q' := by simpa using h1.2
    simp only [Bool.not_eq_true', decide_eq_false_iff_not]
    exact fun hm => h2 ((hmem p hp).mp hm)

/-! ### Wait-queue list decomposition -/

/-- The wait-queue entries of the channel slots only. -/
def chansQueues (b : coro_bus) : List Nat :=
  (b.channels.map chan_queues).flatten

theorem queuesList_eq_parts (b : coro_bus) :
    queuesList b = chansQueues b ++ b.broadcast_queue := rfl

theorem count_take_drop (l : List Nat) (k : Nat) (a : Nat) :
    (l.take k).count a + (l.drop k).count a = l.count a := by
  conv_rhs => rw [← List.take_append_drop k l]
  rw [List.count_append]

theorem chansQueues_decomp (b : coro_bus) (n : Nat)
    (h : n < b.channels.length) :
    chansQueues b = ((b.channels.take n).map chan_queues).flatten ++
      (chan_queues b.channels[n] ++
        ((b.channels.drop (n + 1)).map chan_queues).flatten) := by
  unfold chansQueues
  conv_lhs => rw [← List.take_append_drop n b.channels,
    List.drop_eq_getElem_cons h]
  rw [List.map_append, List.flatten_append, List.map_cons,
    List.flatten_cons]

theorem chansQueues_set (b : coro_bus) (n : Nat)
    (x : Option coro_bus_channel) (h : n < b.channels.length) :
    chansQueues (set_channel b n x) =
      ((b.channels.take n).map chan_queues).flatten ++
        (chan_queues x ++
          ((b.channels.drop (n + 1)).map chan_queues).flatten) := by
  unfold chansQueues set_channel
  simp only
  rw [List.set_eq_take_cons_drop x h]
  rw [List.map_append, List.flatten_append, List.map_cons,
    List.flatten_cons]

theorem count_queuesList_set_bq (b : coro_bus) (n : Nat)
    (x : Option coro_bus_channel) (q' : List Nat) (a : Nat)
    (h : n < b.channels.length) :
    (queuesList { set_channel b n x with broadcast_queue := q' }).count a
        + (chan_queues b.channels[n]).count a
        + b.broadcast_queue.count a
      = (queuesList b).count a + (chan_queues x).count a + q'.count a := by
  have hq1 : queuesList { set_channel b n x with broadcast_queue := q' } =
      chansQueues (set_channel b n x) ++ q' := rfl
  rw [hq1, queuesList_eq_parts, chansQueues_set b n x h,
    chansQueues_decomp b n h]
  simp [List.count_append]
  omega

/-- Urform of the wake permutations: replacing slot `n` by `x` and the
broadcast queue by `q'` detaches exactly the multiset `W` of waiters. -/
theorem queuesList_perm_forward (b : coro_bus) (n : Nat)
    (x : Option coro_bus_channel) (q' W : List Nat)
    (h : n < b.channels.length)
    (hcnt : ∀ a : Nat, (chan_queues b.channels[n]).count a
        + b.broadcast_queue.count a
      = (chan_queues x).count a + q'.count a + W.count a) :
    (queuesList b).Perm
      (queuesList { set_channel b n x with broadcast_queue := q' } ++ W) := by
  rw [List.perm_iff_count]
  intro a
  have h1 := count_queuesList_set_bq b n x q' a h
  have h2 := hcnt a
  rw [List.count_append]
  omega

/-- Urform of the suspend permutations: replacing slot `n` by `x` (and the
broadcast queue by `q'`) adds exactly the multiset `W` of new waiters. -/
theorem queuesList_perm_backward (b : coro_bus) (n : Nat)
    (x : Option coro_bus_channel) (q' W : List Nat)
    (h : n < b.channels.length)
    (hcnt : ∀ a : Nat, (chan_queues x).count a + q'.count a
      = (chan_queues b.channels[n]).count a + b.broadcast_queue.count a
        + W.count a) :
    (queuesList { set_channel b n x with broadcast_queue := q' }).Perm
      (queuesList b ++ W) := by
  rw [List.perm_iff_count]
  intro a
  have h1 := count_queuesList_set_bq b n x q' a h
  have h2 := hcnt a
  rw [List.count_append]
  omega

theorem chanAt_getElem {b : coro_bus} {d : Int} {ch : coro_bus_channel}
    (hch : chanAt b d = some ch) :
    ∃ h : d.toNat < b.channels.length, b.channels[d.toNat] = some ch := by
  obtain ⟨-, hlt, hsome⟩ := chanAt_elim hch
  obtain ⟨h1, h2⟩ := List.getElem?_eq_some.mp hsome
  exact ⟨h1, h2⟩

theorem mem_queuesList_slot {b : coro_bus} {n : Nat}
    (h : n < b.channels.length) {c : Nat}
    (hc : c ∈ chan_queues b.channels[n]) : c ∈ queuesList b := by
  rw [queuesList_eq_parts, chansQueues_decomp b n h]
  exact List.mem_append.mpr (Or.inl (List.mem_append.mpr
    (Or.inr (List.mem_append.mpr (Or.inl hc)))))

theorem mem_queuesList_send {b : coro_bus} {d : Int} {ch : coro_bus_channel}
    {c : Nat} (hch : chanAt b d = some ch) (hc : c ∈ ch.send_queue) :
    c ∈ queuesList b := by
  obtain ⟨hlt, hget⟩ := chanAt_getElem hch
  apply mem_queuesList_slot hlt
  rw [hget]
  exact List.mem_append.mpr (Or.inl hc)

theorem mem_queuesList_recv {b : coro_bus} {d : Int} {ch : coro_bus_channel}
    {c : Nat} (hch : chanAt b d = some ch) (hc : c ∈ ch.recv_queue) :
    c ∈ queuesList b := by
  obtain ⟨hlt, hget⟩ := chanAt_getElem hch
  apply mem_queuesList_slot hlt
  rw [hget]
  exact List.mem_append.mpr (Or.inr hc)

theorem mem_queuesList_bq {b : coro_bus} {c : Nat}
    (hc : c ∈ b.broadcast_queue) : c ∈ queuesList b :=
  List.mem_append.mpr (Or.inr hc)

theorem nodup_slot_queues {b : coro_bus} {n : Nat}
    (h : n < b.channels.length) (hnd : (queuesList b).Nodup) :
    (chan_queues b.channels[n]).Nodup := by
  rw [queuesList_eq_parts, chansQueues_decomp b n h] at hnd
  have h1 := (List.nodup_append.mp hnd).1
  have h2 := (List.nodup_append.mp h1).2.1
  exact (List.nodup_append.mp h2).1

theorem nodup_chan_of_chanAt {b : coro_bus} {d : Int}
    {ch : coro_bus_channel} (hch : chanAt b d = some ch)
    (hnd : (queuesList b).Nodup) :
    ch.send_queue.Nodup ∧ ch.recv_queue.Nodup := by
  obtain ⟨hlt, hget⟩ := chanAt_getElem hch
  have := nodup_slot_queues hlt hnd
  rw [hget] at this
  have h2 : (ch.send_queue ++ ch.recv_queue).Nodup := this
  exact ⟨(List.nodup_append.mp h2).1, (List.nodup_append.mp h2).2.1⟩

theorem pend_entry_unique {pend : List (Nat × pending_op)}
    (hkeys : (pend.map Prod.fst).Nodup) {c : Nat} {op op' : pending_op}
    (h1 : (c, op) ∈ pend) (h2 : (c, op') ∈ pend) : op = op' := by
  induction pend with
  | nil => cases h1
  | cons x xs ih =>
    simp only [List.map_cons, List.nodup_cons] at hkeys
    rcases List.mem_cons.mp h1 with hx1 | hx1 <;>
      rcases List.mem_cons.mp h2 with hx2 | hx2
    · exact congrArg Prod.snd (hx1.trans hx2.symm)
    · exfalso
      apply hkeys.1
      have hx : x.1 = c := by rw [← hx1]
      rw [hx]
      exact List.mem_map_of_mem Prod.fst hx2
    · exfalso
      apply hkeys.1
      have hx : x.1 = c := by rw [← hx2]
      rw [hx]
      exact List.mem_map_of_mem Prod.fst hx1
    · exact ih hkeys.2 hx1 hx2

/-! ### Master lemmas for the invariant preservation -/

/-- The commit shape shared by all successful transfers on one channel:
slot `d` gets new payload data, the first `j` send waiters, `k` recv
waiters and `bqk` broadcast waiters are detached and woken, and `pend`
loses at most entries whose ids sit in no wait queue.  Conclusion: the
structural invariants still hold, and the old wait-queue population is
exactly the new one plus the woken ids. -/
theorem wf_commit (s : sys) (d : Int) (ch : coro_bus_channel)
    (j k bqk : Nat) (newdata : List Nat) (e' : coro_bus_error_code)
    (pend' : List (Nat × pending_op))
    (hw : sys_wf s) (hch : chanAt s.bus d = some ch)
    (hpend_sub : ∀ p ∈ pend', p ∈ s.pend)
    (hpend_keys : (pend'.map Prod.fst).Nodup)
    (hpend_keep : ∀ p ∈ s.pend, p.1 ∈ queuesList s.bus → p ∈ pend') :
    sys_wf ⟨{ set_channel s.bus d.toNat
        (some ⟨ch.size_limit, ch.send_queue.drop j, ch.recv_queue.drop k,
          newdata⟩) with
        broadcast_queue := s.bus.broadcast_queue.drop bqk }, e', pend'⟩ ∧
    (queuesList s.bus).Perm
      (queuesList { set_channel s.bus d.toNat
          (some ⟨ch.size_limit, ch.send_queue.drop j, ch.recv_queue.drop k,
            newdata⟩) with
          broadcast_queue := s.bus.broadcast_queue.drop bqk } ++
        (ch.send_queue.take j ++ ch.recv_queue.take k ++
          s.bus.broadcast_queue.take bqk)) := by
  obtain ⟨hd0, hlt0, -⟩ := chanAt_elim hch
  obtain ⟨hlt, hget⟩ := chanAt_getElem hch
  have hperm : (queuesList s.bus).Perm
      (queuesList { set_channel s.bus d.toNat
          (some ⟨ch.size_limit, ch.send_queue.drop j, ch.recv_queue.drop k,
            newdata⟩) with
          broadcast_queue := s.bus.broadcast_queue.drop bqk } ++
        (ch.send_queue.take j ++ ch.recv_queue.take k ++
          s.bus.broadcast_queue.take bqk)) := by
    apply queuesList_perm_forward _ _ _ _ _ hlt
    intro a
    rw [hget]
    show (ch.send_queue ++ ch.recv_queue).count a + _ = _
    simp only [chan_queues, List.count_append]
    have h1 := count_take_drop ch.send_queue j a
    have h2 := count_take_drop ch.recv_queue k a
    have h3 := count_take_drop s.bus.broadcast_queue bqk a
    omega
  refine ⟨?_, hperm⟩
  have hQsub : ∀ a, a ∈ queuesList { set_channel s.bus d.toNat
      (some ⟨ch.size_limit, ch.send_queue.drop j, ch.recv_queue.drop k,
        newdata⟩) with
      broadcast_queue := s.bus.broadcast_queue.drop bqk } →
      a ∈ queuesList s.bus := by
    intro a ha
    exact hperm.symm.subset (List.mem_append.mpr (Or.inl ha))
  constructor
  · exact hpend_keys
  · exact (List.nodup_append.mp (hperm.nodup_iff.mp hw.queues_nodup)).1
  · intro d' ch' c' hch' hc'
    rw [chanAt_broadcast_irrelevant] at hch'
    by_cases hdd : d' = d
    · subst hdd
      rw [chanAt_set_self hch] at hch'
      cases hch'
      have hsq : c' ∈ ch.send_queue := List.mem_of_mem_drop hc'
      obtain ⟨op, hop, hT⟩ := hw.send_q_pend d' ch c' hch hsq
      exact ⟨op, hpend_keep _ hop (mem_queuesList_send hch hsq), hT⟩
    · rw [chanAt_set_ne hd0 _ hdd] at hch'
      obtain ⟨op, hop, hT⟩ := hw.send_q_pend d' ch' c' hch' hc'
      exact ⟨op, hpend_keep _ hop (mem_queuesList_send hch' hc'), hT⟩
  · intro d' ch' c' hch' hc'
    rw [chanAt_broadcast_irrelevant] at hch'
    by_cases hdd : d' = d
    · subst hdd
      rw [chanAt_set_self hch] at hch'
      cases hch'
      have hrq : c' ∈ ch.recv_queue := List.mem_of_mem_drop hc'
      obtain ⟨op, hop, hT⟩ := hw.recv_q_pend d' ch c' hch hrq
      exact ⟨op, hpend_keep _ hop (mem_queuesList_recv hch hrq), hT⟩
    · rw [chanAt_set_ne hd0 _ hdd] at hch'
      obtain ⟨op, hop, hT⟩ := hw.recv_q_pend d' ch' c' hch' hc'
      exact ⟨op, hpend_keep _ hop (mem_queuesList_recv hch' hc'), hT⟩
  · intro c' hc'
    have hbq : c' ∈ s.bus.broadcast_queue := List.mem_of_mem_drop hc'
    obtain ⟨v, hv⟩ := hw.bq_pend c' hbq
    exact ⟨v, hpend_keep _ hv (mem_queuesList_bq hbq)⟩
  · intro p hp
    exact hw.pend_ok p (hpend_sub p hp)

theorem chanAt_set_ne_nat {b : coro_bus} (i : Nat) (x : Option coro_bus_channel)
    {d' : Int} (hne : d' < 0 ∨ d'.toNat ≠ i) :
    chanAt (set_channel b i x) d' = chanAt b d' := by
  unfold chanAt set_channel
  by_cases h0 : d' < 0
  · simp [h0]
  · rcases hne with h | h
    · exact absurd h h0
    · simp only [h0, if_false]
      rw [List.getD_eq_getElem?_getD, List.getD_eq_getElem?_getD,
        List.getElem?_set_ne (Ne.symm h)]

theorem not_mem_pendErase_keys (pend : List (Nat × pending_op)) (c : Nat) :
    c ∉ (pend.filter fun p => p.1 != c).map Prod.fst := by
  intro hc
  obtain ⟨p, hp, hpc⟩ := List.mem_map.mp hc
  have := (List.mem_filter.mp hp).2
  rw [hpc] at this
  simp at this

theorem mem_pendErase_of_ne {pend : List (Nat × pending_op)} {c : Nat}
    {p : Nat × pending_op} (hp : p ∈ pend) (hne : p.1 ≠ c) :
    p ∈ pend.filter fun p => p.1 != c := by
  rw [List.mem_filter]
  exact ⟨hp, by simpa using hne⟩

theorem pendErase_keys_nodup {pend : List (Nat × pending_op)} (c : Nat)
    (h : (pend.map Prod.fst).Nodup) :
    ((pend.filter fun p => p.1 != c).map Prod.fst).Nodup :=
  List.Nodup.sublist (List.Sublist.map Prod.fst (List.filter_sublist pend)) h

/-- The suspend shape on one channel: coroutine `c` (in no wait queue)
parks itself on one of slot `d`'s queues and records its pending
operation.  The structural invariants still hold, and the new wait-queue
population is the old one plus `c`. -/
theorem wf_suspend_slot (s : sys) (d : Int) (ch newch : coro_bus_channel)
    (c : Nat) (op0 : pending_op) (e' : coro_bus_error_code)
    (hw : sys_wf s) (hch : chanAt s.bus d = some ch)
    (hcQ : c ∉ queuesList s.bus) (hwf0 : op_wf op0)
    (hcnt : ∀ a : Nat, (chan_queues (some newch)).count a =
      (chan_queues (some ch)).count a + [c].count a)
    (hsendmem : ∀ x ∈ newch.send_queue,
      x ∈ ch.send_queue ∨ (x = c ∧ is_send_to d op0))
    (hrecvmem : ∀ x ∈ newch.recv_queue,
      x ∈ ch.recv_queue ∨ (x = c ∧ is_recv_to d op0)) :
    sys_wf ⟨set_channel s.bus d.toNat (some newch), e',
      (s.pend.filter fun p => p.1 != c) ++ [(c, op0)]⟩ ∧
    (queuesList (set_channel s.bus d.toNat (some newch))).Perm
      (queuesList s.bus ++ [c]) := by
  obtain ⟨hd0, hlt0, -⟩ := chanAt_elim hch
  obtain ⟨hlt, hget⟩ := chanAt_getElem hch
  have hperm : (queuesList (set_channel s.bus d.toNat (some newch))).Perm
      (queuesList s.bus ++ [c]) := by
    have h := queuesList_perm_backward s.bus d.toNat (some newch)
      s.bus.broadcast_queue [c] hlt ?_
    · exact h
    · intro a
      rw [hget]
      have := hcnt a
      omega
  have hnodup' : (queuesList (set_channel s.bus d.toNat
      (some newch))).Nodup := by
    refine hperm.nodup_iff.mpr ?_
    rw [List.nodup_append]
    refine ⟨hw.queues_nodup, List.nodup_singleton c, ?_⟩
    intro x hx hx2
    rw [List.mem_singleton] at hx2
    rw [hx2] at hx
    exact hcQ hx
  have hmemfil : ∀ p ∈ s.pend, p.1 ∈ queuesList s.bus →
      p ∈ ((s.pend.filter fun p => p.1 != c) ++ [(c, op0)]) := by
    intro p hp hpq
    apply List.mem_append.mpr
    left
    apply mem_pendErase_of_ne hp
    intro hcon
    rw [hcon] at hpq
    exact hcQ hpq
  refine ⟨⟨?_, hnodup', ?_, ?_, ?_, ?_⟩, hperm⟩
  · show (((s.pend.filter fun p => p.1 != c) ++
      [(c, op0)]).map Prod.fst).Nodup
    rw [List.map_append, List.nodup_append]
    refine ⟨pendErase_keys_nodup c hw.keys_nodup, List.nodup_singleton _, ?_⟩
    intro x hx hx2
    simp only [List.map_cons, List.map_nil, List.mem_singleton] at hx2
    rw [hx2] at hx
    exact not_mem_pendErase_keys s.pend c hx
  · intro d' ch' c' hch' hc'
    by_cases hdd : d' = d
    · subst hdd
      rw [chanAt_set_self hch] at hch'
      cases hch'
      rcases hsendmem c' hc' with h | ⟨rfl, hT⟩
      · obtain ⟨op, hop, hT⟩ := hw.send_q_pend d' ch c' hch h
        exact ⟨op, hmemfil _ hop (mem_queuesList_send hch h), hT⟩
      · exact ⟨op0, List.mem_append.mpr (Or.inr (List.mem_singleton.mpr
          rfl)), hT⟩
    · rw [chanAt_set_ne hd0 _ hdd] at hch'
      obtain ⟨op, hop, hT⟩ := hw.send_q_pend d' ch' c' hch' hc'
      exact ⟨op, hmemfil _ hop (mem_queuesList_send hch' hc'), hT⟩
  · intro d' ch' c' hch' hc'
    by_cases hdd : d' = d
    · subst hdd
      rw [chanAt_set_self hch] at hch'
      cases hch'
      rcases hrecvmem c' hc' with h | ⟨rfl, hT⟩
      · obtain ⟨op, hop, hT⟩ := hw.recv_q_pend d' ch c' hch h
        exact ⟨op, hmemfil _ hop (mem_queuesList_recv hch h), hT⟩
      · exact ⟨op0, List.mem_append.mpr (Or.inr (List.mem_singleton.mpr
          rfl)), hT⟩
    · rw [chanAt_set_ne hd0 _ hdd] at hch'
      obtain ⟨op, hop, hT⟩ := hw.recv_q_pend d' ch' c' hch' hc'
      exact ⟨op, hmemfil _ hop (mem_queuesList_recv hch' hc'), hT⟩
  · intro c' hc'
    have hbq : c' ∈ s.bus.broadcast_queue := hc'
    obtain ⟨v, hv⟩ := hw.bq_pend c' hbq
    exact ⟨v, hmemfil _ hv (mem_queuesList_bq hbq)⟩
  · intro p hp
    rcases List.mem_append.mp hp with h | h
    · exact hw.pend_ok p (List.mem_of_mem_filter h)
    · rw [List.mem_singleton] at h
      rw [h]
      exact hwf0

/-- The suspend shape of a blocked broadcaster: coroutine `c` parks
itself on the bus broadcast queue. -/
theorem wf_suspend_bq (s : sys) (c : Nat) (v : Nat)
    (e' : coro_bus_error_code) (hw : sys_wf s)
    (hcQ : c ∉ queuesList s.bus) :
    sys_wf ⟨{ s.bus with
        broadcast_queue := s.bus.broadcast_queue ++ [c] }, e',
      (s.pend.filter fun p => p.1 != c) ++
        [(c, pending_op.broadcast v)]⟩ ∧
    (queuesList { s.bus with
        broadcast_queue := s.bus.broadcast_queue ++ [c] }).Perm
      (queuesList s.bus ++ [c]) := by
  have heq : queuesList { s.bus with
      broadcast_queue := s.bus.broadcast_queue ++ [c] } =
      queuesList s.bus ++ [c] := by
    rw [queuesList_eq_parts, queuesList_eq_parts]
    show chansQueues s.bus ++ (s.bus.broadcast_queue ++ [c]) = _
    rw [List.append_assoc]
  have hperm : (queuesList { s.bus with
      broadcast_queue := s.bus.broadcast_queue ++ [c] }).Perm
      (queuesList s.bus ++ [c]) := by
    rw [heq]
  have hnodup' : (queuesList { s.bus with
      broadcast_queue := s.bus.broadcast_queue ++ [c] }).Nodup := by
    rw [heq, List.nodup_append]
    refine ⟨hw.queues_nodup, List.nodup_singleton c, ?_⟩
    intro x hx hx2
    rw [List.mem_singleton] at hx2
    rw [hx2] at hx
    exact hcQ hx
  have hmemfil : ∀ p ∈ s.pend, p.1 ∈ queuesList s.bus →
      p ∈ ((s.pend.filter fun p => p.1 != c) ++
        [(c, pending_op.broadcast v)]) := by
    intro p hp hpq
    apply List.mem_append.mpr
    left
    apply mem_pendErase_of_ne hp
    intro hcon
    rw [hcon] at hpq
    exact hcQ hpq
  refine ⟨⟨?_, hnodup', ?_, ?_, ?_, ?_⟩, hperm⟩
  · show (((s.pend.filter fun p => p.1 != c) ++
      [(c, pending_op.broadcast v)]).map Prod.fst).Nodup
    rw [List.map_append, List.nodup_append]
    refine ⟨pendErase_keys_nodup c hw.keys_nodup, List.nodup_singleton _, ?_⟩
    intro x hx hx2
    simp only [List.map_cons, List.map_nil, List.mem_singleton] at hx2
    rw [hx2] at hx
    exact not_mem_pendErase_keys s.pend c hx
  · intro d' ch' c' hch' hc'
    rw [chanAt_broadcast_irrelevant] at hch'
    obtain ⟨op, hop, hT⟩ := hw.send_q_pend d' ch' c' hch' hc'
    exact ⟨op, hmemfil _ hop (mem_queuesList_send hch' hc'), hT⟩
  · intro d' ch' c' hch' hc'
    rw [chanAt_broadcast_irrelevant] at hch'
    obtain ⟨op, hop, hT⟩ := hw.recv_q_pend d' ch' c' hch' hc'
    exact ⟨op, hmemfil _ hop (mem_queuesList_recv hch' hc'), hT⟩
  · intro c' hc'
    show ∃ v', (c', pending_op.broadcast v') ∈ _
    rcases List.mem_append.mp hc' with h | h
    · obtain ⟨v', hv⟩ := hw.bq_pend c' h
      exact ⟨v', hmemfil _ hv (mem_queuesList_bq h)⟩
    · rw [List.mem_singleton] at h
      rw [h]
      exact ⟨v, List.mem_append.mpr (Or.inr (List.mem_singleton.mpr rfl))⟩
  · intro p hp
    rcases List.mem_append.mp hp with h | h
    · exact hw.pend_ok p (List.mem_of_mem_filter h)
    · rw [List.mem_singleton] at h
      rw [h]
      exact trivial

theorem flatten_map_decomp (l : List (Option coro_bus_channel))
    (g : Option coro_bus_channel → List Nat) (n : Nat) (h : n < l.length) :
    (l.map g).flatten = ((l.take n).map g).flatten ++
      (g l[n] ++ ((l.drop (n + 1)).map g).flatten) := by
  conv_lhs => rw [← List.take_append_drop n l, List.drop_eq_getElem_cons h]
  rw [List.map_append, List.flatten_append, List.map_cons,
    List.flatten_cons]

theorem mem_flatten_map_slot {l : List (Option coro_bus_channel)}
    (g : Option coro_bus_channel → List Nat) {n : Nat}
    (h : n < l.length) {c : Nat} (hc : c ∈ g l[n]) :
    c ∈ (l.map g).flatten := by
  rw [flatten_map_decomp l g n h]
  exact List.mem_append.mpr (Or.inr (List.mem_append.mpr (Or.inl hc)))

theorem count_broadcast_push_list (l : List (Option coro_bus_channel))
    (v a : Nat) :
    ((l.map fun o => chan_queues (o.map fun ch =>
        { ch with
          data := ch.data ++ [v],
          recv_queue :=
            (wakeup_queue_wakeup_first ch.recv_queue).1 })).flatten).count a
      + ((l.map fun o => match o with
          | none => []
          | some ch =>
            (wakeup_queue_wakeup_first ch.recv_queue).2).flatten).count a
    = ((l.map chan_queues).flatten).count a := by
  induction l with
  | nil => rfl
  | cons o rest ih =>
    simp only [List.map_cons, List.flatten_cons, List.count_append]
    cases o with
    | none =>
      simp only [Option.map_none', chan_queues, List.count_nil] at ih ⊢
      omega
    | some ch =>
      have h := count_take_drop ch.recv_queue 1 a
      simp only [Option.map_some', chan_queues, List.count_append,
        wakeup_queue_wakeup_first] at ih ⊢
      omega

theorem perm_broadcast_push (b : coro_bus) (v : Nat) :
    (queuesList b).Perm
      (queuesList (broadcast_push b v) ++ broadcast_woken b) := by
  rw [List.perm_iff_count]
  intro a
  have h := count_broadcast_push_list b.channels v a
  have h1 : queuesList (broadcast_push b v) =
      (b.channels.map fun o => chan_queues (o.map fun ch =>
        { ch with
          data := ch.data ++ [v],
          recv_queue :=
            (wakeup_queue_wakeup_first ch.recv_queue).1 })).flatten ++
        b.broadcast_queue := by
    rw [queuesList_eq_parts]
    unfold chansQueues broadcast_push
    rw [List.map_map]
    rfl
  have h2 : broadcast_woken b =
      (b.channels.map fun o => match o with
        | none => []
        | some ch =>
          (wakeup_queue_wakeup_first ch.recv_queue).2).flatten := by
    unfold broadcast_woken
    congr 1
  rw [queuesList_eq_parts, h1, h2]
  unfold chansQueues
  simp only [List.count_append]
  omega

theorem mem_broadcast_woken {b : coro_bus} {d : Int}
    {ch : coro_bus_channel} {c : Nat} (hch : chanAt b d = some ch)
    (hc : c ∈ ch.recv_queue.take 1) : c ∈ broadcast_woken b := by
  obtain ⟨hlt, hget⟩ := chanAt_getElem hch
  unfold broadcast_woken
  apply mem_flatten_map_slot _ hlt
  rw [hget]
  exact hc

theorem chanAt_broadcast_push_some {b : coro_bus} {d : Int}
    {ch : coro_bus_channel} (hch : chanAt b d = some ch) (v : Nat) :
    chanAt (broadcast_push b v) d = some
      { ch with
        data := ch.data ++ [v],
        recv_queue := (wakeup_queue_wakeup_first ch.recv_queue).1 } := by
  rw [chanAt_broadcast_push, hch]
  rfl

theorem chanAt_broadcast_push_none {b : coro_bus} {d : Int}
    (hch : chanAt b d = none) (v : Nat) :
    chanAt (broadcast_push b v) d = none := by
  rw [chanAt_broadcast_push, hch]
  rfl

theorem chanAt_set_self_nat {b : coro_bus} {i : Nat}
    (hlt : i < b.channels.length) (x : Option coro_bus_channel) {d' : Int}
    (hd : 0 ≤ d') (hik : d'.toNat = i) :
    chanAt (set_channel b i x) d' = x := by
  unfold chanAt set_channel
  simp only [Int.not_lt.mpr hd, if_neg (Int.not_lt.mpr hd : ¬ d' < 0)]
  rw [List.getD_eq_getElem?_getD, hik,
    List.getElem?_set_eq_of_lt _ (by simpa using hlt)]
  rfl

theorem chanAt_append {b : coro_bus} (x : Option coro_bus_channel)
    {d' : Int} {ch' : coro_bus_channel}
    (h : chanAt { b with channels := b.channels ++ [x] } d' = some ch') :
    chanAt b d' = some ch' ∨ (d'.toNat = b.channels.length ∧ x = some ch') := by
  unfold chanAt at h ⊢
  by_cases h0 : d' < 0
  · simp [h0] at h
  · simp only [h0, if_false] at h ⊢
    rw [List.getD_eq_getElem?_getD] at h
    rw [List.getD_eq_getElem?_getD]
    rcases Nat.lt_trichotomy d'.toNat b.channels.length with hlt | heq | hgt
    · left
      rwa [List.getElem?_append_left hlt] at h
    · right
      rw [heq, List.getElem?_concat_length] at h
      simp at h
      exact ⟨heq, by rw [h]⟩
    · exfalso
      have : (b.channels ++ [x])[d'.toNat]? = none := by
        apply List.getElem?_eq_none
        simp only [List.length_append, List.length_singleton]
        omega
      rw [this] at h
      simp at h

theorem preserve_close (s : sys) (d : Int) (hw : sys_wf s)
    (hj : inv_counts s) :
    sys_wf (sysOfEff s (coro_bus_channel_close (some s.bus) d s.err)) ∧
    inv_counts (sysOfEff s (coro_bus_channel_close (some s.bus) d s.err)) := by
  cases hch : chanAt s.bus d with
  | none =>
    have heq : sysOfEff s (coro_bus_channel_close (some s.bus) d s.err) =
        ⟨s.bus, s.err, s.pend⟩ := by
      unfold coro_bus_channel_close sysOfEff
      simp only [hch]
      rfl
    rw [heq]
    exact ⟨hw, hj⟩
  | some ch =>
    obtain ⟨hd0, hlt0, -⟩ := chanAt_elim hch
    obtain ⟨hlt, hget⟩ := chanAt_getElem hch
    have heq : sysOfEff s (coro_bus_channel_close (some s.bus) d s.err) =
        ⟨{ set_channel s.bus d.toNat none with broadcast_queue := [] },
          s.err, s.pend⟩ := by
      unfold coro_bus_channel_close sysOfEff
      simp only [hch]
      rfl
    rw [heq]
    have hperm : (queuesList s.bus).Perm
        (queuesList { set_channel s.bus d.toNat none with
            broadcast_queue := [] } ++
          ((ch.send_queue ++ ch.recv_queue) ++ s.bus.broadcast_queue)) := by
      apply queuesList_perm_forward _ _ _ _ _ hlt
      intro a
      rw [hget]
      simp only [chan_queues, List.count_append, List.count_nil]
      omega
    have hsub : ∀ a, a ∈ queuesList { set_channel s.bus d.toNat none with
        broadcast_queue := [] } → a ∈ queuesList s.bus := by
      intro a ha
      exact hperm.symm.subset (List.mem_append.mpr (Or.inl ha))
    constructor
    · refine ⟨hw.keys_nodup, ?_, ?_, ?_, ?_, hw.pend_ok⟩
      · exact (List.nodup_append.mp (hperm.nodup_iff.mp
          hw.queues_nodup)).1
      · intro d' ch' c' hch' hc'
        rw [chanAt_broadcast_irrelevant] at hch'
        by_cases hdd : d' = d
        · subst hdd
          rw [chanAt_set_self hch] at hch'
          exact absurd hch' (by simp)
        · rw [chanAt_set_ne hd0 _ hdd] at hch'
          exact hw.send_q_pend d' ch' c' hch' hc'
      · intro d' ch' c' hch' hc'
        rw [chanAt_broadcast_irrelevant] at hch'
        by_cases hdd : d' = d
        · subst hdd
          rw [chanAt_set_self hch] at hch'
          exact absurd hch' (by simp)
        · rw [chanAt_set_ne hd0 _ hdd] at hch'
          exact hw.recv_q_pend d' ch' c' hch' hc'
      · intro c' hc'
        exact absurd hc' (List.not_mem_nil c')
    · intro d' ch' hch'
      rw [chanAt_broadcast_irrelevant] at hch'
      by_cases hdd : d' = d
      · subst hdd
        rw [chanAt_set_self hch] at hch'
        exact absurd hch' (by simp)
      · rw [chanAt_set_ne hd0 _ hdd] at hch'
        have hJ := hj d' ch' hch'
        have hmS : sendersWoken s d' ≤ sendersWoken
            ⟨{ set_channel s.bus d.toNat none with broadcast_queue := [] },
              s.err, s.pend⟩ d' :=
          wokenCount_mono s.pend _ _ (is_send_to d') hsub
        have hmR : recvWoken s d' ≤ recvWoken
            ⟨{ set_channel s.bus d.toNat none with broadcast_queue := [] },
              s.err, s.pend⟩ d' :=
          wokenCount_mono s.pend _ _ (is_recv_to d') hsub
        constructor
        · intro hq
          have := hJ.1 hq
          omega
        · intro hq
          have := hJ.2 hq
          omega

theorem preserve_open (s : sys) (cap : Nat) (hw : sys_wf s)
    (hj : inv_counts s) :
    sys_wf (sysOfEff s (coro_bus_channel_open (some s.bus) cap)) ∧
    inv_counts (sysOfEff s (coro_bus_channel_open (some s.bus) cap)) := by
  cases hf : s.bus.channels.findIdx? Option.isNone with
  | some i =>
    obtain ⟨hlt, hnone, -⟩ := List.findIdx?_eq_some_iff_getElem.mp hf
    have hslot : s.bus.channels[i] = none := Option.isNone_iff_eq_none.mp hnone
    have heq : sysOfEff s (coro_bus_channel_open (some s.bus) cap) =
        ⟨set_channel s.bus i (some ⟨cap, [], [], []⟩), .NONE, s.pend⟩ := by
      unfold coro_bus_channel_open sysOfEff
      simp only [hf]
      rfl
    rw [heq]
    have hceq : ∀ a, (queuesList (set_channel s.bus i
        (some ⟨cap, [], [], []⟩))).count a = (queuesList s.bus).count a := by
      intro a
      have h := count_queuesList_set_bq s.bus i (some ⟨cap, [], [], []⟩)
        s.bus.broadcast_queue a hlt
      have h2 : queuesList { set_channel s.bus i (some ⟨cap, [], [], []⟩)
          with broadcast_queue := s.bus.broadcast_queue } =
          queuesList (set_channel s.bus i (some ⟨cap, [], [], []⟩)) := rfl
      rw [hslot, h2] at h
      simp only [chan_queues, List.count_nil, List.append_nil] at h
      omega
    have hperm : (queuesList (set_channel s.bus i
        (some ⟨cap, [], [], []⟩))).Perm (queuesList s.bus) :=
      List.perm_iff_count.mpr hceq
    have hmemiff : ∀ a, a ∈ queuesList (set_channel s.bus i
        (some ⟨cap, [], [], []⟩)) ↔ a ∈ queuesList s.bus :=
      fun a => hperm.mem_iff
    constructor
    · refine ⟨hw.keys_nodup, hperm.nodup_iff.mpr hw.queues_nodup,
        ?_, ?_, ?_, hw.pend_ok⟩
      · intro d' ch' c' hch' hc'
        by_cases hdd : 0 ≤ d' ∧ d'.toNat = i
        · rw [chanAt_set_self_nat hlt _ hdd.1 hdd.2] at hch'
          cases hch'
          exact absurd hc' (List.not_mem_nil c')
        · rw [chanAt_set_ne_nat i _ (by omega)] at hch'
          exact hw.send_q_pend d' ch' c' hch' hc'
      · intro d' ch' c' hch' hc'
        by_cases hdd : 0 ≤ d' ∧ d'.toNat = i
        · rw [chanAt_set_self_nat hlt _ hdd.1 hdd.2] at hch'
          cases hch'
          exact absurd hc' (List.not_mem_nil c')
        · rw [chanAt_set_ne_nat i _ (by omega)] at hch'
          exact hw.recv_q_pend d' ch' c' hch' hc'
      · intro c' hc'
        exact hw.bq_pend c' hc'
    · intro d' ch' hch'
      have hcS : sendersWoken ⟨set_channel s.bus i
          (some ⟨cap, [], [], []⟩), .NONE, s.pend⟩ d' =
          sendersWoken s d' := by
        apply wokenCount_queue_congr
        intro p _
        exact hmemiff p.1
      have hcR : recvWoken ⟨set_channel s.bus i
          (some ⟨cap, [], [], []⟩), .NONE, s.pend⟩ d' =
          recvWoken s d' := by
        apply wokenCount_queue_congr
        intro p _
        exact hmemiff p.1
      by_cases hdd : 0 ≤ d' ∧ d'.toNat = i
      · rw [chanAt_set_self_nat hlt _ hdd.1 hdd.2] at hch'
        cases hch'
        constructor
        · intro hq
          exact absurd rfl hq
        · intro hq
          exact absurd rfl hq
      · rw [chanAt_set_ne_nat i _ (by omega)] at hch'
        have hJ := hj d' ch' hch'
        constructor
        · intro hq
          have := hJ.1 hq
          omega
        · intro hq
          have := hJ.2 hq
          omega
  | none =>
    have heq : sysOfEff s (coro_bus_channel_open (some s.bus) cap) =
        ⟨{ s.bus with channels :=
            s.bus.channels ++ [some ⟨cap, [], [], []⟩] }, .NONE, s.pend⟩ := by
      unfold coro_bus_channel_open sysOfEff
      simp only [hf]
      rfl
    rw [heq]
    have hQeq : queuesList { s.bus with channels :=
        s.bus.channels ++ [some ⟨cap, [], [], []⟩] } = queuesList s.bus := by
      rw [queuesList_eq_parts, queuesList_eq_parts]
      have : chansQueues { s.bus with channels :=
          s.bus.channels ++ [some ⟨cap, [], [], []⟩] } =
          chansQueues s.bus := by
        unfold chansQueues
        simp only
        rw [List.map_append, List.flatten_append]
        simp [chan_queues]
      rw [this]
    constructor
    · refine ⟨hw.keys_nodup, ?_, ?_, ?_, ?_, hw.pend_ok⟩
      · show (queuesList { s.bus with channels :=
          s.bus.channels ++ [some ⟨cap, [], [], []⟩] }).Nodup
        rw [hQeq]
        exact hw.queues_nodup
      · intro d' ch' c' hch' hc'
        rcases chanAt_append _ hch' with h | ⟨-, h⟩
        · exact hw.send_q_pend d' ch' c' h hc'
        · cases h
          exact absurd hc' (List.not_mem_nil c')
      · intro d' ch' c' hch' hc'
        rcases chanAt_append _ hch' with h | ⟨-, h⟩
        · exact hw.recv_q_pend d' ch' c' h hc'
        · cases h
          exact absurd hc' (List.not_mem_nil c')
      · intro c' hc'
        exact hw.bq_pend c' hc'
    · intro d' ch' hch'
      have hcS : sendersWoken ⟨{ s.bus with channels :=
          s.bus.channels ++ [some ⟨cap, [], [], []⟩] }, .NONE, s.pend⟩ d' =
          sendersWoken s d' := by
        unfold sendersWoken
        rw [show queuesList (⟨{ s.bus with channels :=
          s.bus.channels ++ [some ⟨cap, [], [], []⟩] }, .NONE,
          s.pend⟩ : sys).bus = queuesList s.bus from hQeq]
      have hcR : recvWoken ⟨{ s.bus with channels :=
          s.bus.channels ++ [some ⟨cap, [], [], []⟩] }, .NONE, s.pend⟩ d' =
          recvWoken s d' := by
        unfold recvWoken
        rw [show queuesList (⟨{ s.bus with channels :=
          s.bus.channels ++ [some ⟨cap, [], [], []⟩] }, .NONE,
          s.pend⟩ : sys).bus = queuesList s.bus from hQeq]
      rcases chanAt_append _ hch' with h | ⟨-, h⟩
      · have hJ := hj d' ch' h
        constructor
        · intro hq
          have := hJ.1 hq
          omega
        · intro hq
          have := hJ.2 hq
          omega
      · cases h
        constructor
        · intro hq
          exact absurd rfl hq
        · intro hq
          exact absurd rfl hq

theorem commit_count_loss_one (pend : List (Nat × pending_op))
    (Q Q' : List Nat) (T : pending_op → Bool) (c : Nat)
    (hkeys : (pend.map Prod.fst).Nodup) (hsub : ∀ a, a ∈ Q' → a ∈ Q) :
    wokenCount pend Q T ≤
      wokenCount (pend.filter fun p => p.1 != c) Q' T + 1 := by
  have h1 := wokenCount_filter_le pend Q T c hkeys
  have h2 := wokenCount_mono (pend.filter fun p => p.1 != c) Q Q' T hsub
  omega

theorem commit_count_no_loss (pend : List (Nat × pending_op))
    (Q Q' : List Nat) (T : pending_op → Bool) (c : Nat)
    (hcT : ∀ p ∈ pend, p.1 = c → T p.2 = false)
    (hsub : ∀ a, a ∈ Q' → a ∈ Q) :
    wokenCount pend Q T ≤ wokenCount (pend.filter fun p => p.1 != c) Q' T := by
  have h1 := wokenCount_filter_eq pend Q T c hcT
  have h2 := wokenCount_mono (pend.filter fun p => p.1 != c) Q Q' T hsub
  omega

theorem commit_count_flips (pend : List (Nat × pending_op))
    (Q Q' W S : List Nat) (T : pending_op → Bool) (c : Nat)
    (hperm : Q.Perm (Q' ++ W)) (hQ : Q.Nodup) (hS : S.Nodup)
    (hSW : ∀ x ∈ S, x ∈ W)
    (hSpend : ∀ x ∈ S, ∃ op, (x, op) ∈ pend ∧ T op)
    (hcT : ∀ p ∈ pend, p.1 = c → T p.2 = false) :
    wokenCount pend Q T + S.length ≤
      wokenCount (pend.filter fun p => p.1 != c) Q' T := by
  have h1 := wokenCount_flip pend Q Q' W S T hperm hQ hS hSW hSpend
  have h2 := wokenCount_filter_eq pend Q' T c hcT
  omega

theorem suspend_count_eq (pend : List (Nat × pending_op))
    (Q Q' : List Nat) (T : pending_op → Bool) (c : Nat)
    (op0 : pending_op)
    (hcT : ∀ p ∈ pend, p.1 = c → T p.2 = false)
    (hmemQ' : ∀ a, a ∈ Q' ↔ (a ∈ Q ∨ a = c)) (hcQ' : c ∈ Q') :
    wokenCount ((pend.filter fun p => p.1 != c) ++ [(c, op0)]) Q' T =
      wokenCount pend Q T := by
  rw [wokenCount_append_one _ _ _ _ _ hcQ']
  have hcongr := wokenCount_queue_congr
    (pend.filter fun p => p.1 != c) Q' Q T ?_
  · rw [hcongr]
    exact wokenCount_filter_eq pend Q T c hcT
  · intro p hp
    have hne : p.1 ≠ c := by
      have := (List.mem_filter.mp hp).2
      simpa using this
    constructor
    · intro h
      rcases (hmemQ' p.1).mp h with h2 | h2
      · exact h2
      · exact absurd h2 hne
    · intro h
      exact (hmemQ' p.1).mpr (Or.inl h)

theorem suspend_memQ' {Q Q' : List Nat} {c : Nat}
    (hperm : Q'.Perm (Q ++ [c])) :
    ∀ a, a ∈ Q' ↔ (a ∈ Q ∨ a = c) := by
  intro a
  rw [hperm.mem_iff, List.mem_append, List.mem_singleton]

/-- The queue members snapshot needed for flips: the first `k` entries of
a wait queue are distinct and belong to pending coroutines of the queue's
kind. -/
theorem take_send_flips (s : sys) (d : Int) (ch : coro_bus_channel)
    (k : Nat) (hw : sys_wf s) (hch : chanAt s.bus d = some ch) :
    (ch.send_queue.take k).Nodup ∧
    (∀ x ∈ ch.send_queue.take k, ∃ op, (x, op) ∈ s.pend ∧
      is_send_to d op) := by
  constructor
  · exact List.Nodup.sublist (List.take_sublist k ch.send_queue)
      (nodup_chan_of_chanAt hch hw.queues_nodup).1
  · intro x hx
    exact hw.send_q_pend d ch x hch (List.mem_of_mem_take hx)

theorem take_recv_flips (s : sys) (d : Int) (ch : coro_bus_channel)
    (k : Nat) (hw : sys_wf s) (hch : chanAt s.bus d = some ch) :
    (ch.recv_queue.take k).Nodup ∧
    (∀ x ∈ ch.recv_queue.take k, ∃ op, (x, op) ∈ s.pend ∧
      is_recv_to d op) := by
  constructor
  · exact List.Nodup.sublist (List.take_sublist k ch.recv_queue)
      (nodup_chan_of_chanAt hch hw.queues_nodup).2
  · intro x hx
    exact hw.recv_q_pend d ch x hch (List.mem_of_mem_take hx)

/-- Structural invariants survive dropping one non-waiting pending
entry while the bus is untouched. -/
theorem wf_pendErase (s : sys) (c : Nat) (e' : coro_bus_error_code)
    (hw : sys_wf s) (hcQ : c ∉ queuesList s.bus) :
    sys_wf ⟨s.bus, e', s.pend.filter fun p => p.1 != c⟩ := by
  refine ⟨pendErase_keys_nodup c hw.keys_nodup, hw.queues_nodup,
    ?_, ?_, ?_, ?_⟩
  · intro d' ch' c' hch' hc'
    obtain ⟨op, hop, hT⟩ := hw.send_q_pend d' ch' c' hch' hc'
    refine ⟨op, mem_pendErase_of_ne hop ?_, hT⟩
    intro hcon
    apply hcQ
    rw [← hcon]
    exact mem_queuesList_send hch' hc'
  · intro d' ch' c' hch' hc'
    obtain ⟨op, hop, hT⟩ := hw.recv_q_pend d' ch' c' hch' hc'
    refine ⟨op, mem_pendErase_of_ne hop ?_, hT⟩
    intro hcon
    apply hcQ
    rw [← hcon]
    exact mem_queuesList_recv hch' hc'
  · intro c' hc'
    obtain ⟨v, hv⟩ := hw.bq_pend c' hc'
    refine ⟨v, mem_pendErase_of_ne hv ?_⟩
    intro hcon
    apply hcQ
    rw [← hcon]
    exact mem_queuesList_bq hc'
  · intro p hp
    exact hw.pend_ok p (List.mem_of_mem_filter hp)

theorem preserve_run_send (s : sys) (c : Nat) (d : Int) (v : Nat)
    (hw : sys_wf s) (hj : inv_counts s) (hcQ : c ∉ queuesList s.bus)
    (hcP : ∀ p ∈ s.pend, p.1 = c → p.2 = pending_op.send d v) :
    sys_wf (runPend s c (.send d v)) ∧
    inv_counts (runPend s c (.send d v)) := by
  cases hch : chanAt s.bus d with
  | none =>
    have heq : runPend s c (.send d v) =
        ⟨s.bus, .NO_CHANNEL, s.pend.filter fun p => p.1 != c⟩ := by
      unfold runPend iter coro_bus_send_step
      simp only [hch]
      rfl
    rw [heq]
    refine ⟨wf_pendErase s c _ hw hcQ, ?_⟩
    intro d' ch' hch'
    have hch2 : chanAt s.bus d' = some ch' := hch'
    have hcT : ∀ p ∈ s.pend, p.1 = c → is_send_to d' p.2 = false := by
      intro p hp hpc
      rw [hcP p hp hpc]
      show (d == d') = false
      rw [beq_eq_false_iff_ne]
      intro hcon
      have h1 : chanAt s.bus d' = none := by
        rw [← hcon]
        exact hch
      rw [h1] at hch2
      exact Option.noConfusion hch2
    have hcR : ∀ p ∈ s.pend, p.1 = c → is_recv_to d' p.2 = false := by
      intro p hp hpc
      rw [hcP p hp hpc]
      rfl
    have hJ := hj d' ch' hch2
    have hS : sendersWoken ⟨s.bus, .NO_CHANNEL,
        s.pend.filter fun p => p.1 != c⟩ d' = sendersWoken s d' :=
      wokenCount_filter_eq s.pend (queuesList s.bus) (is_send_to d') c hcT
    have hR : recvWoken ⟨s.bus, .NO_CHANNEL,
        s.pend.filter fun p => p.1 != c⟩ d' = recvWoken s d' :=
      wokenCount_filter_eq s.pend (queuesList s.bus) (is_recv_to d') c hcR
    constructor
    · intro hq
      have := hJ.1 hq
      omega
    · intro hq
      have := hJ.2 hq
      omega
  | some ch =>
    obtain ⟨hd0, -, -⟩ := chanAt_elim hch
    by_cases hroom : ch.data.length < ch.size_limit
    · have heq : runPend s c (.send d v) =
          ⟨set_channel s.bus d.toNat (some ⟨ch.size_limit, ch.send_queue,
            ch.recv_queue.drop 1, ch.data ++ [v]⟩), .NONE,
            s.pend.filter fun p => p.1 != c⟩ := by
        unfold runPend iter coro_bus_send_step
        simp only [hch, hroom, if_true]
        rfl
      rw [heq]
      obtain ⟨hwf0, hperm0⟩ := wf_commit s d ch 0 1 0 (ch.data ++ [v]) .NONE
        (s.pend.filter fun p => p.1 != c) hw hch
        (fun p hp => List.mem_of_mem_filter hp)
        (pendErase_keys_nodup c hw.keys_nodup)
        (fun p hp hpq => mem_pendErase_of_ne hp
          (fun hcon => hcQ (by rw [← hcon]; exact hpq)))
      have hwf' : sys_wf ⟨set_channel s.bus d.toNat
          (some ⟨ch.size_limit, ch.send_queue, ch.recv_queue.drop 1,
            ch.data ++ [v]⟩), .NONE,
          s.pend.filter fun p => p.1 != c⟩ := hwf0
      have hperm1 : (queuesList s.bus).Perm
          (queuesList (set_channel s.bus d.toNat
            (some ⟨ch.size_limit, ch.send_queue, ch.recv_queue.drop 1,
              ch.data ++ [v]⟩)) ++ (ch.recv_queue.take 1 ++ [])) := hperm0
      rw [List.append_nil] at hperm1
      have hsub : ∀ a, a ∈ queuesList (set_channel s.bus d.toNat
          (some ⟨ch.size_limit, ch.send_queue, ch.recv_queue.drop 1,
            ch.data ++ [v]⟩)) → a ∈ queuesList s.bus :=
        fun a ha => hperm1.symm.subset (List.mem_append.mpr (Or.inl ha))
      refine ⟨hwf', ?_⟩
      intro d' ch'' hch''
      by_cases hdd : d' = d
      · subst hdd
        have hch3 : chanAt (set_channel s.bus d'.toNat
            (some ⟨ch.size_limit, ch.send_queue, ch.recv_queue.drop 1,
              ch.data ++ [v]⟩)) d' = some ch'' := hch''
        rw [chanAt_set_self hch] at hch3
        cases hch3
        have hJ := hj d' ch hch
        constructor
        · intro hq
          have hJ1 := hJ.1 hq
          have hcw : sendersWoken s d' ≤ sendersWoken
              ⟨set_channel s.bus d'.toNat
                (some ⟨ch.size_limit, ch.send_queue, ch.recv_queue.drop 1,
                  ch.data ++ [v]⟩), .NONE,
                s.pend.filter fun p => p.1 != c⟩ d' + 1 :=
            commit_count_loss_one s.pend _ _ (is_send_to d') c
              hw.keys_nodup hsub
          show ch.size_limit ≤ (ch.data ++ [v]).length + _
          rw [List.length_append, List.length_singleton]
          omega
        · intro hq
          have hrqne : ch.recv_queue ≠ [] := by
            intro hcon
            rw [hcon] at hq
            exact hq rfl
          have hJ2 := hJ.2 hrqne
          obtain ⟨hnd, hpend⟩ := take_recv_flips s d' ch 1 hw hch
          have hcR : ∀ p ∈ s.pend, p.1 = c →
              is_recv_to d' p.2 = false := by
            intro p hp hpc
            rw [hcP p hp hpc]
            rfl
          have hflip : recvWoken s d' + (ch.recv_queue.take 1).length ≤
              recvWoken ⟨set_channel s.bus d'.toNat
                (some ⟨ch.size_limit, ch.send_queue, ch.recv_queue.drop 1,
                  ch.data ++ [v]⟩), .NONE,
                s.pend.filter fun p => p.1 != c⟩ d' :=
            commit_count_flips s.pend _ _ (ch.recv_queue.take 1)
              (ch.recv_queue.take 1) (is_recv_to d') c hperm1
              hw.queues_nodup hnd (fun x hx => hx) hpend hcR
          have hlen1 : (ch.recv_queue.take 1).length = 1 := by
            rw [List.length_take]
            have := List.length_pos.mpr hrqne
            omega
          show (ch.data ++ [v]).length ≤ _
          rw [List.length_append, List.length_singleton]
          omega
      · have hch3 : chanAt (set_channel s.bus d.toNat
            (some ⟨ch.size_limit, ch.send_queue, ch.recv_queue.drop 1,
              ch.data ++ [v]⟩)) d' = some ch'' := hch''
        rw [chanAt_set_ne hd0 _ hdd] at hch3
        have hJ := hj d' ch'' hch3
        have hcT : ∀ p ∈ s.pend, p.1 = c → is_send_to d' p.2 = false := by
          intro p hp hpc
          rw [hcP p hp hpc]
          show (d == d') = false
          rw [beq_eq_false_iff_ne]
          exact fun hcon => hdd hcon.symm
        have hcR : ∀ p ∈ s.pend, p.1 = c → is_recv_to d' p.2 = false := by
          intro p hp hpc
          rw [hcP p hp hpc]
          rfl
        have hgS : sendersWoken s d' ≤ sendersWoken
            ⟨set_channel s.bus d.toNat
              (some ⟨ch.size_limit, ch.send_queue, ch.recv_queue.drop 1,
                ch.data ++ [v]⟩), .NONE,
              s.pend.filter fun p => p.1 != c⟩ d' :=
          commit_count_no_loss s.pend _ _ (is_send_to d') c hcT hsub
        have hgR : recvWoken s d' ≤ recvWoken
            ⟨set_channel s.bus d.toNat
              (some ⟨ch.size_limit, ch.send_queue, ch.recv_queue.drop 1,
                ch.data ++ [v]⟩), .NONE,
              s.pend.filter fun p => p.1 != c⟩ d' :=
          commit_count_no_loss s.pend _ _ (is_recv_to d') c hcR hsub
        constructor
        · intro hq
          have := hJ.1 hq
          omega
        · intro hq
          have := hJ.2 hq
          omega
    · have heq : runPend s c (.send d v) =
          ⟨set_channel s.bus d.toNat (some ⟨ch.size_limit,
            ch.send_queue ++ [c], ch.recv_queue, ch.data⟩), .WOULD_BLOCK,
            (s.pend.filter fun p => p.1 != c) ++
              [(c, pending_op.send d v)]⟩ := by
        unfold runPend iter coro_bus_send_step
        simp only [hch, hroom, if_false]
        rfl
      rw [heq]
      obtain ⟨hwf0, hperm0⟩ := wf_suspend_slot s d ch
        ⟨ch.size_limit, ch.send_queue ++ [c], ch.recv_queue, ch.data⟩ c
        (pending_op.send d v) .WOULD_BLOCK hw hch hcQ trivial
        (by
          intro a
          simp only [chan_queues, List.count_append]
          omega)
        (by
          intro x hx
          rcases List.mem_append.mp hx with h | h
          · exact Or.inl h
          · rw [List.mem_singleton] at h
            refine Or.inr ⟨h, ?_⟩
            show (d == d) = true
            exact beq_self_eq_true d)
        (fun x hx => Or.inl hx)
      have hwf' : sys_wf ⟨set_channel s.bus d.toNat (some ⟨ch.size_limit,
          ch.send_queue ++ [c], ch.recv_queue, ch.data⟩), .WOULD_BLOCK,
          (s.pend.filter fun p => p.1 != c) ++
            [(c, pending_op.send d v)]⟩ := hwf0
      have hperm1 : (queuesList (set_channel s.bus d.toNat
          (some ⟨ch.size_limit, ch.send_queue ++ [c], ch.recv_queue,
            ch.data⟩))).Perm (queuesList s.bus ++ [c]) := hperm0
      have hmemQ' := suspend_memQ' hperm1
      have hcQ' : c ∈ queuesList (set_channel s.bus d.toNat
          (some ⟨ch.size_limit, ch.send_queue ++ [c], ch.recv_queue,
            ch.data⟩)) := (hmemQ' c).mpr (Or.inr rfl)
      refine ⟨hwf', ?_⟩
      intro d' ch'' hch''
      have hfull : ch.size_limit ≤ ch.data.length := Nat.le_of_not_lt hroom
      by_cases hdd : d' = d
      · subst hdd
        have hch3 : chanAt (set_channel s.bus d'.toNat
            (some ⟨ch.size_limit, ch.send_queue ++ [c], ch.recv_queue,
              ch.data⟩)) d' = some ch'' := hch''
        rw [chanAt_set_self hch] at hch3
        cases hch3
        constructor
        · intro hq
          show ch.size_limit ≤ ch.data.length + _
          omega
        · intro hq
          have hJ2 := (hj d' ch hch).2 hq
          have hcR : ∀ p ∈ s.pend, p.1 = c →
              is_recv_to d' p.2 = false := by
            intro p hp hpc
            rw [hcP p hp hpc]
            rfl
          have hEq : recvWoken ⟨set_channel s.bus d'.toNat
              (some ⟨ch.size_limit, ch.send_queue ++ [c], ch.recv_queue,
                ch.data⟩), .WOULD_BLOCK,
              (s.pend.filter fun p => p.1 != c) ++
                [(c, pending_op.send d' v)]⟩ d' = recvWoken s d' :=
            suspend_count_eq s.pend _ _ (is_recv_to d') c
              (pending_op.send d' v) hcR hmemQ' hcQ'
          show ch.data.length ≤ _
          omega
      · have hch3 : chanAt (set_channel s.bus d.toNat
            (some ⟨ch.size_limit, ch.send_queue ++ [c], ch.recv_queue,
              ch.data⟩)) d' = some ch'' := hch''
        rw [chanAt_set_ne hd0 _ hdd] at hch3
        have hJ := hj d' ch'' hch3
        have hcT : ∀ p ∈ s.pend, p.1 = c → is_send_to d' p.2 = false := by
          intro p hp hpc
          rw [hcP p hp hpc]
          show (d == d') = false
          rw [beq_eq_false_iff_ne]
          exact fun hcon => hdd hcon.symm
        have hcR : ∀ p ∈ s.pend, p.1 = c → is_recv_to d' p.2 = false := by
          intro p hp hpc
          rw [hcP p hp hpc]
          rfl
        have hES : sendersWoken ⟨set_channel s.bus d.toNat
            (some ⟨ch.size_limit, ch.send_queue ++ [c], ch.recv_queue,
              ch.data⟩), .WOULD_BLOCK,
            (s.pend.filter fun p => p.1 != c) ++
              [(c, pending_op.send d v)]⟩ d' = sendersWoken s d' :=
          suspend_count_eq s.pend _ _ (is_send_to d') c
            (pending_op.send d v) hcT hmemQ' hcQ'
        have hER : recvWoken ⟨set_channel s.bus d.toNat
            (some ⟨ch.size_limit, ch.send_queue ++ [c], ch.recv_queue,
              ch.data⟩), .WOULD_BLOCK,
            (s.pend.filter fun p => p.1 != c) ++
              [(c, pending_op.send d v)]⟩ d' = recvWoken s d' :=
          suspend_count_eq s.pend _ _ (is_recv_to d') c
            (pending_op.send d v) hcR hmemQ' hcQ'
        constructor
        · intro hq
          have := hJ.1 hq
          omega
        · intro hq
          have := hJ.2 hq
          omega

theorem preserve_run_recv (s : sys) (c : Nat) (d : Int)
    (hw : sys_wf s) (hj : inv_counts s) (hcQ : c ∉ queuesList s.bus)
    (hcP : ∀ p ∈ s.pend, p.1 = c → p.2 = pending_op.recv d) :
    sys_wf (runPend s c (.recv d)) ∧ inv_counts (runPend s c (.recv d)) := by
  cases hch : chanAt s.bus d with
  | none =>
    have heq : runPend s c (.recv d) =
        ⟨s.bus, .NO_CHANNEL, s.pend.filter fun p => p.1 != c⟩ := by
      unfold runPend iter coro_bus_recv_step
      simp only [hch]
      rfl
    rw [heq]
    refine ⟨wf_pendErase s c _ hw hcQ, ?_⟩
    intro d' ch' hch'
    have hch2 : chanAt s.bus d' = some ch' := hch'
    have hcT : ∀ p ∈ s.pend, p.1 = c → is_send_to d' p.2 = false := by
      intro p hp hpc
      rw [hcP p hp hpc]
      rfl
    have hcR : ∀ p ∈ s.pend, p.1 = c → is_recv_to d' p.2 = false := by
      intro p hp hpc
      rw [hcP p hp hpc]
      show (d == d') = false
      rw [beq_eq_false_iff_ne]
      intro hcon
      have h1 : chanAt s.bus d' = none := by
        rw [← hcon]
        exact hch
      rw [h1] at hch2
      exact Option.noConfusion hch2
    have hJ := hj d' ch' hch2
    have hS : sendersWoken ⟨s.bus, .NO_CHANNEL,
        s.pend.filter fun p => p.1 != c⟩ d' = sendersWoken s d' :=
      wokenCount_filter_eq s.pend (queuesList s.bus) (is_send_to d') c hcT
    have hR : recvWoken ⟨s.bus, .NO_CHANNEL,
        s.pend.filter fun p => p.1 != c⟩ d' = recvWoken s d' :=
      wokenCount_filter_eq s.pend (queuesList s.bus) (is_recv_to d') c hcR
    constructor
    · intro hq
      have := hJ.1 hq
      omega
    · intro hq
      have := hJ.2 hq
      omega
  | some ch =>
    obtain ⟨hd0, -, -⟩ := chanAt_elim hch
    cases hdata : ch.data with
    | nil =>
      have heq : runPend s c (.recv d) =
          ⟨set_channel s.bus d.toNat (some ⟨ch.size_limit, ch.send_queue,
            ch.recv_queue ++ [c], ch.data⟩), .WOULD_BLOCK,
            (s.pend.filter fun p => p.1 != c) ++
              [(c, pending_op.recv d)]⟩ := by
        unfold runPend iter coro_bus_recv_step
        simp only [hch, hdata]
        rfl
      rw [heq]
      obtain ⟨hwf0, hperm0⟩ := wf_suspend_slot s d ch
        ⟨ch.size_limit, ch.send_queue, ch.recv_queue ++ [c], ch.data⟩ c
        (pending_op.recv d) .WOULD_BLOCK hw hch hcQ trivial
        (by
          intro a
          simp only [chan_queues, List.count_append]
          omega)
        (fun x hx => Or.inl hx)
        (by
          intro x hx
          rcases List.mem_append.mp hx with h | h
          · exact Or.inl h
          · rw [List.mem_singleton] at h
            refine Or.inr ⟨h, ?_⟩
            show (d == d) = true
            exact beq_self_eq_true d)
      have hwf' : sys_wf ⟨set_channel s.bus d.toNat (some ⟨ch.size_limit,
          ch.send_queue, ch.recv_queue ++ [c], ch.data⟩), .WOULD_BLOCK,
          (s.pend.filter fun p => p.1 != c) ++
            [(c, pending_op.recv d)]⟩ := hwf0
      have hperm1 : (queuesList (set_channel s.bus d.toNat
          (some ⟨ch.size_limit, ch.send_queue, ch.recv_queue ++ [c],
            ch.data⟩))).Perm (queuesList s.bus ++ [c]) := hperm0
      have hmemQ' := suspend_memQ' hperm1
      have hcQ' : c ∈ queuesList (set_channel s.bus d.toNat
          (some ⟨ch.size_limit, ch.send_queue, ch.recv_queue ++ [c],
            ch.data⟩)) := (hmemQ' c).mpr (Or.inr rfl)
      refine ⟨hwf', ?_⟩
      intro d' ch'' hch''
      have hlen0 : ch.data.length = 0 := by
        rw [hdata]
        rfl
      by_cases hdd : d' = d
      · subst hdd
        have hch3 : chanAt (set_channel s.bus d'.toNat
            (some ⟨ch.size_limit, ch.send_queue, ch.recv_queue ++ [c],
              ch.data⟩)) d' = some ch'' := hch''
        rw [chanAt_set_self hch] at hch3
        cases hch3
        have hcT : ∀ p ∈ s.pend, p.1 = c →
            is_send_to d' p.2 = false := by
          intro p hp hpc
          rw [hcP p hp hpc]
          rfl
        have hES : sendersWoken ⟨set_channel s.bus d'.toNat
            (some ⟨ch.size_limit, ch.send_queue, ch.recv_queue ++ [c],
              ch.data⟩), .WOULD_BLOCK,
            (s.pend.filter fun p => p.1 != c) ++
              [(c, pending_op.recv d')]⟩ d' = sendersWoken s d' :=
          suspend_count_eq s.pend _ _ (is_send_to d') c
            (pending_op.recv d') hcT hmemQ' hcQ'
        constructor
        · intro hq
          have hq' : ch.send_queue ≠ [] := hq
          have hJ1 := (hj d' ch hch).1 hq'
          show ch.size_limit ≤ ch.data.length + _
          omega
        · intro hq
          show ch.data.length ≤ _
          omega
      · have hch3 : chanAt (set_channel s.bus d.toNat
            (some ⟨ch.size_limit, ch.send_queue, ch.recv_queue ++ [c],
              ch.data⟩)) d' = some ch'' := hch''
        rw [chanAt_set_ne hd0 _ hdd] at hch3
        have hJ := hj d' ch'' hch3
        have hcT : ∀ p ∈ s.pend, p.1 = c → is_send_to d' p.2 = false := by
          intro p hp hpc
          rw [hcP p hp hpc]
          rfl
        have hcR : ∀ p ∈ s.pend, p.1 = c → is_recv_to d' p.2 = false := by
          intro p hp hpc
          rw [hcP p hp hpc]
          show (d == d') = false
          rw [beq_eq_false_iff_ne]
          exact fun hcon => hdd hcon.symm
        have hES : sendersWoken ⟨set_channel s.bus d.toNat
            (some ⟨ch.size_limit, ch.send_queue, ch.recv_queue ++ [c],
              ch.data⟩), .WOULD_BLOCK,
            (s.pend.filter fun p => p.1 != c) ++
              [(c, pending_op.recv d)]⟩ d' = sendersWoken s d' :=
          suspend_count_eq s.pend _ _ (is_send_to d') c
            (pending_op.recv d) hcT hmemQ' hcQ'
        have hER : recvWoken ⟨set_channel s.bus d.toNat
            (some ⟨ch.size_limit, ch.send_queue, ch.recv_queue ++ [c],
              ch.data⟩), .WOULD_BLOCK,
            (s.pend.filter fun p => p.1 != c) ++
              [(c, pending_op.recv d)]⟩ d' = recvWoken s d' :=
          suspend_count_eq s.pend _ _ (is_recv_to d') c
            (pending_op.recv d) hcR hmemQ' hcQ'
        constructor
        · intro hq
          have := hJ.1 hq
          omega
        · intro hq
          have := hJ.2 hq
          omega
    | cons v rest =>
      have heq : runPend s c (.recv d) =
          ⟨{ set_channel s.bus d.toNat (some ⟨ch.size_limit,
              ch.send_queue.drop 1, ch.recv_queue, rest⟩) with
            broadcast_queue := s.bus.broadcast_queue.drop 1 }, .NONE,
            s.pend.filter fun p => p.1 != c⟩ := by
        unfold runPend iter coro_bus_recv_step
        simp only [hch, hdata]
        rfl
      rw [heq]
      obtain ⟨hwf0, hperm0⟩ := wf_commit s d ch 1 0 1 rest .NONE
        (s.pend.filter fun p => p.1 != c) hw hch
        (fun p hp => List.mem_of_mem_filter hp)
        (pendErase_keys_nodup c hw.keys_nodup)
        (fun p hp hpq => mem_pendErase_of_ne hp
          (fun hcon => hcQ (by rw [← hcon]; exact hpq)))
      refine ⟨hwf0, ?_⟩
      have hperm1 : (queuesList s.bus).Perm
          (queuesList { set_channel s.bus d.toNat
              (some ⟨ch.size_limit, ch.send_queue.drop 1, ch.recv_queue,
                rest⟩) with
            broadcast_queue := s.bus.broadcast_queue.drop 1 } ++
          ((ch.send_queue.take 1 ++ []) ++
            s.bus.broadcast_queue.take 1)) := hperm0
      rw [List.append_nil] at hperm1
      have hsub : ∀ a, a ∈ queuesList { set_channel s.bus d.toNat
          (some ⟨ch.size_limit, ch.send_queue.drop 1, ch.recv_queue,
            rest⟩) with
          broadcast_queue := s.bus.broadcast_queue.drop 1 } →
          a ∈ queuesList s.bus :=
        fun a ha => hperm1.symm.subset (List.mem_append.mpr (Or.inl ha))
      intro d' ch'' hch''
      have hlen : ch.data.length = rest.length + 1 := by
        rw [hdata]
        rfl
      by_cases hdd : d' = d
      · subst hdd
        have hch3 : chanAt { set_channel s.bus d'.toNat
            (some ⟨ch.size_limit, ch.send_queue.drop 1, ch.recv_queue,
              rest⟩) with
            broadcast_queue := s.bus.broadcast_queue.drop 1 } d' =
            some ch'' := hch''
        rw [chanAt_broadcast_irrelevant, chanAt_set_self hch] at hch3
        cases hch3
        have hJ := hj d' ch hch
        constructor
        · intro hq
          have hq' : ch.send_queue.drop 1 ≠ [] := hq
          have hsqne : ch.send_queue ≠ [] := by
            intro hcon
            rw [hcon] at hq'
            exact hq' rfl
          have hJ1 := hJ.1 hsqne
          obtain ⟨hnd, hpend⟩ := take_send_flips s d' ch 1 hw hch
          have hcT : ∀ p ∈ s.pend, p.1 = c →
              is_send_to d' p.2 = false := by
            intro p hp hpc
            rw [hcP p hp hpc]
            rfl
          have hflip : sendersWoken s d' + (ch.send_queue.take 1).length ≤
              sendersWoken ⟨{ set_channel s.bus d'.toNat
                  (some ⟨ch.size_limit, ch.send_queue.drop 1,
                    ch.recv_queue, rest⟩) with
                broadcast_queue := s.bus.broadcast_queue.drop 1 }, .NONE,
                s.pend.filter fun p => p.1 != c⟩ d' :=
            commit_count_flips s.pend _ _
              (ch.send_queue.take 1 ++ s.bus.broadcast_queue.take 1)
              (ch.send_queue.take 1) (is_send_to d') c hperm1
              hw.queues_nodup hnd
              (fun x hx => List.mem_append.mpr (Or.inl hx)) hpend hcT
          have hlen1 : (ch.send_queue.take 1).length = 1 := by
            rw [List.length_take]
            have := List.length_pos.mpr hsqne
            omega
          show ch.size_limit ≤ rest.length + _
          omega
        · intro hq
          have hq' : ch.recv_queue ≠ [] := hq
          have hJ2 := hJ.2 hq'
          have hcw : recvWoken s d' ≤ recvWoken
              ⟨{ set_channel s.bus d'.toNat
                  (some ⟨ch.size_limit, ch.send_queue.drop 1,
                    ch.recv_queue, rest⟩) with
                broadcast_queue := s.bus.broadcast_queue.drop 1 }, .NONE,
                s.pend.filter fun p => p.1 != c⟩ d' + 1 :=
            commit_count_loss_one s.pend _ _ (is_recv_to d') c
              hw.keys_nodup hsub
          show rest.length ≤ _
          omega
      · have hch3 : chanAt { set_channel s.bus d.toNat
            (some ⟨ch.size_limit, ch.send_queue.drop 1, ch.recv_queue,
              rest⟩) with
            broadcast_queue := s.bus.broadcast_queue.drop 1 } d' =
            some ch'' := hch''
        rw [chanAt_broadcast_irrelevant, chanAt_set_ne hd0 _ hdd] at hch3
        have hJ := hj d' ch'' hch3
        have hcT : ∀ p ∈ s.pend, p.1 = c → is_send_to d' p.2 = false := by
          intro p hp hpc
          rw [hcP p hp hpc]
          rfl
        have hcR : ∀ p ∈ s.pend, p.1 = c → is_recv_to d' p.2 = false := by
          intro p hp hpc
          rw [hcP p hp hpc]
          show (d == d') = false
          rw [beq_eq_false_iff_ne]
          exact fun hcon => hdd hcon.symm
        have hgS : sendersWoken s d' ≤ sendersWoken
            ⟨{ set_channel s.bus d.toNat
                (some ⟨ch.size_limit, ch.send_queue.drop 1,
                  ch.recv_queue, rest⟩) with
              broadcast_queue := s.bus.broadcast_queue.drop 1 }, .NONE,
              s.pend.filter fun p => p.1 != c⟩ d' :=
          commit_count_no_loss s.pend _ _ (is_send_to d') c hcT hsub
        have hgR : recvWoken s d' ≤ recvWoken
            ⟨{ set_channel s.bus d.toNat
                (some ⟨ch.size_limit, ch.send_queue.drop 1,
                  ch.recv_queue, rest⟩) with
              broadcast_queue := s.bus.broadcast_queue.drop 1 }, .NONE,
              s.pend.filter fun p => p.1 != c⟩ d' :=
          commit_count_no_loss s.pend _ _ (is_recv_to d') c hcR hsub
        constructor
        · intro hq
          have := hJ.1 hq
          omega
        · intro hq
          have := hJ.2 hq
          omega

theorem preserve_run_send_v (s : sys) (c : Nat) (d : Int) (vs : List Nat)
    (hvs : vs ≠ [])
    (hw : sys_wf s) (hj : inv_counts s) (hcQ : c ∉ queuesList s.bus)
    (hcP : ∀ p ∈ s.pend, p.1 = c → p.2 = pending_op.send_v d vs) :
    sys_wf (runPend s c (.send_v d vs)) ∧
    inv_counts (runPend s c (.send_v d vs)) := by
  have hvs0 : ¬ (vs.length = 0) := fun h => hvs (List.length_eq_zero.mp h)
  cases hch : chanAt s.bus d with
  | none =>
    have heq : runPend s c (.send_v d vs) =
        ⟨s.bus, .NO_CHANNEL, s.pend.filter fun p => p.1 != c⟩ := by
      unfold runPend iter coro_bus_send_v_step
      simp only [if_neg hvs0, hch]
      rfl
    rw [heq]
    refine ⟨wf_pendErase s c _ hw hcQ, ?_⟩
    intro d' ch' hch'
    have hch2 : chanAt s.bus d' = some ch' := hch'
    have hcT : ∀ p ∈ s.pend, p.1 = c → is_send_to d' p.2 = false := by
      intro p hp hpc
      rw [hcP p hp hpc]
      show (d == d') = false
      rw [beq_eq_false_iff_ne]
      intro hcon
      have h1 : chanAt s.bus d' = none := by
        rw [← hcon]
        exact hch
      rw [h1] at hch2
      exact Option.noConfusion hch2
    have hcR : ∀ p ∈ s.pend, p.1 = c → is_recv_to d' p.2 = false := by
      intro p hp hpc
      rw [hcP p hp hpc]
      rfl
    have hJ := hj d' ch' hch2
    have hS : sendersWoken ⟨s.bus, .NO_CHANNEL,
        s.pend.filter fun p => p.1 != c⟩ d' = sendersWoken s d' :=
      wokenCount_filter_eq s.pend (queuesList s.bus) (is_send_to d') c hcT
    have hR : recvWoken ⟨s.bus, .NO_CHANNEL,
        s.pend.filter fun p => p.1 != c⟩ d' = recvWoken s d' :=
      wokenCount_filter_eq s.pend (queuesList s.bus) (is_recv_to d') c hcR
    constructor
    · intro hq
      have := hJ.1 hq
      omega
    · intro hq
      have := hJ.2 hq
      omega
  | some ch =>
    obtain ⟨hd0, -, -⟩ := chanAt_elim hch
    by_cases hfull : ch.size_limit ≤ ch.data.length
    · have heq : runPend s c (.send_v d vs) =
          ⟨set_channel s.bus d.toNat (some ⟨ch.size_limit,
            ch.send_queue ++ [c], ch.recv_queue, ch.data⟩), .WOULD_BLOCK,
            (s.pend.filter fun p => p.1 != c) ++
              [(c, pending_op.send_v d vs)]⟩ := by
        unfold runPend iter coro_bus_send_v_step
        simp only [if_neg hvs0, hch, if_pos hfull]
        rfl
      rw [heq]
      obtain ⟨hwf0, hperm0⟩ := wf_suspend_slot s d ch
        ⟨ch.size_limit, ch.send_queue ++ [c], ch.recv_queue, ch.data⟩ c
        (pending_op.send_v d vs) .WOULD_BLOCK hw hch hcQ hvs
        (by
          intro a
          simp only [chan_queues, List.count_append]
          omega)
        (by
          intro x hx
          rcases List.mem_append.mp hx with h | h
          · exact Or.inl h
          · rw [List.mem_singleton] at h
            refine Or.inr ⟨h, ?_⟩
            show (d == d) = true
            exact beq_self_eq_true d)
        (fun x hx => Or.inl hx)
      have hwf' : sys_wf ⟨set_channel s.bus d.toNat (some ⟨ch.size_limit,
          ch.send_queue ++ [c], ch.recv_queue, ch.data⟩), .WOULD_BLOCK,
          (s.pend.filter fun p => p.1 != c) ++
            [(c, pending_op.send_v d vs)]⟩ := hwf0
      have hperm1 : (queuesList (set_channel s.bus d.toNat
          (some ⟨ch.size_limit, ch.send_queue ++ [c], ch.recv_queue,
            ch.data⟩))).Perm (queuesList s.bus ++ [c]) := hperm0
      have hmemQ' := suspend_memQ' hperm1
      have hcQ' : c ∈ queuesList (set_channel s.bus d.toNat
          (some ⟨ch.size_limit, ch.send_queue ++ [c], ch.recv_queue,
            ch.data⟩)) := (hmemQ' c).mpr (Or.inr rfl)
      refine ⟨hwf', ?_⟩
      intro d' ch'' hch''
      by_cases hdd : d' = d
      · subst hdd
        have hch3 : chanAt (set_channel s.bus d'.toNat
            (some ⟨ch.size_limit, ch.send_queue ++ [c], ch.recv_queue,
              ch.data⟩)) d' = some ch'' := hch''
        rw [chanAt_set_self hch] at hch3
        cases hch3
        constructor
        · intro hq
          show ch.size_limit ≤ ch.data.length + _
          omega
        · intro hq
          have hJ2 := (hj d' ch hch).2 hq
          have hcR : ∀ p ∈ s.pend, p.1 = c →
              is_recv_to d' p.2 = false := by
            intro p hp hpc
            rw [hcP p hp hpc]
            rfl
          have hER : recvWoken ⟨set_channel s.bus d'.toNat
              (some ⟨ch.size_limit, ch.send_queue ++ [c], ch.recv_queue,
                ch.data⟩), .WOULD_BLOCK,
              (s.pend.filter fun p => p.1 != c) ++
                [(c, pending_op.send_v d' vs)]⟩ d' = recvWoken s d' :=
            suspend_count_eq s.pend _ _ (is_recv_to d') c
              (pending_op.send_v d' vs) hcR hmemQ' hcQ'
          show ch.data.length ≤ _
          omega
      · have hch3 : chanAt (set_channel s.bus d.toNat
            (some ⟨ch.size_limit, ch.send_queue ++ [c], ch.recv_queue,
              ch.data⟩)) d' = some ch'' := hch''
        rw [chanAt_set_ne hd0 _ hdd] at hch3
        have hJ := hj d' ch'' hch3
        have hcT : ∀ p ∈ s.pend, p.1 = c → is_send_to d' p.2 = false := by
          intro p hp hpc
          rw [hcP p hp hpc]
          show (d == d') = false
          rw [beq_eq_false_iff_ne]
          exact fun hcon => hdd hcon.symm
        have hcR : ∀ p ∈ s.pend, p.1 = c → is_recv_to d' p.2 = false := by
          intro p hp hpc
          rw [hcP p hp hpc]
          rfl
        have hES : sendersWoken ⟨set_channel s.bus d.toNat
            (some ⟨ch.size_limit, ch.send_queue ++ [c], ch.recv_queue,
              ch.data⟩), .WOULD_BLOCK,
            (s.pend.filter fun p => p.1 != c) ++
              [(c, pending_op.send_v d vs)]⟩ d' = sendersWoken s d' :=
          suspend_count_eq s.pend _ _ (is_send_to d') c
            (pending_op.send_v d vs) hcT hmemQ' hcQ'
        have hER : recvWoken ⟨set_channel s.bus d.toNat
            (some ⟨ch.size_limit, ch.send_queue ++ [c], ch.recv_queue,
              ch.data⟩), .WOULD_BLOCK,
            (s.pend.filter fun p => p.1 != c) ++
              [(c, pending_op.send_v d vs)]⟩ d' = recvWoken s d' :=
          suspend_count_eq s.pend _ _ (is_recv_to d') c
            (pending_op.send_v d vs) hcR hmemQ' hcQ'
        constructor
        · intro hq
          have := hJ.1 hq
          omega
        · intro hq
          have := hJ.2 hq
          omega
    · have heq : runPend s c (.send_v d vs) =
          ⟨set_channel s.bus d.toNat (some ⟨ch.size_limit, ch.send_queue,
            ch.recv_queue.drop
              (min (ch.size_limit - ch.data.length) vs.length),
            ch.data ++ vs.take
              (min (ch.size_limit - ch.data.length) vs.length)⟩), .NONE,
            s.pend.filter fun p => p.1 != c⟩ := by
        unfold runPend iter coro_bus_send_v_step
        simp only [if_neg hvs0, hch, if_neg hfull]
        rfl
      rw [heq]
      obtain ⟨hwf0, hperm0⟩ := wf_commit s d ch 0
        (min (ch.size_limit - ch.data.length) vs.length) 0
        (ch.data ++ vs.take
          (min (ch.size_limit - ch.data.length) vs.length)) .NONE
        (s.pend.filter fun p => p.1 != c) hw hch
        (fun p hp => List.mem_of_mem_filter hp)
        (pendErase_keys_nodup c hw.keys_nodup)
        (fun p hp hpq => mem_pendErase_of_ne hp
          (fun hcon => hcQ (by rw [← hcon]; exact hpq)))
      have hwf' : sys_wf ⟨set_channel s.bus d.toNat
          (some ⟨ch.size_limit, ch.send_queue,
            ch.recv_queue.drop
              (min (ch.size_limit - ch.data.length) vs.length),
            ch.data ++ vs.take
              (min (ch.size_limit - ch.data.length) vs.length)⟩), .NONE,
          s.pend.filter fun p => p.1 != c⟩ := hwf0
      have hperm1 : (queuesList s.bus).Perm
          (queuesList (set_channel s.bus d.toNat
            (some ⟨ch.size_limit, ch.send_queue,
              ch.recv_queue.drop
                (min (ch.size_limit - ch.data.length) vs.length),
              ch.data ++ vs.take
                (min (ch.size_limit - ch.data.length) vs.length)⟩)) ++
            (ch.recv_queue.take
              (min (ch.size_limit - ch.data.length) vs.length) ++ [])) :=
        hperm0
      rw [List.append_nil] at hperm1
      have hsub : ∀ a, a ∈ queuesList (set_channel s.bus d.toNat
          (some ⟨ch.size_limit, ch.send_queue,
            ch.recv_queue.drop
              (min (ch.size_limit - ch.data.length) vs.length),
            ch.data ++ vs.take
              (min (ch.size_limit - ch.data.length) vs.length)⟩)) →
          a ∈ queuesList s.bus :=
        fun a ha => hperm1.symm.subset (List.mem_append.mpr (Or.inl ha))
      refine ⟨hwf', ?_⟩
      intro d' ch'' hch''
      have hlen2 : (ch.data ++ vs.take
          (min (ch.size_limit - ch.data.length) vs.length)).length =
          ch.data.length + min
            (min (ch.size_limit - ch.data.length) vs.length)
            vs.length := by
        rw [List.length_append, List.length_take]
      by_cases hdd : d' = d
      · subst hdd
        have hch3 : chanAt (set_channel s.bus d'.toNat
            (some ⟨ch.size_limit, ch.send_queue,
              ch.recv_queue.drop
                (min (ch.size_limit - ch.data.length) vs.length),
              ch.data ++ vs.take
                (min (ch.size_limit - ch.data.length) vs.length)⟩)) d' =
            some ch'' := hch''
        rw [chanAt_set_self hch] at hch3
        cases hch3
        have hJ := hj d' ch hch
        constructor
        · intro hq
          have hJ1 := hJ.1 hq
          have hcw : sendersWoken s d' ≤ sendersWoken
              ⟨set_channel s.bus d'.toNat
                (some ⟨ch.size_limit, ch.send_queue,
                  ch.recv_queue.drop
                    (min (ch.size_limit - ch.data.length) vs.length),
                  ch.data ++ vs.take
                    (min (ch.size_limit - ch.data.length)
                      vs.length)⟩), .NONE,
                s.pend.filter fun p => p.1 != c⟩ d' + 1 :=
            commit_count_loss_one s.pend _ _ (is_send_to d') c
              hw.keys_nodup hsub
          show ch.size_limit ≤ (ch.data ++ vs.take
              (min (ch.size_limit - ch.data.length) vs.length)).length + _
          rw [hlen2]
          omega
        · intro hq
          have hq' : ch.recv_queue.drop
              (min (ch.size_limit - ch.data.length) vs.length) ≠ [] := hq
          have hrqne : ch.recv_queue ≠ [] := by
            intro hcon
            rw [hcon] at hq'
            exact hq' (List.drop_nil)
          have hJ2 := hJ.2 hrqne
          obtain ⟨hnd, hpend⟩ := take_recv_flips s d' ch
            (min (ch.size_limit - ch.data.length) vs.length) hw hch
          have hcR : ∀ p ∈ s.pend, p.1 = c →
              is_recv_to d' p.2 = false := by
            intro p hp hpc
            rw [hcP p hp hpc]
            rfl
          have hflip : recvWoken s d' + (ch.recv_queue.take
              (min (ch.size_limit - ch.data.length) vs.length)).length ≤
              recvWoken ⟨set_channel s.bus d'.toNat
                (some ⟨ch.size_limit, ch.send_queue,
                  ch.recv_queue.drop
                    (min (ch.size_limit - ch.data.length) vs.length),
                  ch.data ++ vs.take
                    (min (ch.size_limit - ch.data.length)
                      vs.length)⟩), .NONE,
                s.pend.filter fun p => p.1 != c⟩ d' :=
            commit_count_flips s.pend _ _
              (ch.recv_queue.take
                (min (ch.size_limit - ch.data.length) vs.length))
              (ch.recv_queue.take
                (min (ch.size_limit - ch.data.length) vs.length))
              (is_recv_to d') c hperm1
              hw.queues_nodup hnd (fun x hx => hx) hpend hcR
          have hlenS : (ch.recv_queue.take
              (min (ch.size_limit - ch.data.length) vs.length)).length =
              min (min (ch.size_limit - ch.data.length) vs.length)
                ch.recv_queue.length := List.length_take _ _
          have hdl : (ch.recv_queue.drop
              (min (ch.size_limit - ch.data.length) vs.length)).length =
              ch.recv_queue.length -
                min (ch.size_limit - ch.data.length) vs.length :=
            List.length_drop _ _
          have hpos := List.length_pos.mpr hq'
          show (ch.data ++ vs.take
              (min (ch.size_limit - ch.data.length) vs.length)).length ≤ _
          rw [hlen2]
          omega
      · have hch3 : chanAt (set_channel s.bus d.toNat
            (some ⟨ch.size_limit, ch.send_queue,
              ch.recv_queue.drop
                (min (ch.size_limit - ch.data.length) vs.length),
              ch.data ++ vs.take
                (min (ch.size_limit - ch.data.length) vs.length)⟩)) d' =
            some ch'' := hch''
        rw [chanAt_set_ne hd0 _ hdd] at hch3
        have hJ := hj d' ch'' hch3
        have hcT : ∀ p ∈ s.pend, p.1 = c → is_send_to d' p.2 = false := by
          intro p hp hpc
          rw [hcP p hp hpc]
          show (d == d') = false
          rw [beq_eq_false_iff_ne]
          exact fun hcon => hdd hcon.symm
        have hcR : ∀ p ∈ s.pend, p.1 = c → is_recv_to d' p.2 = false := by
          intro p hp hpc
          rw [hcP p hp hpc]
          rfl
        have hgS : sendersWoken s d' ≤ sendersWoken
            ⟨set_channel s.bus d.toNat
              (some ⟨ch.size_limit, ch.send_queue,
                ch.recv_queue.drop
                  (min (ch.size_limit - ch.data.length) vs.length),
                ch.data ++ vs.take
                  (min (ch.size_limit - ch.data.length)
                    vs.length)⟩), .NONE,
              s.pend.filter fun p => p.1 != c⟩ d' :=
          commit_count_no_loss s.pend _ _ (is_send_to d') c hcT hsub
        have hgR : recvWoken s d' ≤ recvWoken
            ⟨set_channel s.bus d.toNat
              (some ⟨ch.size_limit, ch.send_queue,
                ch.recv_queue.drop
                  (min (ch.size_limit - ch.data.length) vs.length),
                ch.data ++ vs.take
                  (min (ch.size_limit - ch.data.length)
                    vs.length)⟩), .NONE,
              s.pend.filter fun p => p.1 != c⟩ d' :=
          commit_count_no_loss s.pend _ _ (is_recv_to d') c hcR hsub
        constructor
        · intro hq
          have := hJ.1 hq
          omega
        · intro hq
          have := hJ.2 hq
          omega

theorem preserve_run_recv_v (s : sys) (c : Nat) (d : Int) (cap : Nat)
    (hcap : cap ≠ 0)
    (hw : sys_wf s) (hj : inv_counts s) (hcQ : c ∉ queuesList s.bus)
    (hcP : ∀ p ∈ s.pend, p.1 = c → p.2 = pending_op.recv_v d cap) :
    sys_wf (runPend s c (.recv_v d cap)) ∧
    inv_counts (runPend s c (.recv_v d cap)) := by
  have hcap0 : ¬ (cap = 0) := hcap
  cases hch : chanAt s.bus d with
  | none =>
    have heq : runPend s c (.recv_v d cap) =
        ⟨s.bus, .NO_CHANNEL, s.pend.filter fun p => p.1 != c⟩ := by
      unfold runPend iter coro_bus_recv_v_step
      simp only [if_neg hcap0, hch]
      rfl
    rw [heq]
    refine ⟨wf_pendErase s c _ hw hcQ, ?_⟩
    intro d' ch' hch'
    have hch2 : chanAt s.bus d' = some ch' := hch'
    have hcT : ∀ p ∈ s.pend, p.1 = c → is_send_to d' p.2 = false := by
      intro p hp hpc
      rw [hcP p hp hpc]
      rfl
    have hcR : ∀ p ∈ s.pend, p.1 = c → is_recv_to d' p.2 = false := by
      intro p hp hpc
      rw [hcP p hp hpc]
      show (d == d') = false
      rw [beq_eq_false_iff_ne]
      intro hcon
      have h1 : chanAt s.bus d' = none := by
        rw [← hcon]
        exact hch
      rw [h1] at hch2
      exact Option.noConfusion hch2
    have hJ := hj d' ch' hch2
    have hS : sendersWoken ⟨s.bus, .NO_CHANNEL,
        s.pend.filter fun p => p.1 != c⟩ d' = sendersWoken s d' :=
      wokenCount_filter_eq s.pend (queuesList s.bus) (is_send_to d') c hcT
    have hR : recvWoken ⟨s.bus, .NO_CHANNEL,
        s.pend.filter fun p => p.1 != c⟩ d' = recvWoken s d' :=
      wokenCount_filter_eq s.pend (queuesList s.bus) (is_recv_to d') c hcR
    constructor
    · intro hq
      have := hJ.1 hq
      omega
    · intro hq
      have := hJ.2 hq
      omega
  | some ch =>
    obtain ⟨hd0, -, -⟩ := chanAt_elim hch
    by_cases hemp : ch.data.isEmpty = true
    · have hlen0 : ch.data.length = 0 :=
        List.length_eq_zero.mpr (List.isEmpty_iff.mp hemp)
      have heq : runPend s c (.recv_v d cap) =
          ⟨set_channel s.bus d.toNat (some ⟨ch.size_limit, ch.send_queue,
            ch.recv_queue ++ [c], ch.data⟩), .WOULD_BLOCK,
            (s.pend.filter fun p => p.1 != c) ++
              [(c, pending_op.recv_v d cap)]⟩ := by
        unfold runPend iter coro_bus_recv_v_step
        simp only [if_neg hcap0, hch, if_pos hemp]
        rfl
      rw [heq]
      obtain ⟨hwf0, hperm0⟩ := wf_suspend_slot s d ch
        ⟨ch.size_limit, ch.send_queue, ch.recv_queue ++ [c], ch.data⟩ c
        (pending_op.recv_v d cap) .WOULD_BLOCK hw hch hcQ hcap
        (by
          intro a
          simp only [chan_queues, List.count_append]
          omega)
        (fun x hx => Or.inl hx)
        (by
          intro x hx
          rcases List.mem_append.mp hx with h | h
          · exact Or.inl h
          · rw [List.mem_singleton] at h
            refine Or.inr ⟨h, ?_⟩
            show (d == d) = true
            exact beq_self_eq_true d)
      have hwf' : sys_wf ⟨set_channel s.bus d.toNat (some ⟨ch.size_limit,
          ch.send_queue, ch.recv_queue ++ [c], ch.data⟩), .WOULD_BLOCK,
          (s.pend.filter fun p => p.1 != c) ++
            [(c, pending_op.recv_v d cap)]⟩ := hwf0
      have hperm1 : (queuesList (set_channel s.bus d.toNat
          (some ⟨ch.size_limit, ch.send_queue, ch.recv_queue ++ [c],
            ch.data⟩))).Perm (queuesList s.bus ++ [c]) := hperm0
      have hmemQ' := suspend_memQ' hperm1
      have hcQ' : c ∈ queuesList (set_channel s.bus d.toNat
          (some ⟨ch.size_limit, ch.send_queue, ch.recv_queue ++ [c],
            ch.data⟩)) := (hmemQ' c).mpr (Or.inr rfl)
      refine ⟨hwf', ?_⟩
      intro d' ch'' hch''
      by_cases hdd : d' = d
      · subst hdd
        have hch3 : chanAt (set_channel s.bus d'.toNat
            (some ⟨ch.size_limit, ch.send_queue, ch.recv_queue ++ [c],
              ch.data⟩)) d' = some ch'' := hch''
        rw [chanAt_set_self hch] at hch3
        cases hch3
        have hcT : ∀ p ∈ s.pend, p.1 = c →
            is_send_to d' p.2 = false := by
          intro p hp hpc
          rw [hcP p hp hpc]
          rfl
        have hES : sendersWoken ⟨set_channel s.bus d'.toNat
            (some ⟨ch.size_limit, ch.send_queue, ch.recv_queue ++ [c],
              ch.data⟩), .WOULD_BLOCK,
            (s.pend.filter fun p => p.1 != c) ++
              [(c, pending_op.recv_v d' cap)]⟩ d' = sendersWoken s d' :=
          suspend_count_eq s.pend _ _ (is_send_to d') c
            (pending_op.recv_v d' cap) hcT hmemQ' hcQ'
        constructor
        · intro hq
          have hq' : ch.send_queue ≠ [] := hq
          have hJ1 := (hj d' ch hch).1 hq'
          show ch.size_limit ≤ ch.data.length + _
          omega
        · intro hq
          show ch.data.length ≤ _
          omega
      · have hch3 : chanAt (set_channel s.bus d.toNat
            (some ⟨ch.size_limit, ch.send_queue, ch.recv_queue ++ [c],
              ch.data⟩)) d' = some ch'' := hch''
        rw [chanAt_set_ne hd0 _ hdd] at hch3
        have hJ := hj d' ch'' hch3
        have hcT : ∀ p ∈ s.pend, p.1 = c → is_send_to d' p.2 = false := by
          intro p hp hpc
          rw [hcP p hp hpc]
          rfl
        have hcR : ∀ p ∈ s.pend, p.1 = c → is_recv_to d' p.2 = false := by
          intro p hp hpc
          rw [hcP p hp hpc]
          show (d == d') = false
          rw [beq_eq_false_iff_ne]
          exact fun hcon => hdd hcon.symm
        have hES : sendersWoken ⟨set_channel s.bus d.toNat
            (some ⟨ch.size_limit, ch.send_queue, ch.recv_queue ++ [c],
              ch.data⟩), .WOULD_BLOCK,
            (s.pend.filter fun p => p.1 != c) ++
              [(c, pending_op.recv_v d cap)]⟩ d' = sendersWoken s d' :=
          suspend_count_eq s.pend _ _ (is_send_to d') c
            (pending_op.recv_v d cap) hcT hmemQ' hcQ'
        have hER : recvWoken ⟨set_channel s.bus d.toNat
            (some ⟨ch.size_limit, ch.send_queue, ch.recv_queue ++ [c],
              ch.data⟩), .WOULD_BLOCK,
            (s.pend.filter fun p => p.1 != c) ++
              [(c, pending_op.recv_v d cap)]⟩ d' = recvWoken s d' :=
          suspend_count_eq s.pend _ _ (is_recv_to d') c
            (pending_op.recv_v d cap) hcR hmemQ' hcQ'
        constructor
        · intro hq
          have := hJ.1 hq
          omega
        · intro hq
          have := hJ.2 hq
          omega
    · have hdne : ch.data ≠ [] := by
        intro hcon
        exact hemp (by rw [hcon]; rfl)
      have hdpos : 0 < ch.data.length := List.length_pos.mpr hdne
      have heq : runPend s c (.recv_v d cap) =
          ⟨{ set_channel s.bus d.toNat (some ⟨ch.size_limit,
              ch.send_queue.drop (min ch.data.length cap), ch.recv_queue,
              ch.data.drop (min ch.data.length cap)⟩) with
            broadcast_queue := s.bus.broadcast_queue.drop 1 }, .NONE,
            s.pend.filter fun p => p.1 != c⟩ := by
        unfold runPend iter coro_bus_recv_v_step
        simp only [if_neg hcap0, hch, if_neg hemp]
        rfl
      rw [heq]
      obtain ⟨hwf0, hperm0⟩ := wf_commit s d ch
        (min ch.data.length cap) 0 1
        (ch.data.drop (min ch.data.length cap)) .NONE
        (s.pend.filter fun p => p.1 != c) hw hch
        (fun p hp => List.mem_of_mem_filter hp)
        (pendErase_keys_nodup c hw.keys_nodup)
        (fun p hp hpq => mem_pendErase_of_ne hp
          (fun hcon => hcQ (by rw [← hcon]; exact hpq)))
      refine ⟨hwf0, ?_⟩
      have hperm1 : (queuesList s.bus).Perm
          (queuesList { set_channel s.bus d.toNat
              (some ⟨ch.size_limit,
                ch.send_queue.drop (min ch.data.length cap),
                ch.recv_queue,
                ch.data.drop (min ch.data.length cap)⟩) with
            broadcast_queue := s.bus.broadcast_queue.drop 1 } ++
          ((ch.send_queue.take (min ch.data.length cap) ++ []) ++
            s.bus.broadcast_queue.take 1)) := hperm0
      rw [List.append_nil] at hperm1
      have hsub : ∀ a, a ∈ queuesList { set_channel s.bus d.toNat
          (some ⟨ch.size_limit,
            ch.send_queue.drop (min ch.data.length cap), ch.recv_queue,
            ch.data.drop (min ch.data.length cap)⟩) with
          broadcast_queue := s.bus.broadcast_queue.drop 1 } →
          a ∈ queuesList s.bus :=
        fun a ha => hperm1.symm.subset (List.mem_append.mpr (Or.inl ha))
      intro d' ch'' hch''
      have hlen2 : (ch.data.drop (min ch.data.length cap)).length =
          ch.data.length - min ch.data.length cap :=
        List.length_drop _ _
      by_cases hdd : d' = d
      · subst hdd
        have hch3 : chanAt { set_channel s.bus d'.toNat
            (some ⟨ch.size_limit,
              ch.send_queue.drop (min ch.data.length cap), ch.recv_queue,
              ch.data.drop (min ch.data.length cap)⟩) with
            broadcast_queue := s.bus.broadcast_queue.drop 1 } d' =
            some ch'' := hch''
        rw [chanAt_broadcast_irrelevant, chanAt_set_self hch] at hch3
        cases hch3
        have hJ := hj d' ch hch
        constructor
        · intro hq
          have hq' : ch.send_queue.drop (min ch.data.length cap) ≠ [] := hq
          have hsqne : ch.send_queue ≠ [] := by
            intro hcon
            rw [hcon] at hq'
            exact hq' (List.drop_nil)
          have hJ1 := hJ.1 hsqne
          obtain ⟨hnd, hpend⟩ := take_send_flips s d' ch
            (min ch.data.length cap) hw hch
          have hcT : ∀ p ∈ s.pend, p.1 = c →
              is_send_to d' p.2 = false := by
            intro p hp hpc
            rw [hcP p hp hpc]
            rfl
          have hflip : sendersWoken s d' +
              (ch.send_queue.take (min ch.data.length cap)).length ≤
              sendersWoken ⟨{ set_channel s.bus d'.toNat
                  (some ⟨ch.size_limit,
                    ch.send_queue.drop (min ch.data.length cap),
                    ch.recv_queue,
                    ch.data.drop (min ch.data.length cap)⟩) with
                broadcast_queue := s.bus.broadcast_queue.drop 1 }, .NONE,
                s.pend.filter fun p => p.1 != c⟩ d' :=
            commit_count_flips s.pend _ _
              (ch.send_queue.take (min ch.data.length cap) ++
                s.bus.broadcast_queue.take 1)
              (ch.send_queue.take (min ch.data.length cap))
              (is_send_to d') c hperm1
              hw.queues_nodup hnd
              (fun x hx => List.mem_append.mpr (Or.inl hx)) hpend hcT
          have hlenS : (ch.send_queue.take
              (min ch.data.length cap)).length =
              min (min ch.data.length cap) ch.send_queue.length :=
            List.length_take _ _
          have hdl : (ch.send_queue.drop
              (min ch.data.length cap)).length =
              ch.send_queue.length - min ch.data.length cap :=
            List.length_drop _ _
          have hpos := List.length_pos.mpr hq'
          show ch.size_limit ≤
              (ch.data.drop (min ch.data.length cap)).length + _
          rw [hlen2]
          omega
        · intro hq
          have hq' : ch.recv_queue ≠ [] := hq
          have hJ2 := hJ.2 hq'
          have hcw : recvWoken s d' ≤ recvWoken
              ⟨{ set_channel s.bus d'.toNat
                  (some ⟨ch.size_limit,
                    ch.send_queue.drop (min ch.data.length cap),
                    ch.recv_queue,
                    ch.data.drop (min ch.data.length cap)⟩) with
                broadcast_queue := s.bus.broadcast_queue.drop 1 }, .NONE,
                s.pend.filter fun p => p.1 != c⟩ d' + 1 :=
            commit_count_loss_one s.pend _ _ (is_recv_to d') c
              hw.keys_nodup hsub
          show (ch.data.drop (min ch.data.length cap)).length ≤ _
          rw [hlen2]
          omega
      · have hch3 : chanAt { set_channel s.bus d.toNat
            (some ⟨ch.size_limit,
              ch.send_queue.drop (min ch.data.length cap), ch.recv_queue,
              ch.data.drop (min ch.data.length cap)⟩) with
            broadcast_queue := s.bus.broadcast_queue.drop 1 } d' =
            some ch'' := hch''
        rw [chanAt_broadcast_irrelevant, chanAt_set_ne hd0 _ hdd] at hch3
        have hJ := hj d' ch'' hch3
        have hcT : ∀ p ∈ s.pend, p.1 = c → is_send_to d' p.2 = false := by
          intro p hp hpc
          rw [hcP p hp hpc]
          rfl
        have hcR : ∀ p ∈ s.pend, p.1 = c → is_recv_to d' p.2 = false := by
          intro p hp hpc
          rw [hcP p hp hpc]
          show (d == d') = false
          rw [beq_eq_false_iff_ne]
          exact fun hcon => hdd hcon.symm
        have hgS : sendersWoken s d' ≤ sendersWoken
            ⟨{ set_channel s.bus d.toNat
                (some ⟨ch.size_limit,
                  ch.send_queue.drop (min ch.data.length cap),
                  ch.recv_queue,
                  ch.data.drop (min ch.data.length cap)⟩) with
              broadcast_queue := s.bus.broadcast_queue.drop 1 }, .NONE,
              s.pend.filter fun p => p.1 != c⟩ d' :=
          commit_count_no_loss s.pend _ _ (is_send_to d') c hcT hsub
        have hgR : recvWoken s d' ≤ recvWoken
            ⟨{ set_channel s.bus d.toNat
                (some ⟨ch.size_limit,
                  ch.send_queue.drop (min ch.data.length cap),
                  ch.recv_queue,
                  ch.data.drop (min ch.data.length cap)⟩) with
              broadcast_queue := s.bus.broadcast_queue.drop 1 }, .NONE,
              s.pend.filter fun p => p.1 != c⟩ d' :=
          commit_count_no_loss s.pend _ _ (is_recv_to d') c hcR hsub
        constructor
        · intro hq
          have := hJ.1 hq
          omega
        · intro hq
          have := hJ.2 hq
          omega

theorem all_open_space_at {b : coro_bus} {d : Int} {ch : coro_bus_channel}
    (hsp : all_open_have_space b = true) (hch : chanAt b d = some ch) :
    ch.data.length < ch.size_limit := by
  have hmem := mem_of_chanAt hch
  have h := List.all_eq_true.mp hsp (some ch) hmem
  simpa using h

theorem wf_broadcast_commit (s : sys) (v : Nat) (e' : coro_bus_error_code)
    (pend' : List (Nat × pending_op))
    (hw : sys_wf s)
    (hpend_sub : ∀ p ∈ pend', p ∈ s.pend)
    (hpend_keys : (pend'.map Prod.fst).Nodup)
    (hpend_keep : ∀ p ∈ s.pend, p.1 ∈ queuesList s.bus → p ∈ pend') :
    sys_wf ⟨broadcast_push s.bus v, e', pend'⟩ := by
  have hperm := perm_broadcast_push s.bus v
  refine ⟨hpend_keys, ?_, ?_, ?_, ?_, ?_⟩
  · have h := hperm.nodup_iff.mp hw.queues_nodup
    exact (List.nodup_append.mp h).1
  · intro d ch' c hch' hc
    have hch3 : chanAt (broadcast_push s.bus v) d = some ch' := hch'
    rw [chanAt_broadcast_push] at hch3
    cases hch0 : chanAt s.bus d with
    | none =>
      rw [hch0] at hch3
      exact Option.noConfusion hch3
    | some ch =>
      rw [hch0, Option.map_some'] at hch3
      injection hch3 with hch4
      subst hch4
      have hc' : c ∈ ch.send_queue := hc
      obtain ⟨op, hop, hT⟩ := hw.send_q_pend d ch c hch0 hc'
      exact ⟨op, hpend_keep (c, op) hop (mem_queuesList_send hch0 hc'), hT⟩
  · intro d ch' c hch' hc
    have hch3 : chanAt (broadcast_push s.bus v) d = some ch' := hch'
    rw [chanAt_broadcast_push] at hch3
    cases hch0 : chanAt s.bus d with
    | none =>
      rw [hch0] at hch3
      exact Option.noConfusion hch3
    | some ch =>
      rw [hch0, Option.map_some'] at hch3
      injection hch3 with hch4
      subst hch4
      have hc' : c ∈ ch.recv_queue.drop 1 := hc
      have hc2 : c ∈ ch.recv_queue := List.mem_of_mem_drop hc'
      obtain ⟨op, hop, hT⟩ := hw.recv_q_pend d ch c hch0 hc2
      exact ⟨op, hpend_keep (c, op) hop (mem_queuesList_recv hch0 hc2), hT⟩
  · intro c hc
    have hc' : c ∈ s.bus.broadcast_queue := hc
    obtain ⟨v', hv⟩ := hw.bq_pend c hc'
    exact ⟨v', hpend_keep (c, .broadcast v') hv (mem_queuesList_bq hc')⟩
  · intro p hp
    exact hw.pend_ok p (hpend_sub p hp)

theorem preserve_run_broadcast (s : sys) (c : Nat) (v : Nat)
    (hw : sys_wf s) (hj : inv_counts s) (hcQ : c ∉ queuesList s.bus)
    (hcP : ∀ p ∈ s.pend, p.1 = c → p.2 = pending_op.broadcast v) :
    sys_wf (runPend s c (.broadcast v)) ∧
    inv_counts (runPend s c (.broadcast v)) := by
  have hfailcase : ∀ e0 : coro_bus_error_code,
      inv_counts ⟨s.bus, e0, s.pend.filter fun p => p.1 != c⟩ := by
    intro e0 d' ch' hch'
    have hch2 : chanAt s.bus d' = some ch' := hch'
    have hcT : ∀ p ∈ s.pend, p.1 = c → is_send_to d' p.2 = false := by
      intro p hp hpc
      rw [hcP p hp hpc]
      rfl
    have hcR : ∀ p ∈ s.pend, p.1 = c → is_recv_to d' p.2 = false := by
      intro p hp hpc
      rw [hcP p hp hpc]
      rfl
    have hJ := hj d' ch' hch2
    have hS : sendersWoken ⟨s.bus, e0,
        s.pend.filter fun p => p.1 != c⟩ d' = sendersWoken s d' :=
      wokenCount_filter_eq s.pend (queuesList s.bus) (is_send_to d') c hcT
    have hR : recvWoken ⟨s.bus, e0,
        s.pend.filter fun p => p.1 != c⟩ d' = recvWoken s d' :=
      wokenCount_filter_eq s.pend (queuesList s.bus) (is_recv_to d') c hcR
    constructor
    · intro hq
      have := hJ.1 hq
      omega
    · intro hq
      have := hJ.2 hq
      omega
  by_cases hempty : s.bus.channels.isEmpty = true
  · have heq : runPend s c (.broadcast v) =
        ⟨s.bus, .NO_CHANNEL, s.pend.filter fun p => p.1 != c⟩ := by
      unfold runPend iter coro_bus_broadcast_step
      simp only [if_pos hempty]
      rfl
    rw [heq]
    exact ⟨wf_pendErase s c _ hw hcQ, hfailcase _⟩
  · by_cases hop : has_open_channel s.bus = true
    · by_cases hsp : all_open_have_space s.bus = true
      · have heq : runPend s c (.broadcast v) =
            ⟨broadcast_push s.bus v, .NONE,
              s.pend.filter fun p => p.1 != c⟩ := by
          unfold runPend iter coro_bus_broadcast_step
          simp only [if_neg hempty, if_neg (not_not_intro hop),
            if_pos hsp]
          rfl
        rw [heq]
        have hperm := perm_broadcast_push s.bus v
        have hsub : ∀ a, a ∈ queuesList (broadcast_push s.bus v) →
            a ∈ queuesList s.bus :=
          fun a ha => hperm.symm.subset (List.mem_append.mpr (Or.inl ha))
        refine ⟨wf_broadcast_commit s v .NONE _ hw
          (fun p hp => List.mem_of_mem_filter hp)
          (pendErase_keys_nodup c hw.keys_nodup)
          (fun p hp hpq => mem_pendErase_of_ne hp
            (fun hcon => hcQ (by rw [← hcon]; exact hpq))), ?_⟩
        intro d' ch'' hch''
        have hch3 : chanAt (broadcast_push s.bus v) d' = some ch'' :=
          hch''
        rw [chanAt_broadcast_push] at hch3
        cases hch0 : chanAt s.bus d' with
        | none =>
          rw [hch0] at hch3
          exact Option.noConfusion hch3
        | some ch =>
          rw [hch0, Option.map_some'] at hch3
          injection hch3 with hch4
          subst hch4
          have hcT : ∀ p ∈ s.pend, p.1 = c →
              is_send_to d' p.2 = false := by
            intro p hp hpc
            rw [hcP p hp hpc]
            rfl
          have hcR : ∀ p ∈ s.pend, p.1 = c →
              is_recv_to d' p.2 = false := by
            intro p hp hpc
            rw [hcP p hp hpc]
            rfl
          have hJ := hj d' ch hch0
          constructor
          · intro hq
            have hq' : ch.send_queue ≠ [] := hq
            have hJ1 := hJ.1 hq'
            have hgS : sendersWoken s d' ≤ sendersWoken
                ⟨broadcast_push s.bus v, .NONE,
                  s.pend.filter fun p => p.1 != c⟩ d' :=
              commit_count_no_loss s.pend _ _ (is_send_to d') c hcT hsub
            show ch.size_limit ≤ (ch.data ++ [v]).length + _
            rw [List.length_append, List.length_singleton]
            omega
          · intro hq
            have hq' : ch.recv_queue.drop 1 ≠ [] := hq
            have hrqne : ch.recv_queue ≠ [] := by
              intro hcon
              rw [hcon] at hq'
              exact hq' rfl
            have hJ2 := hJ.2 hrqne
            obtain ⟨hnd, hpend⟩ := take_recv_flips s d' ch 1 hw hch0
            have hflip : recvWoken s d' +
                (ch.recv_queue.take 1).length ≤ recvWoken
                ⟨broadcast_push s.bus v, .NONE,
                  s.pend.filter fun p => p.1 != c⟩ d' :=
              commit_count_flips s.pend _ _ (broadcast_woken s.bus)
                (ch.recv_queue.take 1) (is_recv_to d') c hperm
                hw.queues_nodup hnd
                (fun x hx => mem_broadcast_woken hch0 hx) hpend hcR
            have hlen1 : (ch.recv_queue.take 1).length = 1 := by
              rw [List.length_take]
              have := List.length_pos.mpr hrqne
              omega
            show (ch.data ++ [v]).length ≤ _
            rw [List.length_append, List.length_singleton]
            omega
      · have heq : runPend s c (.broadcast v) =
            ⟨{ s.bus with
              broadcast_queue := s.bus.broadcast_queue ++ [c] },
              .WOULD_BLOCK,
              (s.pend.filter fun p => p.1 != c) ++
                [(c, pending_op.broadcast v)]⟩ := by
          unfold runPend iter coro_bus_broadcast_step
          simp only [if_neg hempty, if_neg (not_not_intro hop),
            if_neg hsp]
          rfl
        rw [heq]
        obtain ⟨hwf0, hperm0⟩ := wf_suspend_bq s c v .WOULD_BLOCK hw hcQ
        have hmemQ' := suspend_memQ' hperm0
        have hcQ' : c ∈ queuesList { s.bus with
            broadcast_queue := s.bus.broadcast_queue ++ [c] } :=
          (hmemQ' c).mpr (Or.inr rfl)
        refine ⟨hwf0, ?_⟩
        intro d' ch'' hch''
        have hch3 : chanAt { s.bus with
            broadcast_queue := s.bus.broadcast_queue ++ [c] } d' =
            some ch'' := hch''
        rw [chanAt_broadcast_irrelevant] at hch3
        have hJ := hj d' ch'' hch3
        have hcT : ∀ p ∈ s.pend, p.1 = c → is_send_to d' p.2 = false := by
          intro p hp hpc
          rw [hcP p hp hpc]
          rfl
        have hcR : ∀ p ∈ s.pend, p.1 = c → is_recv_to d' p.2 = false := by
          intro p hp hpc
          rw [hcP p hp hpc]
          rfl
        have hES : sendersWoken ⟨{ s.bus with
            broadcast_queue := s.bus.broadcast_queue ++ [c] },
            .WOULD_BLOCK,
            (s.pend.filter fun p => p.1 != c) ++
              [(c, pending_op.broadcast v)]⟩ d' = sendersWoken s d' :=
          suspend_count_eq s.pend _ _ (is_send_to d') c
            (pending_op.broadcast v) hcT hmemQ' hcQ'
        have hER : recvWoken ⟨{ s.bus with
            broadcast_queue := s.bus.broadcast_queue ++ [c] },
            .WOULD_BLOCK,
            (s.pend.filter fun p => p.1 != c) ++
              [(c, pending_op.broadcast v)]⟩ d' = recvWoken s d' :=
          suspend_count_eq s.pend _ _ (is_recv_to d') c
            (pending_op.broadcast v) hcR hmemQ' hcQ'
        constructor
        · intro hq
          have := hJ.1 hq
          omega
        · intro hq
          have := hJ.2 hq
          omega
    · have hop2 : ¬ has_open_channel s.bus = true := hop
      have heq : runPend s c (.broadcast v) =
          ⟨s.bus, .NO_CHANNEL, s.pend.filter fun p => p.1 != c⟩ := by
        unfold runPend iter coro_bus_broadcast_step
        simp only [if_neg hempty, if_pos hop2]
        rfl
      rw [heq]
      exact ⟨wf_pendErase s c _ hw hcQ, hfailcase _⟩

theorem preserve_same_bus (s : sys) (e0 : coro_bus_error_code)
    (hw : sys_wf s) (hj : inv_counts s) :
    sys_wf ⟨s.bus, e0, s.pend⟩ ∧ inv_counts ⟨s.bus, e0, s.pend⟩ := by
  constructor
  · exact ⟨hw.keys_nodup, hw.queues_nodup, hw.send_q_pend,
      hw.recv_q_pend, hw.bq_pend, hw.pend_ok⟩
  · intro d ch hch
    exact hj d ch hch

theorem preserve_try_send (s : sys) (d : Int) (v : Nat)
    (hw : sys_wf s) (hj : inv_counts s) :
    sys_wf (sysOfEff s (coro_bus_try_send (some s.bus) d v)) ∧
    inv_counts (sysOfEff s (coro_bus_try_send (some s.bus) d v)) := by
  cases hch : chanAt s.bus d with
  | none =>
    have heq : sysOfEff s (coro_bus_try_send (some s.bus) d v) =
        ⟨s.bus, .NO_CHANNEL, s.pend⟩ := by
      unfold sysOfEff coro_bus_try_send
      simp only [hch]
      rfl
    rw [heq]
    exact preserve_same_bus s _ hw hj
  | some ch =>
    obtain ⟨hd0, -, -⟩ := chanAt_elim hch
    by_cases hfull : ch.size_limit ≤ ch.data.length
    · have heq : sysOfEff s (coro_bus_try_send (some s.bus) d v) =
          ⟨s.bus, .WOULD_BLOCK, s.pend⟩ := by
        unfold sysOfEff coro_bus_try_send
        simp only [hch, if_pos hfull]
        rfl
      rw [heq]
      exact preserve_same_bus s _ hw hj
    · have heq : sysOfEff s (coro_bus_try_send (some s.bus) d v) =
          ⟨set_channel s.bus d.toNat (some ⟨ch.size_limit, ch.send_queue,
            ch.recv_queue.drop 1, ch.data ++ [v]⟩), .NONE, s.pend⟩ := by
        unfold sysOfEff coro_bus_try_send
        simp only [hch, if_neg hfull]
        rfl
      rw [heq]
      obtain ⟨hwf0, hperm0⟩ := wf_commit s d ch 0 1 0 (ch.data ++ [v])
        .NONE s.pend hw hch (fun p hp => hp) hw.keys_nodup
        (fun p hp _ => hp)
      have hwf' : sys_wf ⟨set_channel s.bus d.toNat
          (some ⟨ch.size_limit, ch.send_queue, ch.recv_queue.drop 1,
            ch.data ++ [v]⟩), .NONE, s.pend⟩ := hwf0
      have hperm1 : (queuesList s.bus).Perm
          (queuesList (set_channel s.bus d.toNat
            (some ⟨ch.size_limit, ch.send_queue, ch.recv_queue.drop 1,
              ch.data ++ [v]⟩)) ++ (ch.recv_queue.take 1 ++ [])) :=
        hperm0
      rw [List.append_nil] at hperm1
      have hsub : ∀ a, a ∈ queuesList (set_channel s.bus d.toNat
          (some ⟨ch.size_limit, ch.send_queue, ch.recv_queue.drop 1,
            ch.data ++ [v]⟩)) → a ∈ queuesList s.bus :=
        fun a ha => hperm1.symm.subset (List.mem_append.mpr (Or.inl ha))
      refine ⟨hwf', ?_⟩
      intro d' ch'' hch''
      by_cases hdd : d' = d
      · subst hdd
        have hch3 : chanAt (set_channel s.bus d'.toNat
            (some ⟨ch.size_limit, ch.send_queue, ch.recv_queue.drop 1,
              ch.data ++ [v]⟩)) d' = some ch'' := hch''
        rw [chanAt_set_self hch] at hch3
        cases hch3
        have hJ := hj d' ch hch
        constructor
        · intro hq
          have hq' : ch.send_queue ≠ [] := hq
          have hJ1 := hJ.1 hq'
          have hmS : sendersWoken s d' ≤ sendersWoken
              ⟨set_channel s.bus d'.toNat
                (some ⟨ch.size_limit, ch.send_queue, ch.recv_queue.drop 1,
                  ch.data ++ [v]⟩), .NONE, s.pend⟩ d' :=
            wokenCount_mono s.pend _ _ (is_send_to d') hsub
          show ch.size_limit ≤ (ch.data ++ [v]).length + _
          rw [List.length_append, List.length_singleton]
          omega
        · intro hq
          have hq' : ch.recv_queue.drop 1 ≠ [] := hq
          have hrqne : ch.recv_queue ≠ [] := by
            intro hcon
            rw [hcon] at hq'
            exact hq' rfl
          have hJ2 := hJ.2 hrqne
          obtain ⟨hnd, hpend⟩ := take_recv_flips s d' ch 1 hw hch
          have hflip : recvWoken s d' + (ch.recv_queue.take 1).length ≤
              recvWoken ⟨set_channel s.bus d'.toNat
                (some ⟨ch.size_limit, ch.send_queue, ch.recv_queue.drop 1,
                  ch.data ++ [v]⟩), .NONE, s.pend⟩ d' :=
            wokenCount_flip s.pend _ _ (ch.recv_queue.take 1)
              (ch.recv_queue.take 1) (is_recv_to d') hperm1
              hw.queues_nodup hnd (fun x hx => hx) hpend
          have hlen1 : (ch.recv_queue.take 1).length = 1 := by
            rw [List.length_take]
            have := List.length_pos.mpr hrqne
            omega
          show (ch.data ++ [v]).length ≤ _
          rw [List.length_append, List.length_singleton]
          omega
      · have hch3 : chanAt (set_channel s.bus d.toNat
            (some ⟨ch.size_limit, ch.send_queue, ch.recv_queue.drop 1,
              ch.data ++ [v]⟩)) d' = some ch'' := hch''
        rw [chanAt_set_ne hd0 _ hdd] at hch3
        have hJ := hj d' ch'' hch3
        have hmS : sendersWoken s d' ≤ sendersWoken
            ⟨set_channel s.bus d.toNat
              (some ⟨ch.size_limit, ch.send_queue, ch.recv_queue.drop 1,
                ch.data ++ [v]⟩), .NONE, s.pend⟩ d' :=
          wokenCount_mono s.pend _ _ (is_send_to d') hsub
        have hmR : recvWoken s d' ≤ recvWoken
            ⟨set_channel s.bus d.toNat
              (some ⟨ch.size_limit, ch.send_queue, ch.recv_queue.drop 1,
                ch.data ++ [v]⟩), .NONE, s.pend⟩ d' :=
          wokenCount_mono s.pend _ _ (is_recv_to d') hsub
        constructor
        · intro hq
          have := hJ.1 hq
          omega
        · intro hq
          have := hJ.2 hq
          omega

theorem preserve_try_recv (s : sys) (d : Int)
    (hw : sys_wf s) (hj : inv_counts s) :
    sys_wf (sysOfEff s (coro_bus_try_recv (some s.bus) d)) ∧
    inv_counts (sysOfEff s (coro_bus_try_recv (some s.bus) d)) := by
  cases hch : chanAt s.bus d with
  | none =>
    have heq : sysOfEff s (coro_bus_try_recv (some s.bus) d) =
        ⟨s.bus, .NO_CHANNEL, s.pend⟩ := by
      unfold sysOfEff coro_bus_try_recv
      simp only [hch]
      rfl
    rw [heq]
    exact preserve_same_bus s _ hw hj
  | some ch =>
    obtain ⟨hd0, -, -⟩ := chanAt_elim hch
    cases hdata : ch.data with
    | nil =>
      have heq : sysOfEff s (coro_bus_try_recv (some s.bus) d) =
          ⟨s.bus, .WOULD_BLOCK, s.pend⟩ := by
        unfold sysOfEff coro_bus_try_recv
        simp only [hch, hdata]
        rfl
      rw [heq]
      exact preserve_same_bus s _ hw hj
    | cons v rest =>
      have heq : sysOfEff s (coro_bus_try_recv (some s.bus) d) =
          ⟨{ set_channel s.bus d.toNat (some ⟨ch.size_limit,
              ch.send_queue.drop 1, ch.recv_queue, rest⟩) with
            broadcast_queue := s.bus.broadcast_queue.drop 1 }, .NONE,
            s.pend⟩ := by
        unfold sysOfEff coro_bus_try_recv
        simp only [hch, hdata]
        rfl
      rw [heq]
      obtain ⟨hwf0, hperm0⟩ := wf_commit s d ch 1 0 1 rest .NONE
        s.pend hw hch (fun p hp => hp) hw.keys_nodup (fun p hp _ => hp)
      refine ⟨hwf0, ?_⟩
      have hperm1 : (queuesList s.bus).Perm
          (queuesList { set_channel s.bus d.toNat
              (some ⟨ch.size_limit, ch.send_queue.drop 1, ch.recv_queue,
                rest⟩) with
            broadcast_queue := s.bus.broadcast_queue.drop 1 } ++
          ((ch.send_queue.take 1 ++ []) ++
            s.bus.broadcast_queue.take 1)) := hperm0
      rw [List.append_nil] at hperm1
      have hsub : ∀ a, a ∈ queuesList { set_channel s.bus d.toNat
          (some ⟨ch.size_limit, ch.send_queue.drop 1, ch.recv_queue,
            rest⟩) with
          broadcast_queue := s.bus.broadcast_queue.drop 1 } →
          a ∈ queuesList s.bus :=
        fun a ha => hperm1.symm.subset (List.mem_append.mpr (Or.inl ha))
      intro d' ch'' hch''
      have hlen : ch.data.length = rest.length + 1 := by
        rw [hdata]
        rfl
      by_cases hdd : d' = d
      · subst hdd
        have hch3 : chanAt { set_channel s.bus d'.toNat
            (some ⟨ch.size_limit, ch.send_queue.drop 1, ch.recv_queue,
              rest⟩) with
            broadcast_queue := s.bus.broadcast_queue.drop 1 } d' =
            some ch'' := hch''
        rw [chanAt_broadcast_irrelevant, chanAt_set_self hch] at hch3
        cases hch3
        have hJ := hj d' ch hch
        constructor
        · intro hq
          have hq' : ch.send_queue.drop 1 ≠ [] := hq
          have hsqne : ch.send_queue ≠ [] := by
            intro hcon
            rw [hcon] at hq'
            exact hq' rfl
          have hJ1 := hJ.1 hsqne
          obtain ⟨hnd, hpend⟩ := take_send_flips s d' ch 1 hw hch
          have hflip : sendersWoken s d' + (ch.send_queue.take 1).length ≤
              sendersWoken ⟨{ set_channel s.bus d'.toNat
                  (some ⟨ch.size_limit, ch.send_queue.drop 1,
                    ch.recv_queue, rest⟩) with
                broadcast_queue := s.bus.broadcast_queue.drop 1 }, .NONE,
                s.pend⟩ d' :=
            wokenCount_flip s.pend _ _
              (ch.send_queue.take 1 ++ s.bus.broadcast_queue.take 1)
              (ch.send_queue.take 1) (is_send_to d') hperm1
              hw.queues_nodup hnd
              (fun x hx => List.mem_append.mpr (Or.inl hx)) hpend
          have hlen1 : (ch.send_queue.take 1).length = 1 := by
            rw [List.length_take]
            have := List.length_pos.mpr hsqne
            omega
          show ch.size_limit ≤ rest.length + _
          omega
        · intro hq
          have hq' : ch.recv_queue ≠ [] := hq
          have hJ2 := hJ.2 hq'
          have hmR : recvWoken s d' ≤ recvWoken
              ⟨{ set_channel s.bus d'.toNat
                  (some ⟨ch.size_limit, ch.send_queue.drop 1,
                    ch.recv_queue, rest⟩) with
                broadcast_queue := s.bus.broadcast_queue.drop 1 }, .NONE,
                s.pend⟩ d' :=
            wokenCount_mono s.pend _ _ (is_recv_to d') hsub
          show rest.length ≤ _
          omega
      · have hch3 : chanAt { set_channel s.bus d.toNat
            (some ⟨ch.size_limit, ch.send_queue.drop 1, ch.recv_queue,
              rest⟩) with
            broadcast_queue := s.bus.broadcast_queue.drop 1 } d' =
            some ch'' := hch''
        rw [chanAt_broadcast_irrelevant, chanAt_set_ne hd0 _ hdd] at hch3
        have hJ := hj d' ch'' hch3
        have hmS : sendersWoken s d' ≤ sendersWoken
            ⟨{ set_channel s.bus d.toNat
                (some ⟨ch.size_limit, ch.send_queue.drop 1,
                  ch.recv_queue, rest⟩) with
              broadcast_queue := s.bus.broadcast_queue.drop 1 }, .NONE,
              s.pend⟩ d' :=
          wokenCount_mono s.pend _ _ (is_send_to d') hsub
        have hmR : recvWoken s d' ≤ recvWoken
            ⟨{ set_channel s.bus d.toNat
                (some ⟨ch.size_limit, ch.send_queue.drop 1,
                  ch.recv_queue, rest⟩) with
              broadcast_queue := s.bus.broadcast_queue.drop 1 }, .NONE,
              s.pend⟩ d' :=
          wokenCount_mono s.pend _ _ (is_recv_to d') hsub
        constructor
        · intro hq
          have := hJ.1 hq
          omega
        · intro hq
          have := hJ.2 hq
          omega

theorem preserve_try_send_v (s : sys) (d : Int) (vs : List Nat)
    (hw : sys_wf s) (hj : inv_counts s) :
    sys_wf (sysOfEff s (coro_bus_try_send_v (some s.bus) d vs)) ∧
    inv_counts (sysOfEff s (coro_bus_try_send_v (some s.bus) d vs)) := by
  by_cases hvs0 : vs.length = 0
  · have heq : sysOfEff s (coro_bus_try_send_v (some s.bus) d vs) =
        ⟨s.bus, .NONE, s.pend⟩ := by
      unfold sysOfEff coro_bus_try_send_v
      simp only [if_pos hvs0]
      rfl
    rw [heq]
    exact preserve_same_bus s _ hw hj
  · cases hch : chanAt s.bus d with
    | none =>
      have heq : sysOfEff s (coro_bus_try_send_v (some s.bus) d vs) =
          ⟨s.bus, .NO_CHANNEL, s.pend⟩ := by
        unfold sysOfEff coro_bus_try_send_v
        simp only [if_neg hvs0, hch]
        rfl
      rw [heq]
      exact preserve_same_bus s _ hw hj
    | some ch =>
      obtain ⟨hd0, -, -⟩ := chanAt_elim hch
      by_cases hfull : ch.size_limit ≤ ch.data.length
      · have heq : sysOfEff s (coro_bus_try_send_v (some s.bus) d vs) =
            ⟨s.bus, .WOULD_BLOCK, s.pend⟩ := by
          unfold sysOfEff coro_bus_try_send_v
          simp only [if_neg hvs0, hch, if_pos hfull]
          rfl
        rw [heq]
        exact preserve_same_bus s _ hw hj
      · have heq : sysOfEff s (coro_bus_try_send_v (some s.bus) d vs) =
            ⟨set_channel s.bus d.toNat (some ⟨ch.size_limit,
              ch.send_queue,
              ch.recv_queue.drop
                (min (ch.size_limit - ch.data.length) vs.length),
              ch.data ++ vs.take
                (min (ch.size_limit - ch.data.length) vs.length)⟩),
              .NONE, s.pend⟩ := by
          unfold sysOfEff coro_bus_try_send_v
          simp only [if_neg hvs0, hch, if_neg hfull]
          rfl
        rw [heq]
        obtain ⟨hwf0, hperm0⟩ := wf_commit s d ch 0
          (min (ch.size_limit - ch.data.length) vs.length) 0
          (ch.data ++ vs.take
            (min (ch.size_limit - ch.data.length) vs.length)) .NONE
          s.pend hw hch (fun p hp => hp) hw.keys_nodup
          (fun p hp _ => hp)
        have hwf' : sys_wf ⟨set_channel s.bus d.toNat
            (some ⟨ch.size_limit, ch.send_queue,
              ch.recv_queue.drop
                (min (ch.size_limit - ch.data.length) vs.length),
              ch.data ++ vs.take
                (min (ch.size_limit - ch.data.length) vs.length)⟩),
            .NONE, s.pend⟩ := hwf0
        have hperm1 : (queuesList s.bus).Perm
            (queuesList (set_channel s.bus d.toNat
              (some ⟨ch.size_limit, ch.send_queue,
                ch.recv_queue.drop
                  (min (ch.size_limit - ch.data.length) vs.length),
                ch.data ++ vs.take
                  (min (ch.size_limit - ch.data.length) vs.length)⟩)) ++
              (ch.recv_queue.take
                (min (ch.size_limit - ch.data.length) vs.length) ++
                [])) := hperm0
        rw [List.append_nil] at hperm1
        have hsub : ∀ a, a ∈ queuesList (set_channel s.bus d.toNat
            (some ⟨ch.size_limit, ch.send_queue,
              ch.recv_queue.drop
                (min (ch.size_limit - ch.data.length) vs.length),
              ch.data ++ vs.take
                (min (ch.size_limit - ch.data.length) vs.length)⟩)) →
            a ∈ queuesList s.bus :=
          fun a ha => hperm1.symm.subset (List.mem_append.mpr (Or.inl ha))
        refine ⟨hwf', ?_⟩
        intro d' ch'' hch''
        have hlen2 : (ch.data ++ vs.take
            (min (ch.size_limit - ch.data.length) vs.length)).length =
            ch.data.length + min
              (min (ch.size_limit - ch.data.length) vs.length)
              vs.length := by
          rw [List.length_append, List.length_take]
        by_cases hdd : d' = d
        · subst hdd
          have hch3 : chanAt (set_channel s.bus d'.toNat
              (some ⟨ch.size_limit, ch.send_queue,
                ch.recv_queue.drop
                  (min (ch.size_limit - ch.data.length) vs.length),
                ch.data ++ vs.take
                  (min (ch.size_limit - ch.data.length) vs.length)⟩)) d' =
              some ch'' := hch''
          rw [chanAt_set_self hch] at hch3
          cases hch3
          have hJ := hj d' ch hch
          constructor
          · intro hq
            have hq' : ch.send_queue ≠ [] := hq
            have hJ1 := hJ.1 hq'
            have hmS : sendersWoken s d' ≤ sendersWoken
                ⟨set_channel s.bus d'.toNat
                  (some ⟨ch.size_limit, ch.send_queue,
                    ch.recv_queue.drop
                      (min (ch.size_limit - ch.data.length) vs.length),
                    ch.data ++ vs.take
                      (min (ch.size_limit - ch.data.length)
                        vs.length)⟩), .NONE, s.pend⟩ d' :=
              wokenCount_mono s.pend _ _ (is_send_to d') hsub
            show ch.size_limit ≤ (ch.data ++ vs.take
                (min (ch.size_limit - ch.data.length) vs.length)).length
                + _
            rw [hlen2]
            omega
          · intro hq
            have hq' : ch.recv_queue.drop
                (min (ch.size_limit - ch.data.length) vs.length) ≠ [] :=
              hq
            have hrqne : ch.recv_queue ≠ [] := by
              intro hcon
              rw [hcon] at hq'
              exact hq' (List.drop_nil)
            have hJ2 := hJ.2 hrqne
            obtain ⟨hnd, hpend⟩ := take_recv_flips s d' ch
              (min (ch.size_limit - ch.data.length) vs.length) hw hch
            have hflip : recvWoken s d' + (ch.recv_queue.take
                (min (ch.size_limit - ch.data.length) vs.length)).length ≤
                recvWoken ⟨set_channel s.bus d'.toNat
                  (some ⟨ch.size_limit, ch.send_queue,
                    ch.recv_queue.drop
                      (min (ch.size_limit - ch.data.length) vs.length),
                    ch.data ++ vs.take
                      (min (ch.size_limit - ch.data.length)
                        vs.length)⟩), .NONE, s.pend⟩ d' :=
              wokenCount_flip s.pend _ _
                (ch.recv_queue.take
                  (min (ch.size_limit - ch.data.length) vs.length))
                (ch.recv_queue.take
                  (min (ch.size_limit - ch.data.length) vs.length))
                (is_recv_to d') hperm1
                hw.queues_nodup hnd (fun x hx => hx) hpend
            have hlenS : (ch.recv_queue.take
                (min (ch.size_limit - ch.data.length) vs.length)).length =
                min (min (ch.size_limit - ch.data.length) vs.length)
                  ch.recv_queue.length := List.length_take _ _
            have hdl : (ch.recv_queue.drop
                (min (ch.size_limit - ch.data.length) vs.length)).length =
                ch.recv_queue.length -
                  min (ch.size_limit - ch.data.length) vs.length :=
              List.length_drop _ _
            have hpos := List.length_pos.mpr hq'
            show (ch.data ++ vs.take
                (min (ch.size_limit - ch.data.length) vs.length)).length
                ≤ _
            rw [hlen2]
            omega
        · have hch3 : chanAt (set_channel s.bus d.toNat
              (some ⟨ch.size_limit, ch.send_queue,
                ch.recv_queue.drop
                  (min (ch.size_limit - ch.data.length) vs.length),
                ch.data ++ vs.take
                  (min (ch.size_limit - ch.data.length) vs.length)⟩)) d' =
              some ch'' := hch''
          rw [chanAt_set_ne hd0 _ hdd] at hch3
          have hJ := hj d' ch'' hch3
          have hmS : sendersWoken s d' ≤ sendersWoken
              ⟨set_channel s.bus d.toNat
                (some ⟨ch.size_limit, ch.send_queue,
                  ch.recv_queue.drop
                    (min (ch.size_limit - ch.data.length) vs.length),
                  ch.data ++ vs.take
                    (min (ch.size_limit - ch.data.length)
                      vs.length)⟩), .NONE, s.pend⟩ d' :=
            wokenCount_mono s.pend _ _ (is_send_to d') hsub
          have hmR : recvWoken s d' ≤ recvWoken
              ⟨set_channel s.bus d.toNat
                (some ⟨ch.size_limit, ch.send_queue,
                  ch.recv_queue.drop
                    (min (ch.size_limit - ch.data.length) vs.length),
                  ch.data ++ vs.take
                    (min (ch.size_limit - ch.data.length)
                      vs.length)⟩), .NONE, s.pend⟩ d' :=
            wokenCount_mono s.pend _ _ (is_recv_to d') hsub
          constructor
          · intro hq
            have := hJ.1 hq
            omega
          · intro hq
            have := hJ.2 hq
            omega

theorem preserve_try_recv_v (s : sys) (d : Int) (cap : Nat)
    (hw : sys_wf s) (hj : inv_counts s) :
    sys_wf (sysOfEff s (coro_bus_try_recv_v (some s.bus) d cap)) ∧
    inv_counts (sysOfEff s (coro_bus_try_recv_v (some s.bus) d cap)) := by
  by_cases hcap0 : cap = 0
  · have heq : sysOfEff s (coro_bus_try_recv_v (some s.bus) d cap) =
        ⟨s.bus, .NONE, s.pend⟩ := by
      unfold sysOfEff coro_bus_try_recv_v
      simp only [if_pos hcap0]
      rfl
    rw [heq]
    exact preserve_same_bus s _ hw hj
  · cases hch : chanAt s.bus d with
    | none =>
      have heq : sysOfEff s (coro_bus_try_recv_v (some s.bus) d cap) =
          ⟨s.bus, .NO_CHANNEL, s.pend⟩ := by
        unfold sysOfEff coro_bus_try_recv_v
        simp only [if_neg hcap0, hch]
        rfl
      rw [heq]
      exact preserve_same_bus s _ hw hj
    | some ch =>
      obtain ⟨hd0, -, -⟩ := chanAt_elim hch
      by_cases hemp : ch.data.isEmpty = true
      · have heq : sysOfEff s (coro_bus_try_recv_v (some s.bus) d cap) =
            ⟨s.bus, .WOULD_BLOCK, s.pend⟩ := by
          unfold sysOfEff coro_bus_try_recv_v
          simp only [if_neg hcap0, hch, if_pos hemp]
          rfl
        rw [heq]
        exact preserve_same_bus s _ hw hj
      · have heq : sysOfEff s (coro_bus_try_recv_v (some s.bus) d cap) =
            ⟨{ set_channel s.bus d.toNat (some ⟨ch.size_limit,
                ch.send_queue.drop (min ch.data.length cap),
                ch.recv_queue,
                ch.data.drop (min ch.data.length cap)⟩) with
              broadcast_queue := s.bus.broadcast_queue.drop 1 }, .NONE,
              s.pend⟩ := by
          unfold sysOfEff coro_bus_try_recv_v
          simp only [if_neg hcap0, hch, if_neg hemp]
          rfl
        rw [heq]
        obtain ⟨hwf0, hperm0⟩ := wf_commit s d ch
          (min ch.data.length cap) 0 1
          (ch.data.drop (min ch.data.length cap)) .NONE
          s.pend hw hch (fun p hp => hp) hw.keys_nodup
          (fun p hp _ => hp)
        refine ⟨hwf0, ?_⟩
        have hperm1 : (queuesList s.bus).Perm
            (queuesList { set_channel s.bus d.toNat
                (some ⟨ch.size_limit,
                  ch.send_queue.drop (min ch.data.length cap),
                  ch.recv_queue,
                  ch.data.drop (min ch.data.length cap)⟩) with
              broadcast_queue := s.bus.broadcast_queue.drop 1 } ++
            ((ch.send_queue.take (min ch.data.length cap) ++ []) ++
              s.bus.broadcast_queue.take 1)) := hperm0
        rw [List.append_nil] at hperm1
        have hsub : ∀ a, a ∈ queuesList { set_channel s.bus d.toNat
            (some ⟨ch.size_limit,
              ch.send_queue.drop (min ch.data.length cap), ch.recv_queue,
              ch.data.drop (min ch.data.length cap)⟩) with
            broadcast_queue := s.bus.broadcast_queue.drop 1 } →
            a ∈ queuesList s.bus :=
          fun a ha => hperm1.symm.subset (List.mem_append.mpr (Or.inl ha))
        intro d' ch'' hch''
        have hlen2 : (ch.data.drop (min ch.data.length cap)).length =
            ch.data.length - min ch.data.length cap :=
          List.length_drop _ _
        by_cases hdd : d' = d
        · subst hdd
          have hch3 : chanAt { set_channel s.bus d'.toNat
              (some ⟨ch.size_limit,
                ch.send_queue.drop (min ch.data.length cap),
                ch.recv_queue,
                ch.data.drop (min ch.data.length cap)⟩) with
              broadcast_queue := s.bus.broadcast_queue.drop 1 } d' =
              some ch'' := hch''
          rw [chanAt_broadcast_irrelevant, chanAt_set_self hch] at hch3
          cases hch3
          have hJ := hj d' ch hch
          constructor
          · intro hq
            have hq' : ch.send_queue.drop (min ch.data.length cap) ≠ [] :=
              hq
            have hsqne : ch.send_queue ≠ [] := by
              intro hcon
              rw [hcon] at hq'
              exact hq' (List.drop_nil)
            have hJ1 := hJ.1 hsqne
            obtain ⟨hnd, hpend⟩ := take_send_flips s d' ch
              (min ch.data.length cap) hw hch
            have hflip : sendersWoken s d' +
                (ch.send_queue.take (min ch.data.length cap)).length ≤
                sendersWoken ⟨{ set_channel s.bus d'.toNat
                    (some ⟨ch.size_limit,
                      ch.send_queue.drop (min ch.data.length cap),
                      ch.recv_queue,
                      ch.data.drop (min ch.data.length cap)⟩) with
                  broadcast_queue := s.bus.broadcast_queue.drop 1 },
                  .NONE, s.pend⟩ d' :=
              wokenCount_flip s.pend _ _
                (ch.send_queue.take (min ch.data.length cap) ++
                  s.bus.broadcast_queue.take 1)
                (ch.send_queue.take (min ch.data.length cap))
                (is_send_to d') hperm1
                hw.queues_nodup hnd
                (fun x hx => List.mem_append.mpr (Or.inl hx)) hpend
            have hlenS : (ch.send_queue.take
                (min ch.data.length cap)).length =
                min (min ch.data.length cap) ch.send_queue.length :=
              List.length_take _ _
            have hdl : (ch.send_queue.drop
                (min ch.data.length cap)).length =
                ch.send_queue.length - min ch.data.length cap :=
              List.length_drop _ _
            have hpos := List.length_pos.mpr hq'
            show ch.size_limit ≤
                (ch.data.drop (min ch.data.length cap)).length + _
            rw [hlen2]
            omega
          · intro hq
            have hq' : ch.recv_queue ≠ [] := hq
            have hJ2 := hJ.2 hq'
            have hmR : recvWoken s d' ≤ recvWoken
                ⟨{ set_channel s.bus d'.toNat
                    (some ⟨ch.size_limit,
                      ch.send_queue.drop (min ch.data.length cap),
                      ch.recv_queue,
                      ch.data.drop (min ch.data.length cap)⟩) with
                  broadcast_queue := s.bus.broadcast_queue.drop 1 },
                  .NONE, s.pend⟩ d' :=
              wokenCount_mono s.pend _ _ (is_recv_to d') hsub
            show (ch.data.drop (min ch.data.length cap)).length ≤ _
            rw [hlen2]
            omega
        · have hch3 : chanAt { set_channel s.bus d.toNat
              (some ⟨ch.size_limit,
                ch.send_queue.drop (min ch.data.length cap),
                ch.recv_queue,
                ch.data.drop (min ch.data.length cap)⟩) with
              broadcast_queue := s.bus.broadcast_queue.drop 1 } d' =
              some ch'' := hch''
          rw [chanAt_broadcast_irrelevant, chanAt_set_ne hd0 _ hdd]
            at hch3
          have hJ := hj d' ch'' hch3
          have hmS : sendersWoken s d' ≤ sendersWoken
              ⟨{ set_channel s.bus d.toNat
                  (some ⟨ch.size_limit,
                    ch.send_queue.drop (min ch.data.length cap),
                    ch.recv_queue,
                    ch.data.drop (min ch.data.length cap)⟩) with
                broadcast_queue := s.bus.broadcast_queue.drop 1 },
                .NONE, s.pend⟩ d' :=
            wokenCount_mono s.pend _ _ (is_send_to d') hsub
          have hmR : recvWoken s d' ≤ recvWoken
              ⟨{ set_channel s.bus d.toNat
                  (some ⟨ch.size_limit,
                    ch.send_queue.drop (min ch.data.length cap),
                    ch.recv_queue,
                    ch.data.drop (min ch.data.length cap)⟩) with
                broadcast_queue := s.bus.broadcast_queue.drop 1 },
                .NONE, s.pend⟩ d' :=
            wokenCount_mono s.pend _ _ (is_recv_to d') hsub
          constructor
          · intro hq
            have := hJ.1 hq
            omega
          · intro hq
            have := hJ.2 hq
            omega

theorem preserve_try_broadcast (s : sys) (v : Nat)
    (hw : sys_wf s) (hj : inv_counts s) :
    sys_wf (sysOfEff s (coro_bus_try_broadcast (some s.bus) v)) ∧
    inv_counts (sysOfEff s (coro_bus_try_broadcast (some s.bus) v)) := by
  by_cases hempty : s.bus.channels.isEmpty = true
  · have heq : sysOfEff s (coro_bus_try_broadcast (some s.bus) v) =
        ⟨s.bus, .NO_CHANNEL, s.pend⟩ := by
      unfold sysOfEff coro_bus_try_broadcast
      simp only [if_pos hempty]
      rfl
    rw [heq]
    exact preserve_same_bus s _ hw hj
  · by_cases hop : has_open_channel s.bus = true
    · by_cases hsp : all_open_have_space s.bus = true
      · have heq : sysOfEff s (coro_bus_try_broadcast (some s.bus) v) =
            ⟨broadcast_push s.bus v, .NONE, s.pend⟩ := by
          unfold sysOfEff coro_bus_try_broadcast
          simp only [if_neg hempty, if_neg (not_not_intro hop),
            if_pos hsp]
          rfl
        rw [heq]
        have hperm := perm_broadcast_push s.bus v
        have hsub : ∀ a, a ∈ queuesList (broadcast_push s.bus v) →
            a ∈ queuesList s.bus :=
          fun a ha => hperm.symm.subset (List.mem_append.mpr (Or.inl ha))
        refine ⟨wf_broadcast_commit s v .NONE s.pend hw
          (fun p hp => hp) hw.keys_nodup (fun p hp _ => hp), ?_⟩
        intro d' ch'' hch''
        have hch3 : chanAt (broadcast_push s.bus v) d' = some ch'' :=
          hch''
        rw [chanAt_broadcast_push] at hch3
        cases hch0 : chanAt s.bus d' with
        | none =>
          rw [hch0] at hch3
          exact Option.noConfusion hch3
        | some ch =>
          rw [hch0, Option.map_some'] at hch3
          injection hch3 with hch4
          subst hch4
          have hJ := hj d' ch hch0
          constructor
          · intro hq
            have hq' : ch.send_queue ≠ [] := hq
            have hJ1 := hJ.1 hq'
            have hmS : sendersWoken s d' ≤ sendersWoken
                ⟨broadcast_push s.bus v, .NONE, s.pend⟩ d' :=
              wokenCount_mono s.pend _ _ (is_send_to d') hsub
            show ch.size_limit ≤ (ch.data ++ [v]).length + _
            rw [List.length_append, List.length_singleton]
            omega
          · intro hq
            have hq' : ch.recv_queue.drop 1 ≠ [] := hq
            have hrqne : ch.recv_queue ≠ [] := by
              intro hcon
              rw [hcon] at hq'
              exact hq' rfl
            have hJ2 := hJ.2 hrqne
            obtain ⟨hnd, hpend⟩ := take_recv_flips s d' ch 1 hw hch0
            have hflip : recvWoken s d' +
                (ch.recv_queue.take 1).length ≤ recvWoken
                ⟨broadcast_push s.bus v, .NONE, s.pend⟩ d' :=
              wokenCount_flip s.pend _ _ (broadcast_woken s.bus)
                (ch.recv_queue.take 1) (is_recv_to d') hperm
                hw.queues_nodup hnd
                (fun x hx => mem_broadcast_woken hch0 hx) hpend
            have hlen1 : (ch.recv_queue.take 1).length = 1 := by
              rw [List.length_take]
              have := List.length_pos.mpr hrqne
              omega
            show (ch.data ++ [v]).length ≤ _
            rw [List.length_append, List.length_singleton]
            omega
      · have heq : sysOfEff s (coro_bus_try_broadcast (some s.bus) v) =
            ⟨s.bus, .WOULD_BLOCK, s.pend⟩ := by
          unfold sysOfEff coro_bus_try_broadcast
          simp only [if_neg hempty, if_neg (not_not_intro hop),
            if_neg hsp]
          rfl
        rw [heq]
        exact preserve_same_bus s _ hw hj
    · have hop2 : ¬ has_open_channel s.bus = true := hop
      have heq : sysOfEff s (coro_bus_try_broadcast (some s.bus) v) =
          ⟨s.bus, .NO_CHANNEL, s.pend⟩ := by
        unfold sysOfEff coro_bus_try_broadcast
        simp only [if_neg hempty, if_pos hop2]
        rfl
      rw [heq]
      exact preserve_same_bus s _ hw hj

theorem step_preserves {s s' : sys} (hw : sys_wf s) (hj : inv_counts s)
    (hstep : step s s') : sys_wf s' ∧ inv_counts s' := by
  cases hstep with
  | errno_write e => exact preserve_same_bus s e hw hj
  | chan_open cap => exact preserve_open s cap hw hj
  | chan_close d => exact preserve_close s d hw hj
  | do_try_send d v => exact preserve_try_send s d v hw hj
  | do_try_recv d => exact preserve_try_recv s d hw hj
  | do_try_send_v d vs => exact preserve_try_send_v s d vs hw hj
  | do_try_recv_v d cap => exact preserve_try_recv_v s d cap hw hj
  | do_try_broadcast v => exact preserve_try_broadcast s v hw hj
  | call c op hnp hnq hwf0 =>
    have hcP : ∀ p ∈ s.pend, p.1 = c → p.2 = op :=
      fun p hp hpc =>
        absurd (List.mem_map.mpr ⟨p, hp, hpc⟩) hnp
    cases op with
    | send d v => exact preserve_run_send s c d v hw hj hnq hcP
    | recv d => exact preserve_run_recv s c d hw hj hnq hcP
    | send_v d vs => exact preserve_run_send_v s c d vs hwf0 hw hj hnq hcP
    | recv_v d cap =>
      exact preserve_run_recv_v s c d cap hwf0 hw hj hnq hcP
    | broadcast v => exact preserve_run_broadcast s c v hw hj hnq hcP
  | resume c op hmem hnq =>
    have hcP : ∀ p ∈ s.pend, p.1 = c → p.2 = op := by
      intro p hp hpc
      have hp2 : (c, p.2) ∈ s.pend := by
        rw [← hpc]
        exact hp
      exact pend_entry_unique hw.keys_nodup hp2 hmem
    have hok := hw.pend_ok (c, op) hmem
    cases op with
    | send d v => exact preserve_run_send s c d v hw hj hnq hcP
    | recv d => exact preserve_run_recv s c d hw hj hnq hcP
    | send_v d vs => exact preserve_run_send_v s c d vs hok hw hj hnq hcP
    | recv_v d cap =>
      exact preserve_run_recv_v s c d cap hok hw hj hnq hcP
    | broadcast v => exact preserve_run_broadcast s c v hw hj hnq hcP

theorem init_wf : sys_wf init_sys ∧ inv_counts init_sys := by
  constructor
  · refine ⟨List.nodup_nil, List.nodup_nil, ?_, ?_, ?_, ?_⟩
    · intro d ch c hch hc
      obtain ⟨-, hlt, -⟩ := chanAt_elim hch
      have hlt0 : d.toNat < 0 := hlt
      exact absurd hlt0 (Nat.not_lt_zero _)
    · intro d ch c hch hc
      obtain ⟨-, hlt, -⟩ := chanAt_elim hch
      have hlt0 : d.toNat < 0 := hlt
      exact absurd hlt0 (Nat.not_lt_zero _)
    · intro c hc
      cases hc
    · intro p hp
      cases hp
  · intro d ch hch
    obtain ⟨-, hlt, -⟩ := chanAt_elim hch
    have hlt0 : d.toNat < 0 := hlt
    exact absurd hlt0 (Nat.not_lt_zero _)

theorem reachable_inv {s : sys} (h : reachable s) :
    sys_wf s ∧ inv_counts s := by
  induction h with
  | refl => exact init_wf
  | tail hrest hstep ih => exact step_preserves ih.1 ih.2 hstep

/-- C3 (amended): in every reachable state of the cooperative system, an
open channel with spare room can have send waiters only while some woken
pending sender for it (in `pend` but in no wait queue) has yet to re-run,
and a channel holding data can have recv waiters only while some woken
pending receiver for it has yet to re-run; once those woken coroutines
resume, they either fill the room, drain the data, or re-queue. -/
theorem C3_wait_queue_invariant (s : sys) (hs : reachable s)
    (d : Int) (ch : coro_bus_channel) (hch : chanAt s.bus d = some ch) :
    (ch.send_queue ≠ [] → ch.data.length < ch.size_limit →
      ∃ c op, (c, op) ∈ s.pend ∧ is_send_to d op = true ∧
        c ∉ queuesList s.bus) ∧
    (ch.recv_queue ≠ [] → 0 < ch.data.length →
      ∃ c op, (c, op) ∈ s.pend ∧ is_recv_to d op = true ∧
        c ∉ queuesList s.bus) := by
  obtain ⟨hw, hj⟩ := reachable_inv hs
  have hJ := hj d ch hch
  constructor
  · intro hq hroom
    have h1 := hJ.1 hq
    have hpos : 0 < sendersWoken s d := by omega
    unfold sendersWoken wokenCount at hpos
    obtain ⟨p, hp, hPp⟩ := List.countP_pos_iff.mp hpos
    have h2 := (Bool.and_eq_true _ _).mp hPp
    refine ⟨p.1, p.2, hp, h2.1, ?_⟩
    simpa using h2.2
  · intro hq hlen
    have h1 := hJ.2 hq
    have hpos : 0 < recvWoken s d := by omega
    unfold recvWoken wokenCount at hpos
    obtain ⟨p, hp, hPp⟩ := List.countP_pos_iff.mp hpos
    have h2 := (Bool.and_eq_true _ _).mp hPp
    refine ⟨p.1, p.2, hp, h2.1, ?_⟩
    simpa using h2.2

theorem C3_wait_queue_invariant_witness :
    ∃ c op,
      (c, op) ∈ [(2, pending_op.send 0 6), (3, pending_op.send 0 7)] ∧
      is_send_to 0 op = true ∧
      c ∉ queuesList ⟨[some ⟨1, [3], [], []⟩], []⟩ := by
  have hreach : reachable
      ⟨⟨[some ⟨1, [3], [], []⟩], []⟩, .NONE,
        [(2, .send 0 6), (3, .send 0 7)]⟩ := by
    refine .head (step.chan_open init_sys 1) ?_
    refine .head (step.call _ 1 (.send 0 5) (by decide) (by decide)
      trivial) ?_
    refine .head (step.call _ 2 (.send 0 6) (by decide) (by decide)
      trivial) ?_
    refine .head (step.call _ 3 (.send 0 7) (by decide) (by decide)
      trivial) ?_
    refine .head (step.call _ 4 (.recv 0) (by decide) (by decide)
      trivial) ?_
    exact .refl
  exact (C3_wait_queue_invariant _ hreach 0 ⟨1, [3], [], []⟩ rfl).1
    (by decide) (by decide)
